import Mathlib

/-! Chat server: connection registry, dispatcher and broadcaster.

A shallow embedding of the server side of the chat service
(`chat_server/internal`, `chat_server/rdb`, `chat_server/db`), of the wire codec
(`tools`) and of the password step of the client (`chat_client/internal`).

Modelling conventions.

* A `net.Conn` is an identity, modelled by a natural number.
* A Go `map` is a list of key/value pairs with distinct keys; `mapGet`, `mapSet`,
  `mapDelete` and `mapLen` are `m[k]`, `m[k] = v`, `delete(m, k)` and `len(m)`.
  `range` walks the list in its stored order (Go leaves the order unspecified).
* A buffered channel is a FIFO list, oldest element first; a send appends.  A send
  on a full channel blocks until there is room, it never drops, so capacity is not
  modelled.
* `tools.SendMessage` appends the pair (connection, message) to `sendLog`, the
  record of every attempted write, and reports an error exactly when the
  connection is in `writeFails` or has been closed. No function of the server
  changes `writeFails`; writes that begin to fail in the middle of a flow are
  modelled by running the rest of the flow from a state that lists the connection.
* A Go `string` is modelled by a Lean `String`; `len` is the UTF-8 byte length and
  `range` walks its code points.
* Every function below runs as one atomic step. Sections under the write lock
  pair `Lock` with a deferred `Unlock` and are not tracked; `readLocks` counts the
  read locks `broadcastMessage` holds on the registry.
* In the authentication flow the input of a connection is the list of the results
  of its successive receives, `none` for a failed one; a call returns what it has
  not read. A nil-pointer dereference is the outcome `panic`.
* The wire codec is modelled on bytes: a message is its byte sequence and the
  receiving side of a connection is the list of segments that arrive.
-/

namespace ChatServer

/-- A connection handle (`net.Conn`). -/
abbrev NetConn := Nat

/-! ## Go maps -/

section GoMap

variable {K V : Type} [DecidableEq K]

/-- The lookup `v, ok := m[k]`. -/
def mapGet : List (K × V) → K → Option V
  | [], _ => none
  | (k', v) :: m, k => if k' = k then some v else mapGet m k

/-- The removal `delete(m, k)`. -/
def mapDelete (m : List (K × V)) (k : K) : List (K × V) :=
  m.filter (fun e => decide (e.1 ≠ k))

/-- The assignment `m[k] = v`. -/
def mapSet (m : List (K × V)) (k : K) (v : V) : List (K × V) :=
  mapDelete m k ++ [(k, v)]

/-- The size `len(m)`. -/
def mapLen (m : List (K × V)) : Nat := m.length

end GoMap

/-! ## Data model -/

/-- The struct `ClientMessage` of `client_defs.go`; `Conn = none` is the nil handle. -/
structure ClientMessage where
  Conn : Option NetConn
  Name : String
  Message : String
  Type_ : String
  Target : String
deriving DecidableEq, Repr

/-- The struct `rdb.ChatMessage`. -/
structure ChatMessage where
  Name : String
  Message : String
  Type_ : String
deriving DecidableEq, Repr

/-- One entry of a Redis stream (`redis.XMessage`). -/
structure XMessage where
  ID : Nat
  Values : List (String × String)
deriving DecidableEq, Repr

/-- The Redis server as reached through a `*redis.Client`: the chat stream, the
consumer group of the chat stream, the activity ranking, and which commands
currently answer with an error (`none`: the command works). `chatGroup` is the
last-delivered id of the consumer group, `none` while the group does not exist.
Scores of the ranking only ever grow by one from
zero, so they are natural numbers. -/
structure RedisClient where
  chatStream : List XMessage
  nextID : Nat
  chatGroup : Option Nat
  pending : List Nat
  chatRank : List (String × Nat)
  xaddErr : Option String
  zincrbyErr : Option String
  xreadgroupErr : Option String
  xackErr : Option String
  delErr : Option String
  xrevrangeErr : Option String
  zrevrangeErr : Option String
  closed : Bool
deriving DecidableEq, Repr

/-- The key `rdb.ChatStreamKey`. -/
def ChatStreamKey : String := "chat_history_stream"

/-- The key `rdb.ChatRankKey`. -/
def ChatRankKey : String := "chat_activity_rank"

/-- The key `rdb.ChatGroupKey`. -/
def ChatGroupKey : String := "chat_consumer_group"

/-- The struct `rdb.RedisQueueClient`; `Client = none` is a nil client. -/
structure RedisQueueClient where
  Client : Option RedisClient
deriving DecidableEq, Repr

/-- The SQL connection behind `db.UserDB`: the rows of the table `users` (name and
stored password), and whether queries and inserts currently fail. -/
structure SqlDB where
  users : List (String × String)
  queryErr : Bool
  execErr : Bool
  closed : Bool
deriving DecidableEq, Repr

/-- The struct `db.UserDB`; `DB = none` is a nil `*sql.DB`. -/
structure UserDB where
  DB : Option SqlDB
deriving DecidableEq, Repr

/-- The struct `Server` of `client_defs.go`, together with the network it talks to
(`sendLog`, `writeFails`, `closedConns`). -/
structure Server where
  clients : List (String × NetConn)
  clientConnToName : List (NetConn × String)
  messageChan : List ClientMessage
  broadcastChan : List ClientMessage
  registerChan : List NetConn
  unregisterChan : List NetConn
  Done : Bool
  readLocks : Nat
  userDB : Option UserDB
  asyncQueue : Option RedisQueueClient
  sendLog : List (NetConn × String)
  writeFails : List NetConn
  closedConns : List NetConn
deriving DecidableEq, Repr

/-! ## The network -/

/-- The function `tools.SendMessage`: one attempted write of `message` to `conn`.
The Boolean is `true` when the write returns an error. -/
def SendMessage (s : Server) (conn : NetConn) (message : String) : Server × Bool :=
  ({ s with sendLog := s.sendLog ++ [(conn, message)] },
    decide (conn ∈ s.writeFails ∨ conn ∈ s.closedConns))

/-- The call `conn.Close()`. -/
def closeConn (s : Server) (conn : NetConn) : Server :=
  { s with closedConns := s.closedConns ++ [conn] }

/-- The verb `%d` of `fmt.Sprintf`. -/
def fmtInt (n : Int) : String := toString n

/-! ## Connection registry (`client_handler.go`) -/

/-- The method `Server.isNameTaken`. -/
def isNameTaken (s : Server) (name : String) : Bool :=
  (mapGet s.clients name).isSome

/-- The method `Server.getClientConnection`: the connection and the `exists` flag. -/
def getClientConnection (s : Server) (name : String) : Option NetConn :=
  mapGet s.clients name

/-- The method `Server.registerClient`. -/
def registerClient (s : Server) (conn : NetConn) (name : String) : Server :=
  let clients := mapSet s.clients name conn
  let clientConnToName := mapSet s.clientConnToName conn name
  let joinMsg := "【系统消息】用户 " ++ name ++ " 上线了！当前在线人数: "
    ++ fmtInt (mapLen clients)
  let systemMsg : ClientMessage :=
    { Name := "[系统]", Message := joinMsg, Type_ := "system", Conn := none, Target := "" }
  { s with
    clients := clients
    clientConnToName := clientConnToName
    messageChan := s.messageChan ++ [systemMsg] }

/-- The method `Server.removeClient`. The text of the leave message is built from
`len(s.clients)-1` evaluated after the two deletions, as in the source. -/
def removeClient (s : Server) (conn : NetConn) : Server :=
  match mapGet s.clientConnToName conn with
  | none => s
  | some name =>
    match mapGet s.clients name with
    | none => s
    | some currentConn =>
      if currentConn = conn then
        let clients := mapDelete s.clients name
        let clientConnToName := mapDelete s.clientConnToName conn
        let leaveMsg := "【系统消息】用户 " ++ name ++ " 离开了！当前在线人数: "
          ++ fmtInt ((mapLen clients : Int) - 1)
        let systemMsg : ClientMessage :=
          { Name := "[系统]", Message := leaveMsg, Type_ := "system", Conn := none,
            Target := "" }
        closeConn
          { s with
            clients := clients
            clientConnToName := clientConnToName
            messageChan := s.messageChan ++ [systemMsg] }
          conn
      else s

/-! ## Lifecycle (`client_defs.go`, `server_core.go`) -/

/-- The method `UserDB.Close`. -/
def UserDB.Close (udb : UserDB) : UserDB :=
  match udb.DB with
  | some d => { udb with DB := some { d with closed := true } }
  | none => udb

/-- The call `Client.Close()` on a Redis client. -/
def RedisClient.Close (c : RedisClient) : RedisClient := { c with closed := true }

/-- The call `Client.Del(ctx, key)`: deleting the stream key removes the stream
with its consumer group, deleting the ranking key removes the ranking. -/
def RedisClient.Del (c : RedisClient) (key : String) : RedisClient × Option String :=
  if c.closed then (c, some "redis: client is closed")
  else
    match c.delErr with
    | some e => (c, some e)
    | none =>
      if key = ChatStreamKey then
        ({ c with chatStream := [], chatGroup := none, pending := [] }, none)
      else if key = ChatRankKey then ({ c with chatRank := [] }, none)
      else (c, none)

/-- The constructor `NewServer`. Whether the credential store and the Redis server
answer is decided by the environment: `userDB` is what `db.ConnectDB` returns and
`asyncQueue` what `rdb.NewRedisQueueClient` returns. -/
def NewServer (userDB : Option UserDB) (asyncQueue : Option RedisQueueClient) : Server :=
  { clients := []
    clientConnToName := []
    messageChan := []
    broadcastChan := []
    registerChan := []
    unregisterChan := []
    Done := false
    readLocks := 0
    userDB := userDB
    asyncQueue :=
      match asyncQueue with
      | some q =>
        match q.Client with
        | some c =>
          some { q with Client := some ((c.Del ChatStreamKey).1.Del ChatRankKey).1 }
        | none => some q
      | none => none
    sendLog := []
    writeFails := []
    closedConns := [] }

/-- The method `Server.Stop`. -/
def Stop (s : Server) : Server :=
  let s1 := if s.Done then s else { s with Done := true }
  let s2 :=
    match s1.userDB with
    | some udb => { s1 with userDB := some udb.Close }
    | none => s1
  let s3 :=
    match s2.asyncQueue with
    | some q =>
      match q.Client with
      | some c => { s2 with asyncQueue := some { q with Client := some c.Close } }
      | none => s2
    | none => s2
  let s4 := s3.clients.foldl
    (fun st e => closeConn (SendMessage st e.2 "系统: 服务器正在关闭，连接即将断开").1 e.2) s3
  { s4 with clients := [], clientConnToName := [] }

/-! ## Sequences of registry operations -/

/-- The three operations that write the registry. -/
inductive RegistryOp where
  | register (conn : NetConn) (name : String)
  | remove (conn : NetConn)
  | stop
deriving DecidableEq, Repr

/-- One registry operation applied to a server state. -/
def applyOp (s : Server) : RegistryOp → Server
  | .register conn name => registerClient s conn name
  | .remove conn => removeClient s conn
  | .stop => Stop s

/-- A sequence of registry operations applied from left to right. -/
def runOps (s : Server) (ops : List RegistryOp) : Server := ops.foldl applyOp s

/-- Every `registerClient` of the sequence is called with a connection that is not
a key of `clientConnToName` at that moment (a connection logs in once). -/
def freshConns (s : Server) : List RegistryOp → Bool
  | [] => true
  | .register conn name :: ops =>
    (mapGet s.clientConnToName conn).isNone && freshConns (registerClient s conn name) ops
  | op :: ops => freshConns (applyOp s op) ops

/-- Every `registerClient` of the sequence is called with a name that is not a key
of `clients` at that moment (`isNameTaken` is still false when it registers). -/
def freshNames (s : Server) : List RegistryOp → Bool
  | [] => true
  | .register conn name :: ops =>
    !(isNameTaken s name) && freshNames (registerClient s conn name) ops
  | op :: ops => freshNames (applyOp s op) ops

/-- Every binding of `clients` is mirrored in `clientConnToName`. -/
def ClientsMirrored (s : Server) : Prop :=
  ∀ n c, mapGet s.clients n = some c → mapGet s.clientConnToName c = some n

/-- Every binding of `clientConnToName` is mirrored in `clients`. -/
def ConnsMirrored (s : Server) : Prop :=
  ∀ c n, mapGet s.clientConnToName c = some n → mapGet s.clients n = some c

/-! ## Go strings (`strings`, `unicode`) -/

/-- The predicate `unicode.IsSpace`. -/
def isSpace (c : Char) : Bool :=
  c.toNat = 0x09 || c.toNat = 0x0A || c.toNat = 0x0B || c.toNat = 0x0C ||
  c.toNat = 0x0D || c.toNat = 0x20 || c.toNat = 0x85 || c.toNat = 0xA0 ||
  c.toNat = 0x1680 || (0x2000 ≤ c.toNat && c.toNat ≤ 0x200A) ||
  c.toNat = 0x2028 || c.toNat = 0x2029 || c.toNat = 0x202F ||
  c.toNat = 0x205F || c.toNat = 0x3000

/-- The function `strings.TrimSpace`. -/
def TrimSpace (s : String) : String :=
  ⟨((s.data.dropWhile isSpace).reverse.dropWhile isSpace).reverse⟩

/-- The function `strings.HasPrefix`. -/
def HasPrefix (s pre : String) : Bool := pre.data.isPrefixOf s.data

/-- The function `strings.TrimPrefix`. -/
def TrimPrefix (s pre : String) : String :=
  if HasPrefix s pre then ⟨s.data.drop pre.data.length⟩ else s

/-- The function `strings.ContainsRune`. -/
def ContainsRune (s : String) (r : Char) : Bool := decide (r ∈ s.data)

/-- The text before and the text after the first occurrence of `sep`, if there is
one (`strings.Index` followed by the two slices). -/
def cutAt (sep : List Char) : List Char → Option (List Char × List Char)
  | [] => if sep = [] then some ([], []) else none
  | c :: l =>
    if sep.isPrefixOf (c :: l) then some ([], (c :: l).drop sep.length)
    else (cutAt sep l).map (fun p => (c :: p.1, p.2))

/-- The pieces `strings.SplitN` cuts a text into, for a non-empty separator. -/
def splitNChars (sep : List Char) : Nat → List Char → List (List Char)
  | 0, _ => []
  | 1, l => [l]
  | n + 2, l =>
    match cutAt sep l with
    | none => [l]
    | some (a, b) => a :: splitNChars sep (n + 1) b

/-- The function `strings.SplitN` for a non-empty separator and `n ≥ 0`, which is
how the server calls it. -/
def SplitN (s sep : String) (n : Nat) : List String :=
  (splitNChars sep.data n s.data).map String.mk

/-! ## Name validation (`client_defs.go`) -/

/-- The loop of `ValidateName` over the code points of the name. -/
def validateRunes : List Char → Bool × String
  | [] => (true, "")
  | char :: rest =>
    if char.toNat < 32 ∨ char.toNat > 126 then (false, "昵称包含非法字符")
    else if ContainsRune "\\/:*?\"<>|" char then (false, "昵称包含不允许的特殊字符")
    else validateRunes rest

/-- The function `ValidateName`: the verdict and the reason. -/
def ValidateName (name : String) : Bool × String :=
  if name.utf8ByteSize = 0 then (false, "昵称不能为空")
  else if name.utf8ByteSize > 20 then (false, "昵称长度不能超过20个字符")
  else validateRunes name.data

/-! ## Classifier (`client_handler.go`) -/

/-- A send on `s.messageChan`. -/
def pushMessage (s : Server) (m : ClientMessage) : Server :=
  { s with messageChan := s.messageChan ++ [m] }

/-- A send on `s.broadcastChan`. -/
def pushBroadcast (s : Server) (m : ClientMessage) : Server :=
  { s with broadcastChan := s.broadcastChan ++ [m] }

/-- The method `Server.handleChatMessage`. -/
def handleChatMessage (s : Server) (conn : NetConn) (name message : String) : Server :=
  pushMessage s
    { Conn := some conn, Name := name, Message := message, Type_ := "chat", Target := "" }

/-- The target name `handlePrivateMessage` parses out of a line. -/
def privateTarget (message : String) : String :=
  TrimPrefix (TrimSpace ((SplitN message " " 2).headD "")) "@"

/-- The method `Server.handlePrivateMessage`. -/
def handlePrivateMessage (s : Server) (conn : NetConn) (sender message : String) :
    Server :=
  let parts := SplitN message " " 2
  let targetNameWithAt := TrimSpace (parts.headD "")
  let targetName := TrimPrefix targetNameWithAt "@"
  if parts.length < 2 ∨ targetName = "" then
    (SendMessage s conn "【系统】私聊格式错误，请使用: @用户名 消息内容").1
  else
    let content := parts.getD 1 ""
    if targetName = sender then
      (SendMessage s conn "【系统】不能给自己发送私聊消息").1
    else
      match getClientConnection s targetName with
      | none =>
        (SendMessage s conn ("【系统】用户 '" ++ targetName ++ "' 不在线或不存在")).1
      | some _ =>
        pushMessage s
          { Conn := some conn, Name := sender, Message := content, Type_ := "private",
            Target := targetName }

/-! ## Durable queue (`rdb/redis.go`) -/

/-- The score of a member of the ranking, zero when absent. -/
def zscore (rank : List (String × Nat)) (member : String) : Nat :=
  (mapGet rank member).getD 0

/-- The command `ZINCRBY ChatRankKey 1 member`: the client afterwards and the error. -/
def RedisClient.ZIncrBy (c : RedisClient) (member : String) :
    RedisClient × Option String :=
  if c.closed then (c, some "redis: client is closed")
  else
    match c.zincrbyErr with
    | some e => (c, some e)
    | none =>
      ({ c with chatRank := mapSet c.chatRank member (zscore c.chatRank member + 1) }, none)

/-- The command `XADD ChatStreamKey MAXLEN 1000 * values`: the entry gets the next
id and the oldest entries beyond the cap are dropped. -/
def RedisClient.XAdd (c : RedisClient) (values : List (String × String)) :
    RedisClient × Option String :=
  if c.closed then (c, some "redis: client is closed")
  else
    match c.xaddErr with
    | some e => (c, some e)
    | none =>
      let stream := c.chatStream ++ [{ ID := c.nextID, Values := values }]
      ({ c with chatStream := stream.drop (stream.length - 1000), nextID := c.nextID + 1 },
        none)

/-- The command `XREADGROUP GROUP ChatGroupKey consumer COUNT 1 STREAMS ChatStreamKey >`:
the oldest entry never delivered to the group, which becomes pending. An empty
answer is the error `redis: nil`. -/
def RedisClient.XReadGroup (c : RedisClient) :
    RedisClient × (Except String XMessage) :=
  if c.closed then (c, .error "redis: client is closed")
  else
    match c.xreadgroupErr with
    | some e => (c, .error e)
    | none =>
      match c.chatGroup with
      | none => (c, .error "NOGROUP No such consumer group")
      | some last =>
        match c.chatStream.find? (fun m => decide (last < m.ID)) with
        | none => (c, .error "redis: nil")
        | some m => ({ c with chatGroup := some m.ID, pending := c.pending ++ [m.ID] }, .ok m)

/-- The command `XACK ChatStreamKey ChatGroupKey id`. -/
def RedisClient.XAck (c : RedisClient) (id : Nat) : RedisClient × Option String :=
  if c.closed then (c, some "redis: client is closed")
  else
    match c.xackErr with
    | some e => (c, some e)
    | none => ({ c with pending := c.pending.filter (fun i => decide (i ≠ id)) }, none)

/-- The method `RedisQueueClient.IncrUserAction`; `rqc = none` is a nil receiver. -/
def IncrUserAction (rqc : Option RedisQueueClient) (username : String) :
    Option RedisQueueClient × Option String :=
  match rqc with
  | none => (none, some "redis 队列客户端未初始化")
  | some q =>
    match q.Client with
    | none => (some q, some "redis 队列客户端未初始化")
    | some c =>
      match c.ZIncrBy username with
      | (c', some e) => (some { q with Client := some c' }, some ("增加用户活跃度失败：" ++ e))
      | (c', none) => (some { q with Client := some c' }, none)

/-- The method `RedisQueueClient.AsyncProduceMessage`; `rqc = none` is a nil
receiver and `now` is the formatted `time.Now()`. -/
def AsyncProduceMessage (rqc : Option RedisQueueClient) (msg : ChatMessage) (now : String) :
    Option RedisQueueClient × Option String :=
  match rqc with
  | none => (none, some "redis队列客户端未初始化")
  | some q =>
    match q.Client with
    | none => (some q, some "redis队列客户端未初始化")
    | some c =>
      match c.XAdd [("sender", msg.Name), ("context", msg.Message), ("type", msg.Type_),
          ("timestamp", now)] with
      | (c', some e) => (some { q with Client := some c' }, some ("消息异步入队失败: " ++ e))
      | (c', none) => (some { q with Client := some c' }, none)

/-- The activity counter of a name as the server can read it: its score in the
ranking, zero when there is no Redis client. -/
def activityCount (s : Server) (name : String) : Nat :=
  match s.asyncQueue with
  | some q =>
    match q.Client with
    | some c => zscore c.chatRank name
    | none => 0
  | none => 0

/-! ## Dispatcher, consumer and broadcaster (`server_core.go`) -/

/-- The method `Server.ChatTaskHandler`. -/
def ChatTaskHandler (s : Server) (msg : ChatMessage) : Server :=
  pushBroadcast s
    { Name := msg.Name, Message := msg.Message, Type_ := msg.Type_, Conn := none,
      Target := "" }

/-- The `messageChan` case of the `select` in `Server.handleMessages`, for the
received pointer `msg` (`none` is nil). -/
def handleMessagesMsg (s : Server) (msg : Option ClientMessage) (now : String) : Server :=
  match msg with
  | none => s
  | some msg =>
    if msg.Type_ = "system" ∨ msg.Type_ = "private" then pushBroadcast s msg
    else
      let s1 :=
        match s.asyncQueue with
        | some _ => { s with asyncQueue := (IncrUserAction s.asyncQueue msg.Name).1 }
        | none => s
      let chatMsg : ChatMessage :=
        { Name := msg.Name, Message := msg.Message, Type_ := msg.Type_ }
      let r := AsyncProduceMessage s1.asyncQueue chatMsg now
      let s2 := { s1 with asyncQueue := r.1 }
      match r.2 with
      | some _ => pushBroadcast s2 msg
      | none => s2

/-- One turn of the loop of `Server.handleMessages` that takes the oldest envelope
of the inbound queue. -/
def handleMessagesRecv (s : Server) (now : String) : Server :=
  match s.messageChan with
  | [] => s
  | m :: rest => handleMessagesMsg { s with messageChan := rest } (some m) now

/-- One turn of the loop of `Server.handleMessages` that takes the oldest connection
of the unregister queue. -/
def handleMessagesUnregister (s : Server) : Server :=
  match s.unregisterChan with
  | [] => s
  | conn :: rest => removeClient { s with unregisterChan := rest } conn

/-- The body of the consumer loop of `StartChatConsumer` for one stream entry, with
`Server.ChatTaskHandler` as handler; `none` is the panic of a failed type assertion
on a missing value. -/
def consumeMessage (s : Server) (c : RedisClient) (message : XMessage) :
    Option (Server × RedisClient) :=
  match mapGet message.Values "sender", mapGet message.Values "context",
      mapGet message.Values "type" with
  | some sender, some context, some type =>
    let chatMsg : ChatMessage := { Name := sender, Message := context, Type_ := type }
    let s1 := if chatMsg.Type_ ≠ "system" then ChatTaskHandler s chatMsg else s
    some (s1, (c.XAck message.ID).1)
  | _, _, _ => none

/-- One turn of the consumer loop of `StartChatConsumer`, started by `Server.Start`
on `s.asyncQueue` with `Server.ChatTaskHandler`; `none` is a panic (nil client, or a
failed type assertion). A failed read sleeps and leaves the state as it is. -/
def chatConsumerStep (s : Server) : Option Server :=
  match s.asyncQueue with
  | none => none
  | some q =>
    match q.Client with
    | none => none
    | some c =>
      match c.XReadGroup with
      | (c1, .error _) => some { s with asyncQueue := some { q with Client := some c1 } }
      | (c1, .ok message) =>
        match consumeMessage s c1 message with
        | none => none
        | some (s1, c2) => some { s1 with asyncQueue := some { q with Client := some c2 } }

/-- The loop `for name, conn := range s.clients` of `broadcastMessage`: one send per
entry, the failing connections collected in `connsToCleanup`. -/
def rangeSend (broadcastMsg : String) :
    List (String × NetConn) → Server × List NetConn → Server × List NetConn
  | [], acc => acc
  | (_, conn) :: rest, (s, connsToCleanup) =>
    let r := SendMessage s conn broadcastMsg
    rangeSend broadcastMsg rest
      (r.1, if r.2 then connsToCleanup ++ [conn] else connsToCleanup)

/-- The end of `broadcastMessage`: the read lock is released and every collected
connection is sent on `unregisterChan`. -/
def unlockAndCleanup (acc : Server × List NetConn) : Server :=
  { acc.1 with
    readLocks := acc.1.readLocks - 1
    unregisterChan := acc.1.unregisterChan ++ acc.2 }

/-- The method `Server.broadcastMessage`. -/
def broadcastMessage (s : Server) (clientMsg : ClientMessage) : Server :=
  let s0 := { s with readLocks := s.readLocks + 1 }
  if clientMsg.Type_ = "system" then
    unlockAndCleanup (rangeSend clientMsg.Message s0.clients (s0, []))
  else if clientMsg.Type_ = "private" then
    let acc1 : Server × List NetConn :=
      match mapGet s0.clients clientMsg.Target with
      | some targetConn =>
        let r := SendMessage s0 targetConn
          ("【私聊 - " ++ clientMsg.Name ++ "】: " ++ clientMsg.Message)
        (r.1, if r.2 then [targetConn] else [])
      | none => (s0, [])
    let acc2 : Server × List NetConn :=
      match mapGet acc1.1.clients clientMsg.Name with
      | some senderConn =>
        let r := SendMessage acc1.1 senderConn
          ("【私聊" ++ clientMsg.Target ++ "】: " ++ clientMsg.Message)
        (r.1, if r.2 then acc1.2 ++ [senderConn] else acc1.2)
      | none => acc1
    unlockAndCleanup acc2
  else if clientMsg.Type_ = "chat" then
    unlockAndCleanup
      (rangeSend ("[" ++ clientMsg.Name ++ "]: " ++ clientMsg.Message) s0.clients (s0, []))
  else s0

/-- One turn of the loop of `Server.handleBroadcasts`. -/
def handleBroadcastsStep (s : Server) : Server :=
  match s.broadcastChan with
  | [] => s
  | m :: rest => broadcastMessage { s with broadcastChan := rest } m

/-! ## Shutdown signal (`server_core.go`) -/

/-- The call `close(s.Done)`; `none` is the panic of closing a closed channel. -/
def closeDone (s : Server) : Option Server :=
  if s.Done then none else some { s with Done := true }

/-- The `select` at the head of `Server.Stop`: when `Done` is already closed the
first case is taken and nothing is done, otherwise the default case closes it. -/
def stopSelect (s : Server) : Option Server :=
  if s.Done then some s else closeDone s

/-! ## Wire codec (`tools/tools.go`, with `bufio`, `io` and `encoding/binary`) -/

/-- A byte of a Go `string` or `[]byte`. -/
abbrev Byte := Fin 256

/-- The constant `headerSize`. -/
def headerSize : Nat := 4

/-- The function `binary.BigEndian.PutUint32` on the four bytes of the header. -/
def PutUint32 (v : Nat) : List Byte :=
  [⟨v / 2 ^ 24 % 256, Nat.mod_lt _ (by decide)⟩, ⟨v / 2 ^ 16 % 256, Nat.mod_lt _ (by decide)⟩,
    ⟨v / 2 ^ 8 % 256, Nat.mod_lt _ (by decide)⟩, ⟨v % 256, Nat.mod_lt _ (by decide)⟩]

/-- The function `binary.BigEndian.Uint32` on a header of four bytes. -/
def Uint32 : List Byte → Nat
  | [b0, b1, b2, b3] => b0.val * 2 ^ 24 + b1.val * 2 ^ 16 + b2.val * 2 ^ 8 + b3.val
  | _ => 0

/-- The packet `SendMessage` hands to `conn.Write` for a message with the given
bytes: the length converted to `uint32`, big-endian, then the body. -/
def SendMessagePacket (body : List Byte) : List Byte :=
  PutUint32 (body.length % 2 ^ 32) ++ body

/-- The call `conn.Read(p)` with `len(p) = k` on the receiving side of a connection,
given as the segments that arrive, in order, followed by the end of the stream. The
read waits for a segment with data and returns what fits; `none` is `io.EOF`. -/
def connRead : List (List Byte) → Nat → Option (List Byte × List (List Byte))
  | [], _ => none
  | [] :: segs, k => connRead segs k
  | (b :: seg) :: segs, k =>
    if (b :: seg).length ≤ k then some (b :: seg, segs)
    else some ((b :: seg).take k, (b :: seg).drop k :: segs)

/-- A `bufio.Reader`: the bytes buffered and not yet handed out, and the connection
it reads from. -/
structure BufReader where
  buf : List Byte
  rd : List (List Byte)
deriving DecidableEq, Repr

/-- The default buffer size of `bufio.NewReader`. -/
def defaultBufSize : Nat := 4096

/-- The call `bufio.NewReader(conn)`. -/
def NewReader (conn : List (List Byte)) : BufReader := { buf := [], rd := conn }

/-- The method `bufio.Reader.Read` for `len(p) = n`: with an empty buffer, a large
read goes straight to the connection and a small one first fills the buffer with
one read of the connection; then as much as fits is copied out of the buffer.
`none` is `io.EOF`. -/
def BufReader.Read (b : BufReader) (n : Nat) : Option (List Byte × BufReader) :=
  if n = 0 then some ([], b)
  else if b.buf = [] then
    if defaultBufSize ≤ n then
      match connRead b.rd n with
      | none => none
      | some (got, rd) => some (got, { b with rd := rd })
    else
      match connRead b.rd defaultBufSize with
      | none => none
      | some (got, rd) => some (got.take n, { buf := got.drop n, rd := rd })
  else some (b.buf.take n, { b with buf := b.buf.drop n })

/-- The errors of `io.ReadFull`. -/
inductive ReadErr where
  | EOF
  | ErrUnexpectedEOF
  | ErrNoProgress
deriving DecidableEq, Repr

/-- What a read returns: the bytes, or the error. -/
inductive ReadResult where
  | ok (data : List Byte)
  | error (err : ReadErr)
deriving DecidableEq, Repr

/-- The loop of `io.ReadAtLeast`: `need` bytes are still missing and `acc` holds
what was read. Every read that succeeds delivers at least one byte, so `need` turns
of the loop are enough. -/
def readFullLoop : Nat → BufReader → Nat → List Byte → ReadResult × BufReader
  | 0, b, need, acc => if need = 0 then (.ok acc, b) else (.error .ErrNoProgress, b)
  | fuel + 1, b, need, acc =>
    if need = 0 then (.ok acc, b)
    else
      match b.Read need with
      | none => (.error (if acc = [] then .EOF else .ErrUnexpectedEOF), b)
      | some (got, b') => readFullLoop fuel b' (need - got.length) (acc ++ got)

/-- The function `io.ReadFull(reader, buf)` for `len(buf) = n`. -/
def ReadFull (b : BufReader) (n : Nat) : ReadResult × BufReader :=
  readFullLoop n b n []

/-- The function `tools.ReceiveMessage` on the bytes of a connection: the message or
the error, and what is left on the connection. The reader is created by the call
and dropped at its end, together with whatever it still holds in its buffer. -/
def ReceiveMessage (conn : List (List Byte)) : ReadResult × List (List Byte) :=
  match ReadFull (NewReader conn) headerSize with
  | (.error e, reader) => (.error e, reader.rd)
  | (.ok header, reader) =>
    match ReadFull reader (Uint32 header) with
    | (.error e, reader') => (.error e, reader'.rd)
    | (.ok body, reader') => (.ok body, reader'.rd)

/-- The bytes a reader can still deliver: its buffer, then the connection. -/
def BufReader.remaining (b : BufReader) : List Byte := b.buf ++ b.rd.flatten

/-! ## Commands (`client_handler.go`, `rdb/redis.go`) -/

/-- The pieces `strings.Fields` cuts a text into; `cur` is the field being read. -/
def fieldsChars : List Char → List Char → List (List Char)
  | [], cur => if cur = [] then [] else [cur]
  | c :: cs, cur =>
    if isSpace c then
      if cur = [] then fieldsChars cs [] else cur :: fieldsChars cs []
    else fieldsChars cs (cur ++ [c])

/-- The function `strings.Fields`. -/
def Fields (s : String) : List String := (fieldsChars s.data []).map String.mk

/-- The function `strings.Join`. -/
def Join : List String → String → String
  | [], _ => ""
  | [a], _ => a
  | a :: b :: rest, sep => a ++ sep ++ Join (b :: rest) sep

/-- The method `Server.getOnlineUsers`. -/
def getOnlineUsers (s : Server) : String :=
  if mapLen s.clients = 0 then "在线用户: 无"
  else
    "在线用户 (" ++ fmtInt ((s.clients.map Prod.fst).length) ++ "): "
      ++ Join (s.clients.map Prod.fst) ", "

/-- The verb `%s` of `fmt.Sprintf` on a value of a stream entry; a missing value is
a nil interface. -/
def fmtValue (values : List (String × String)) (key : String) : String :=
  (mapGet values key).getD "%!s(<nil>)"

/-- The command `XREVRANGE ChatStreamKey + - COUNT count`: the newest entries,
newest first. -/
def RedisClient.XRevRangeN (c : RedisClient) (count : Nat) :
    Except String (List XMessage) :=
  if c.closed then .error "redis: client is closed"
  else
    match c.xrevrangeErr with
    | some e => .error e
    | none => .ok (c.chatStream.reverse.take count)

/-- The method `RedisQueueClient.GetChatHistory`: the lines, oldest first, and the
error. -/
def GetChatHistory (rqc : Option RedisQueueClient) (count : Nat) :
    List String × Option String :=
  match rqc with
  | none => ([], some "redis 队列客户端未初始化")
  | some q =>
    match q.Client with
    | none => ([], some "redis 队列客户端未初始化")
    | some c =>
      match c.XRevRangeN count with
      | .error e => ([], some ("读取聊天历史失败:" ++ e))
      | .ok streams =>
        (streams.reverse.map (fun stream =>
            "[" ++ fmtValue stream.Values "timestamp" ++ "] "
              ++ fmtValue stream.Values "sender" ++ ": "
              ++ fmtValue stream.Values "context"),
          none)

/-- The order of `ZREVRANGE`: higher score first, and among equal scores the
greater member first. -/
def rankBefore (a b : String × Nat) : Prop :=
  b.2 < a.2 ∨ (a.2 = b.2 ∧ ¬ a.1 < b.1)

instance : DecidableRel rankBefore := fun a b =>
  inferInstanceAs (Decidable (b.2 < a.2 ∨ (a.2 = b.2 ∧ ¬ a.1 < b.1)))

/-- The command `ZREVRANGE ChatRankKey 0 count-1 WITHSCORES`. -/
def RedisClient.ZRevRangeWithScores (c : RedisClient) (count : Nat) :
    Except String (List (String × Nat)) :=
  if c.closed then .error "redis: client is closed"
  else
    match c.zrevrangeErr with
    | some e => .error e
    | none => .ok ((c.chatRank.insertionSort rankBefore).take count)

/-- The lines of `GetActivityRank`, numbered from `rank`. -/
def rankEntries : Nat → List (String × Nat) → List String
  | _, [] => []
  | rank, z :: zs =>
    ("Rank " ++ fmtInt rank ++ ":" ++ z.1 ++ "(消息数：" ++ fmtInt z.2 ++ ")")
      :: rankEntries (rank + 1) zs

/-- The method `RedisQueueClient.GetActivityRank`. -/
def GetActivityRank (rqc : Option RedisQueueClient) (count : Nat) :
    List String × Option String :=
  match rqc with
  | none => ([], some "redis队列客户端未初始化")
  | some q =>
    match q.Client with
    | none => ([], some "redis队列客户端未初始化")
    | some c =>
      match c.ZRevRangeWithScores count with
      | .error e => ([], some ("获取活跃度排名失败：" ++ e))
      | .ok results => (rankEntries 1 results, none)

/-- The three dashes that frame the history and ranking replies. -/
def dashes : String := "---"

/-- The help text of `/help`. -/
def helpMsg : String :=
  "可用命令：\n/list - 查看在线用户\n/help - 显示帮助信息\n/history或/h - 查看最近的10条历史消息\n/rank - 查看活跃度排名前五的用户\n/exit - 退出\n私聊功能：\n@用户名 消息内容 - 发送私聊消息\n例如: @张三 你好！"

/-- The case `/history`, `/h` of `handleCommand`. -/
def handleHistory (s : Server) (conn : NetConn) : Server :=
  let unavailable :=
    match s.asyncQueue with
    | none => true
    | some q => q.Client.isNone
  if unavailable then
    (SendMessage s conn "系统：历史记录功能当前不可用(Redis未连接)").1
  else
    let r := GetChatHistory s.asyncQueue 10
    let s1 :=
      match r.2 with
      | some _ => (SendMessage s conn "系统：获取历史记录").1
      | none => s
    if r.1.length = 0 then (SendMessage s1 conn "系统,暂无聊天历史记录").1
    else
      (SendMessage s1 conn
        (dashes ++ " 最近 " ++ fmtInt r.1.length ++ " 条聊天历史记录 " ++ dashes ++ "\n"
          ++ Join r.1 "\n" ++ "\n" ++ dashes ++ " 历史记录结束 " ++ dashes)).1

/-- The case `/rank` of `handleCommand`. -/
def handleRank (s : Server) (conn : NetConn) : Server :=
  let unavailable :=
    match s.asyncQueue with
    | none => true
    | some q => q.Client.isNone
  let s1 :=
    if unavailable then
      (SendMessage s conn "系统：活跃度排名功能当前不可用（Redis未连接）").1
    else s
  let r := GetActivityRank s1.asyncQueue 5
  match r.2 with
  | some err => (SendMessage s1 conn ("系统：获取活跃度排名失败：" ++ err)).1
  | none =>
    if r.1.length = 0 then (SendMessage s1 conn "系统：暂无活跃度数据。").1
    else
      (SendMessage s1 conn
        (dashes ++ " 活跃度排名前 " ++ fmtInt r.1.length ++ " 用户 " ++ dashes ++ "\n"
          ++ Join r.1 "\n" ++ "\n" ++ dashes ++ " 排名结束 " ++ dashes)).1

/-- The method `Server.handleCommand`: the state afterwards and the returned flag. -/
def handleCommand (s : Server) (conn : NetConn) (message : String) : Server × Bool :=
  if message.data.head? = some '/' then
    match Fields message with
    | [] => (s, true)
    | command :: _ =>
      if command = "/list" then ((SendMessage s conn (getOnlineUsers s)).1, true)
      else if command = "/help" then ((SendMessage s conn helpMsg).1, true)
      else if command = "/history" ∨ command = "/h" then (handleHistory s conn, true)
      else if command = "/rank" then (handleRank s conn, true)
      else ((SendMessage s conn "未知命令，使用 /help 查看可用命令").1, true)
  else (s, false)

/-- The method `Server.handleClientChatAndCommand`. -/
def handleClientChatAndCommand (s : Server) (conn : NetConn) (name input : String) :
    Server :=
  let input := TrimSpace input
  let r := if HasPrefix input "/" then handleCommand s conn input else (s, false)
  if HasPrefix input "/" ∧ r.2 = true then r.1
  else if HasPrefix input "@" then handlePrivateMessage r.1 conn name input
  else handleChatMessage r.1 conn name input

/-! ## Credential store (`db/database.go`) -/

/-- The method `UserDB.CheckNameExists`: the answer and whether an error is
returned. Names are compared exactly. -/
def UserDB.CheckNameExists (udb : UserDB) (name : String) : Bool × Bool :=
  match udb.DB with
  | none => (false, true)
  | some d =>
    if d.closed ∨ d.queryErr then (false, true)
    else (decide (0 < d.users.countP (fun u => decide (u.1 = name))), false)

/-- The method `UserDB.RegisterUser`: the store afterwards and whether an error is
returned. The password is stored as given. -/
def UserDB.RegisterUser (udb : UserDB) (name password : String) : UserDB × Bool :=
  match udb.DB with
  | none => (udb, true)
  | some d =>
    if d.closed ∨ d.execErr then (udb, true)
    else ({ udb with DB := some { d with users := d.users ++ [(name, password)] } }, false)

/-- The method `UserDB.CheckCredentials`: the verdict and whether an error is
returned. -/
def UserDB.CheckCredentials (udb : UserDB) (name password : String) : Bool × Bool :=
  match udb.DB with
  | none => (false, true)
  | some d =>
    if d.closed ∨ d.queryErr then (false, true)
    else
      match mapGet d.users name with
      | none => (false, false)
      | some storedPassword => (decide (password = storedPassword), false)

/-! ## Authentication (`client_handler.go`, `server_core.go`)

The input of a connection is the list of the results of its successive
`tools.ReceiveMessage` calls: `some text`, or `none` for a failed receive. After the
end of the list every receive fails (the peer is gone). -/

/-- How a call ends: it returns a Boolean, it returns nothing, it panics on a nil
pointer, or the model ran out of fuel. -/
inductive Outcome where
  | ret (b : Bool)
  | done
  | panic
  | outOfFuel
deriving DecidableEq, Repr

/-- The end of a call on a connection: how it ended, the server state, and the
input it has not read. -/
structure Flow where
  outcome : Outcome
  server : Server
  unread : List (Option String)
deriving DecidableEq, Repr

/-- How a name loop ends: the function returns from inside the loop, or the loop is
left with an accepted name. -/
inductive NameResult where
  | exit (outcome : Outcome)
  | named (name : String)
deriving DecidableEq, Repr

/-- The method `Server.handleClientChat`: the read loop of a session, and the
deferred send on `unregisterChan`. -/
def handleClientChat (conn : NetConn) (name : String) :
    List (Option String) → Server → Server × List (Option String)
  | [], s => ({ s with unregisterChan := s.unregisterChan ++ [conn] }, [])
  | none :: rest, s => ({ s with unregisterChan := s.unregisterChan ++ [conn] }, rest)
  | some input :: rest, s =>
    handleClientChat conn name rest (handleClientChatAndCommand s conn name input)

/-- The first loop of `Server.handleLogin`, which asks for the name. -/
def handleLoginName (conn : NetConn) :
    List (Option String) → Server → NameResult × Server × List (Option String)
  | input, s =>
    let r := SendMessage s conn "请输入昵称："
    if r.2 then (.exit (.ret false), r.1, input)
    else
      match input with
      | [] => (.exit (.ret true), r.1, [])
      | none :: rest => (.exit (.ret true), r.1, rest)
      | some nameInput :: rest =>
        let nameInput := TrimSpace nameInput
        if (ValidateName nameInput).1 = false then
          let r2 := SendMessage r.1 conn
            ("昵称无效: " ++ (ValidateName nameInput).2 ++ "，请重新输入昵称：")
          if r2.2 then (.exit (.ret false), r2.1, rest)
          else handleLoginName conn rest r2.1
        else if isNameTaken r.1 nameInput then
          let r2 := SendMessage r.1 conn ("昵称 '" ++ nameInput ++ "' 已在线，请重新输入昵称：")
          if r2.2 then (.exit (.ret false), r2.1, rest)
          else handleLoginName conn rest r2.1
        else
          match r.1.userDB with
          | none => (.exit .panic, r.1, rest)
          | some udb =>
            if (udb.CheckNameExists nameInput).2 then
              let r2 := SendMessage r.1 conn "服务器数据库错误，请稍后再试。"
              if r2.2 then (.exit (.ret false), r2.1, rest)
              else (.exit (.ret true), r2.1, rest)
            else if (udb.CheckNameExists nameInput).1 = false then
              let r2 := SendMessage r.1 conn
                ("昵称 '" ++ nameInput ++ "' 未注册，请返回主菜单选择注册。")
              (.exit (.ret false), r2.1, rest)
            else (.named nameInput, r.1, rest)

/-- The second loop of `Server.handleLogin`, which asks for the password, with the
counter `i` of failed attempts, and the code after the loop. -/
def handleLoginPassword (conn : NetConn) (name : String) :
    Nat → List (Option String) → Server → Flow
  | _, [], s => ⟨.ret true, s, []⟩
  | _, none :: rest, s => ⟨.ret true, s, rest⟩
  | i, some password :: rest, s =>
    if password = "" then
      let r := SendMessage s conn "密码不能为空，请重新输入密码："
      if r.2 then ⟨.ret false, r.1, rest⟩
      else handleLoginPassword conn name i rest r.1
    else
      match s.userDB with
      | none => ⟨.panic, s, rest⟩
      | some udb =>
        let c := udb.CheckCredentials name password
        if c.1 = true ∧ c.2 = false then
          let s1 := registerClient s conn name
          let r := SendMessage s1 conn
            ("欢迎 " ++ name ++ "！您已成功登录，开始聊天吧...\n使用 /help 查看可用命令")
          if r.2 then ⟨.ret false, r.1, rest⟩
          else
            let s2 := pushBroadcast r.1
              { Conn := some conn, Name := name,
                Message := "系统: " ++ name ++ " 加入了聊天室", Type_ := "system",
                Target := "" }
            let chat := handleClientChat conn name rest s2
            ⟨.ret true, chat.1, chat.2⟩
        else if c.2 then
          let r := SendMessage s conn "登录失败：数据库验证错误，即将断开连接。"
          if r.2 then ⟨.ret false, r.1, rest⟩ else ⟨.ret true, r.1, rest⟩
        else
          let r := SendMessage s conn "登录失败，密码不正确"
          if r.2 then ⟨.ret false, r.1, rest⟩
          else if i < 2 then
            let r2 := SendMessage r.1 conn "请重新输入密码："
            if r2.2 then ⟨.ret false, r2.1, rest⟩
            else handleLoginPassword conn name (i + 1) rest r2.1
          else
            let r2 := SendMessage r.1 conn "密码输入错误次数过多，请重新输入昵称。"
            ⟨.ret false, r2.1, rest⟩

/-- The method `Server.handleLogin`. -/
def handleLogin (s : Server) (conn : NetConn) (input : List (Option String)) : Flow :=
  match handleLoginName conn input s with
  | (.exit o, s1, rest) => ⟨o, s1, rest⟩
  | (.named name, s1, rest) =>
    let r := SendMessage s1 conn ("昵称 '" ++ name ++ "' 已注册，请输入密码：")
    if r.2 then ⟨.ret false, r.1, rest⟩
    else handleLoginPassword conn name 0 rest r.1

/-- The loop of `Server.handleRegistrationLogic`, which asks for the name. -/
def handleRegistrationName (conn : NetConn) :
    List (Option String) → Server → NameResult × Server × List (Option String)
  | input, s =>
    let r := SendMessage s conn "请输入您想要注册的昵称："
    if r.2 then (.exit (.ret false), r.1, input)
    else
      match input with
      | [] => (.exit (.ret true), r.1, [])
      | none :: rest => (.exit (.ret true), r.1, rest)
      | some nameInput :: rest =>
        let nameInput := TrimSpace nameInput
        if (ValidateName nameInput).1 = false then
          let r2 := SendMessage r.1 conn
            ("昵称无效: " ++ (ValidateName nameInput).2 ++ "，请重新输入昵称：")
          if r2.2 then (.exit (.ret false), r2.1, rest)
          else handleRegistrationName conn rest r2.1
        else if isNameTaken r.1 nameInput then
          let r2 := SendMessage r.1 conn ("昵称 '" ++ nameInput ++ "' 已在线，请重新输入昵称：")
          if r2.2 then (.exit (.ret false), r2.1, rest)
          else handleRegistrationName conn rest r2.1
        else
          match r.1.userDB with
          | none => (.exit .panic, r.1, rest)
          | some udb =>
            if (udb.CheckNameExists nameInput).2 then
              let r2 := SendMessage r.1 conn "服务器数据库错误，请稍后再试。"
              if r2.2 then (.exit (.ret false), r2.1, rest)
              else (.exit (.ret true), r2.1, rest)
            else if (udb.CheckNameExists nameInput).1 then
              let r2 := SendMessage r.1 conn
                ("昵称 '" ++ nameInput ++ "' 已注册，请返回主菜单选择登录。")
              (.exit (.ret false), r2.1, rest)
            else (.named nameInput, r.1, rest)

/-- The end of `Server.handleRegistrationLogic`, after the name is accepted: the
password prompt, the password, and the write to the credential store. -/
def handleRegistrationPassword (conn : NetConn) (name : String)
    (input : List (Option String)) (s : Server) : Flow :=
  let r := SendMessage s conn ("昵称 '" ++ name ++ "' 可用。请输入密码进行注册：")
  if r.2 then ⟨.ret false, r.1, input⟩
  else
    match input with
    | [] => ⟨.ret true, r.1, []⟩
    | none :: rest => ⟨.ret true, r.1, rest⟩
    | some password :: rest =>
      if password = "" then
        ⟨.ret false, (SendMessage r.1 conn "密码不能为空，请重新输入昵称：").1, rest⟩
      else
        match r.1.userDB with
        | none => ⟨.panic, r.1, rest⟩
        | some udb =>
          let w := udb.RegisterUser name password
          let s1 := { r.1 with userDB := some w.1 }
          if w.2 then
            ⟨.ret false, (SendMessage s1 conn "注册失败：数据库写入错误。请重新输入昵称：").1, rest⟩
          else
            ⟨.ret false, (SendMessage s1 conn ("恭喜 " ++ name ++ " 注册成功！请返回主菜单。")).1,
              rest⟩

/-- The method `Server.handleRegistrationLogic`. -/
def handleRegistrationLogic (s : Server) (conn : NetConn) (input : List (Option String)) :
    Flow :=
  match handleRegistrationName conn input s with
  | (.exit o, s1, rest) => ⟨o, s1, rest⟩
  | (.named name, s1, rest) => handleRegistrationPassword conn name rest s1

/-- The menu prompt of `Server.handleAuthentication`. -/
def menuPrompt : String := "欢迎！请选择操作：\n1.登录\n2.注册"

/-- The loop of `Server.handleAuthentication`. Every turn reads at least the
selection, so one unit of fuel per input and one more is enough. -/
def authLoop (conn : NetConn) : Nat → List (Option String) → Server → Flow
  | 0, input, s => ⟨.outOfFuel, s, input⟩
  | fuel + 1, input, s =>
    let s1 := (SendMessage s conn menuPrompt).1
    match input with
    | [] => ⟨.done, s1, []⟩
    | none :: rest => ⟨.done, s1, rest⟩
    | some selection :: rest =>
      if TrimSpace selection = "1" then
        let r := handleLogin s1 conn rest
        match r.outcome with
        | .ret false => authLoop conn fuel r.unread r.server
        | .ret true => ⟨.done, r.server, r.unread⟩
        | o => ⟨o, r.server, r.unread⟩
      else if TrimSpace selection = "2" then
        let r := handleRegistrationLogic s1 conn rest
        match r.outcome with
        | .ret false => authLoop conn fuel r.unread r.server
        | .ret true => ⟨.done, r.server, r.unread⟩
        | o => ⟨o, r.server, r.unread⟩
      else authLoop conn fuel rest (SendMessage s1 conn "无效的选项，请重新输入：").1

/-- The method `Server.handleAuthentication`: the loop, then the deferred function,
which closes the connection unless it is a key of `clientConnToName`. -/
def handleAuthentication (s : Server) (conn : NetConn) (input : List (Option String)) :
    Flow :=
  let r := authLoop conn (input.length + 1) input s
  match mapGet r.server.clientConnToName conn with
  | none => { r with server := closeConn r.server conn }
  | some _ => r

/-- Every receive a call consumed succeeded, except possibly the last one; and every
one of them succeeded when the caller goes on reading (`continues`). -/
def Reads (input : List (Option String)) (continues : Bool)
    (unread : List (Option String)) : Prop :=
  ∃ consumed, input = consumed ++ unread ∧ (∀ x ∈ consumed.dropLast, x ≠ none) ∧
    (continues = true → ∀ x ∈ consumed, x ≠ none)

/-- Whether the caller of a name loop goes on reading the connection. -/
def NameResult.continues : NameResult → Bool
  | .named _ => true
  | .exit (.ret false) => true
  | .exit _ => false

/-- Whether the caller of `handleLogin` or `handleRegistrationLogic` goes on reading
the connection. -/
def Outcome.continues : Outcome → Bool
  | .ret false => true
  | _ => false

/-! ## Client side of the password step (`chat_client/internal/client_auth.go`) -/

/-- Whether `sub` occurs in a text. -/
def containsChars (sub : List Char) : List Char → Bool
  | [] => sub.isEmpty
  | c :: l => sub.isPrefixOf (c :: l) || containsChars sub l

/-- The function `strings.Contains`. -/
def Contains (s substr : String) : Bool := containsChars substr.data s.data

/-- What `Client.handlePasswordInput` returns: the final response, or an error. -/
inductive ClientResult where
  | ok (finalResponse : String)
  | err (text : String)
deriving DecidableEq, Repr

/-- The method `Client.handlePasswordInput`. `incoming` holds the results of the
successive `tools.ReceiveMessage` calls on the client's connection; the passwords
the user types are sent as they are and do not decide what the method returns. -/
def handlePasswordInput : List (Option String) → ClientResult
  | [] => .err "接收最终响应失败: EOF"
  | none :: _ => .err "接收最终响应失败: EOF"
  | some finalResponse :: rest =>
    if Contains finalResponse "开始聊天" then .ok finalResponse
    else if Contains finalResponse "请返回主菜单" then .ok finalResponse
    else
      match rest with
      | [] => .err "接收重试提示失败: EOF"
      | none :: _ => .err "接收重试提示失败: EOF"
      | some retryPrompt :: rest' =>
        if Contains retryPrompt "请重新输入密码" then handlePasswordInput rest'
        else .err ("认证流程中收到意外的服务器响应: " ++ finalResponse)

/-- The registry and the queues of `s'` are those of `s`. -/
def SameRouting (s s' : Server) : Prop :=
  s'.clients = s.clients ∧ s'.clientConnToName = s.clientConnToName ∧
  s'.messageChan = s.messageChan ∧ s'.broadcastChan = s.broadcastChan ∧
  s'.unregisterChan = s.unregisterChan

/-- The registry and the unregister queue of `s'` are those of `s`. -/
def SameRegistry (s s' : Server) : Prop :=
  s'.clients = s.clients ∧ s'.clientConnToName = s.clientConnToName ∧
  s'.unregisterChan = s.unregisterChan

/-- Between `s` and `s'` a login of `conn` under `name` was accepted and its session
has run and ended: both maps bind the connection, and the connection was put on the
unregister queue. -/
def SessionEnded (s s' : Server) (conn : NetConn) (name : String) : Prop :=
  s'.clients = mapSet s.clients name conn ∧
  s'.clientConnToName = mapSet s.clientConnToName conn name ∧
  s'.unregisterChan = s.unregisterChan ++ [conn]

/-- In `s'` the connection is closed and is not in the registry, and the registry
and the queues are those of `s`. -/
def ClosedUnregistered (s s' : Server) (conn : NetConn) : Prop :=
  SameRouting s s' ∧ mapGet s'.clientConnToName conn = none ∧ conn ∈ s'.closedConns

/-! ## Concrete states for the examples -/

/-- A Redis server with an empty stream, an existing consumer group and the given
failures of `XADD` and `ZINCRBY`. -/
def redisClient (xaddErr zincrbyErr : Option String) : RedisClient :=
  { chatStream := [], nextID := 1, chatGroup := some 0, pending := [], chatRank := [],
    xaddErr := xaddErr, zincrbyErr := zincrbyErr, xreadgroupErr := none,
    xackErr := none, delErr := none, xrevrangeErr := none, zrevrangeErr := none,
    closed := false }

/-- A connected queue client on `redisClient`. -/
def redisQueue (xaddErr zincrbyErr : Option String) : RedisQueueClient :=
  { Client := some (redisClient xaddErr zincrbyErr) }

/-- The chat envelope the classifier builds when alice, on connection 1, types
`hello`. -/
def helloFromAlice : ClientMessage :=
  { Conn := some 1, Name := "alice", Message := "hello", Type_ := "chat", Target := "" }

/-- A room with alice on connection 1 and bob on connection 2, where writes to
connection 2 fail. -/
def roomWithBrokenBob : Server :=
  { registerClient (registerClient (NewServer none none) 1 "alice") 2 "bob" with
    writeFails := [2] }

/-- A server whose queue is connected and whose consumer group exists. -/
def serverWithQueue : Server :=
  { NewServer none none with asyncQueue := some (redisQueue none none) }

/-- A credential store that answers, holding the given rows. -/
def storeWith (users : List (String × String)) : UserDB :=
  { DB := some { users := users, queryErr := false, execErr := false, closed := false } }

/-- A server without Redis whose credential store knows alice with the password
`secret`. -/
def authServer : Server := NewServer (some (storeWith [("alice", "secret")])) none

/-- A credential store whose queries fail. -/
def brokenStore : UserDB :=
  { DB := some { users := [], queryErr := true, execErr := true, closed := false } }

/-- What the client receives from the password step on: the messages of the send
log from the fourth one. -/
def passwordStepIncoming (f : Flow) : List (Option String) :=
  (f.server.sendLog.drop 3).map (fun e => some e.2)

/-- The server `authServer` seen from connection 1 when every write to that
connection fails. -/
def authServerDeaf : Server := { authServer with writeFails := [1] }

/-- A server whose chat stream holds one entry of type `notice`, written by another
producer on the same Redis stream and not yet delivered to the consumer group. -/
def serverWithForeignEntry : Server :=
  { NewServer none none with
    asyncQueue := some
      { Client := some
          { redisClient none none with
            chatStream :=
              [{ ID := 1
                 Values := [("sender", "ops"), ("context", "maintenance"),
                   ("type", "notice"), ("timestamp", "2024-01-01 00:00:00")] }]
            nextID := 2 } } }

/-- The chat envelope the classifier builds when bob, on connection 2, types `hi`. -/
def hiFromBob : ClientMessage :=
  { Conn := some 2, Name := "bob", Message := "hi", Type_ := "chat", Target := "" }

/-- The server `serverWithQueue` after the dispatcher has handled a burst of two chat
envelopes, alice's `hello` and bob's `hi`, before any turn of the consumer. -/
def serverAfterBurst : Server :=
  handleMessagesMsg
    (handleMessagesMsg serverWithQueue (some helloFromAlice) "2024-01-01 00:00:00")
    (some hiFromBob) "2024-01-01 00:00:01"

/-- The Redis server after that burst and one turn of the consumer: both entries are
in the stream and the group has been delivered the first one. -/
def redisAfterFirstTurn : RedisClient :=
  { redisClient none none with
    chatStream :=
      [{ ID := 1
         Values := [("sender", "alice"), ("context", "hello"), ("type", "chat"),
           ("timestamp", "2024-01-01 00:00:00")] },
       { ID := 2
         Values := [("sender", "bob"), ("context", "hi"), ("type", "chat"),
           ("timestamp", "2024-01-01 00:00:01")] }]
    nextID := 3
    chatGroup := some 1
    chatRank := [("alice", 1), ("bob", 1)] }

/-- The server after that burst and one turn of the consumer. -/
def serverAfterFirstTurn : Server :=
  { serverWithQueue with
    asyncQueue := some { Client := some redisAfterFirstTurn }
    broadcastChan :=
      [{ Conn := none, Name := "alice", Message := "hello", Type_ := "chat", Target := "" }] }

/-- The Redis server after the dispatcher has handled alice's `hello` alone: the
entry is in the stream and the consumer group has not been delivered it. -/
def redisAfterFirstDispatch : RedisClient :=
  { redisClient none none with
    chatStream :=
      [{ ID := 1
         Values := [("sender", "alice"), ("context", "hello"), ("type", "chat"),
           ("timestamp", "2024-01-01 00:00:00")] }]
    nextID := 2
    chatRank := [("alice", 1)] }

/-! ## Map lemmas -/

section GoMapLemmas

variable {K V : Type} [DecidableEq K]

theorem mapGet_append (m m' : List (K × V)) (k : K) :
    mapGet (m ++ m') k = (mapGet m k).orElse (fun _ => mapGet m' k) := by
  induction m with
  | nil => cases h : mapGet m' k <;> simp [mapGet, h]
  | cons e m ih =>
    obtain ⟨k', v⟩ := e
    by_cases hk : k' = k
    · simp [mapGet, hk]
    · simp [mapGet, hk, ih]

theorem mapGet_mapDelete_same (m : List (K × V)) (k : K) :
    mapGet (mapDelete m k) k = none := by
  induction m with
  | nil => rfl
  | cons e m ih =>
    obtain ⟨k', v⟩ := e
    by_cases hk : k' = k
    · simpa [mapDelete, hk] using ih
    · simpa [mapDelete, mapGet, hk] using ih

theorem mapGet_mapDelete_other (m : List (K × V)) {k k' : K} (h : k' ≠ k) :
    mapGet (mapDelete m k) k' = mapGet m k' := by
  induction m with
  | nil => rfl
  | cons e m ih =>
    obtain ⟨k₀, v⟩ := e
    by_cases hk : k₀ = k
    · subst hk
      have hk' : ¬ k₀ = k' := fun h' => h h'.symm
      simpa [mapDelete, mapGet, hk'] using ih
    · by_cases hk' : k₀ = k'
      · subst hk'
        simp [mapDelete, mapGet, hk]
      · simpa [mapDelete, mapGet, hk, hk'] using ih

theorem mapGet_mapSet_same (m : List (K × V)) (k : K) (v : V) :
    mapGet (mapSet m k v) k = some v := by
  simp [mapSet, mapGet_append, mapGet_mapDelete_same, mapGet]

theorem mapGet_mapSet_other (m : List (K × V)) {k k' : K} (v : V) (h : k' ≠ k) :
    mapGet (mapSet m k v) k' = mapGet m k' := by
  have hk : ¬ k = k' := fun h' => h h'.symm
  cases hg : mapGet m k' <;>
    simp [mapSet, mapGet_append, mapGet_mapDelete_other m h, mapGet, hk, hg]

end GoMapLemmas

/-! ## Registry lemmas -/

theorem registerClient_clients (s : Server) (conn : NetConn) (name : String) :
    (registerClient s conn name).clients = mapSet s.clients name conn := rfl

theorem registerClient_clientConnToName (s : Server) (conn : NetConn) (name : String) :
    (registerClient s conn name).clientConnToName = mapSet s.clientConnToName conn name :=
  rfl

/-- What `removeClient` does when its guard passes. -/
theorem removeClient_of_bound (s : Server) (conn : NetConn) (name : String)
    (h1 : mapGet s.clientConnToName conn = some name)
    (h2 : mapGet s.clients name = some conn) :
    removeClient s conn =
      closeConn
        { s with
          clients := mapDelete s.clients name
          clientConnToName := mapDelete s.clientConnToName conn
          messageChan := s.messageChan ++
            [{ Name := "[系统]"
               Message := "【系统消息】用户 " ++ name ++ " 离开了！当前在线人数: "
                 ++ fmtInt ((mapLen (mapDelete s.clients name) : Int) - 1)
               Type_ := "system", Conn := none, Target := "" }] }
        conn := by
  simp [removeClient, h1, h2]

/-- What `removeClient` does when its guard does not pass. -/
theorem removeClient_of_not_bound (s : Server) (conn : NetConn)
    (h : ¬ ∃ name, mapGet s.clientConnToName conn = some name ∧
      mapGet s.clients name = some conn) :
    removeClient s conn = s := by
  cases h1 : mapGet s.clientConnToName conn with
  | none => simp [removeClient, h1]
  | some name =>
    cases h2 : mapGet s.clients name with
    | none => simp [removeClient, h1, h2]
    | some c =>
      by_cases hc : c = conn
      · exact absurd ⟨name, h1, hc ▸ h2⟩ h
      · simp [removeClient, h1, h2, hc]

theorem Stop_clients (s : Server) : (Stop s).clients = [] := rfl

theorem Stop_clientConnToName (s : Server) : (Stop s).clientConnToName = [] := rfl

theorem clientsMirrored_registerClient (s : Server) (conn : NetConn) (name : String)
    (hs : ClientsMirrored s) (hfresh : mapGet s.clientConnToName conn = none) :
    ClientsMirrored (registerClient s conn name) := by
  intro n c hnc
  rw [registerClient_clients] at hnc
  rw [registerClient_clientConnToName]
  by_cases hn : n = name
  · subst hn
    rw [mapGet_mapSet_same] at hnc
    cases hnc
    exact mapGet_mapSet_same _ _ _
  · rw [mapGet_mapSet_other _ _ hn] at hnc
    have hc := hs n c hnc
    have hne : c ≠ conn := by
      intro h
      rw [h, hfresh] at hc
      cases hc
    rw [mapGet_mapSet_other _ _ hne]
    exact hc

theorem clientsMirrored_removeClient (s : Server) (conn : NetConn)
    (hs : ClientsMirrored s) : ClientsMirrored (removeClient s conn) := by
  by_cases h : ∃ name, mapGet s.clientConnToName conn = some name ∧
      mapGet s.clients name = some conn
  · obtain ⟨name, h1, h2⟩ := h
    rw [removeClient_of_bound s conn name h1 h2]
    intro n c hnc
    simp only [closeConn] at hnc ⊢
    by_cases hn : n = name
    · subst hn
      rw [mapGet_mapDelete_same] at hnc
      cases hnc
    · rw [mapGet_mapDelete_other _ hn] at hnc
      have hc := hs n c hnc
      have hne : c ≠ conn := by
        intro h
        rw [h, h1] at hc
        exact hn (Option.some.inj hc).symm
      rw [mapGet_mapDelete_other _ hne]
      exact hc
  · rw [removeClient_of_not_bound s conn h]
    exact hs

theorem connsMirrored_registerClient (s : Server) (conn : NetConn) (name : String)
    (hs : ConnsMirrored s) (hfresh : mapGet s.clients name = none) :
    ConnsMirrored (registerClient s conn name) := by
  intro c n hcn
  rw [registerClient_clientConnToName] at hcn
  rw [registerClient_clients]
  by_cases hc : c = conn
  · subst hc
    rw [mapGet_mapSet_same] at hcn
    cases hcn
    exact mapGet_mapSet_same _ _ _
  · rw [mapGet_mapSet_other _ _ hc] at hcn
    have hn := hs c n hcn
    have hne : n ≠ name := by
      intro h
      rw [h, hfresh] at hn
      cases hn
    rw [mapGet_mapSet_other _ _ hne]
    exact hn

theorem connsMirrored_removeClient (s : Server) (conn : NetConn)
    (hs : ConnsMirrored s) : ConnsMirrored (removeClient s conn) := by
  by_cases h : ∃ name, mapGet s.clientConnToName conn = some name ∧
      mapGet s.clients name = some conn
  · obtain ⟨name, h1, h2⟩ := h
    rw [removeClient_of_bound s conn name h1 h2]
    intro c n hcn
    simp only [closeConn] at hcn ⊢
    by_cases hc : c = conn
    · subst hc
      rw [mapGet_mapDelete_same] at hcn
      cases hcn
    · rw [mapGet_mapDelete_other _ hc] at hcn
      have hn := hs c n hcn
      have hne : n ≠ name := by
        intro h
        rw [h, h2] at hn
        exact hc (Option.some.inj hn).symm
      rw [mapGet_mapDelete_other _ hne]
      exact hn
  · rw [removeClient_of_not_bound s conn h]
    exact hs

theorem clientsMirrored_runOps (ops : List RegistryOp) :
    ∀ s : Server, ClientsMirrored s → freshConns s ops = true →
      ClientsMirrored (runOps s ops) := by
  induction ops with
  | nil => intro s hs _; exact hs
  | cons op ops ih =>
    intro s hs hf
    cases op with
    | register conn name =>
      simp only [freshConns, Bool.and_eq_true, Option.isNone_iff_eq_none] at hf
      exact ih _ (clientsMirrored_registerClient s conn name hs hf.1) hf.2
    | remove conn =>
      exact ih _ (clientsMirrored_removeClient s conn hs) hf
    | stop =>
      refine ih _ ?_ hf
      intro n c hnc
      simp [applyOp, Stop_clients, mapGet] at hnc

theorem connsMirrored_runOps (ops : List RegistryOp) :
    ∀ s : Server, ConnsMirrored s → freshNames s ops = true →
      ConnsMirrored (runOps s ops) := by
  induction ops with
  | nil => intro s hs _; exact hs
  | cons op ops ih =>
    intro s hs hf
    cases op with
    | register conn name =>
      simp only [freshNames, isNameTaken, Bool.and_eq_true, Bool.not_eq_true'] at hf
      have hnone : mapGet s.clients name = none := by
        cases hg : mapGet s.clients name with
        | none => rfl
        | some c => rw [hg] at hf; exact absurd hf.1 (by simp)
      exact ih _ (connsMirrored_registerClient s conn name hs hnone) hf.2
    | remove conn =>
      exact ih _ (connsMirrored_removeClient s conn hs) hf
    | stop =>
      refine ih _ ?_ hf
      intro c n hcn
      simp [applyOp, Stop_clientConnToName, mapGet] at hcn

/-! ## Classifier lemmas -/

theorem cutAt_space_eq_none (l : List Char) : cutAt [' '] l = none ↔ ' ' ∉ l := by
  induction l with
  | nil => simp [cutAt]
  | cons c l ih =>
    by_cases hc : c = ' '
    · subst hc
      simp [cutAt, List.isPrefixOf]
    · have hc' : ¬ ' ' = c := fun h => hc h.symm
      simp [cutAt, List.isPrefixOf, hc, hc', ih]

/-- A line has a second piece exactly when it contains a space. -/
theorem SplitN_space_length (message : String) :
    (SplitN message " " 2).length < 2 ↔ ' ' ∉ message.data := by
  rw [← cutAt_space_eq_none]
  show ((splitNChars [' '] 2 message.data).map String.mk).length < 2 ↔ _
  cases h : cutAt [' '] message.data with
  | none => simp [splitNChars, h]
  | some p => obtain ⟨a, b⟩ := p; simp [splitNChars, h]

theorem privateTarget_eq (message : String) :
    TrimPrefix (TrimSpace ((SplitN message " " 2).headD "")) "@" = privateTarget message :=
  rfl

/-! ## Durable queue lemmas -/

/-- The error of `AsyncProduceMessage` is the same before and after the activity
increment: `ZINCRBY` touches neither the stream nor the failure of `XADD`. -/
theorem AsyncProduceMessage_err_after_incr (rqc : Option RedisQueueClient)
    (name : String) (msg : ChatMessage) (now : String) :
    (AsyncProduceMessage (IncrUserAction rqc name).1 msg now).2
      = (AsyncProduceMessage rqc msg now).2 := by
  cases rqc with
  | none => rfl
  | some q =>
    cases hc : q.Client with
    | none => simp [IncrUserAction, AsyncProduceMessage, hc]
    | some c =>
      cases hcl : c.closed <;> cases hz : c.zincrbyErr <;> cases hx : c.xaddErr <;>
        simp [IncrUserAction, AsyncProduceMessage, RedisClient.ZIncrBy, RedisClient.XAdd,
          hc, hcl, hz, hx]

/-- The queue the dispatcher hands to `AsyncProduceMessage`. -/
theorem handleMessagesMsg_broadcastChan (s : Server) (msg : ClientMessage) (now : String)
    (hkind : msg.Type_ = "chat") :
    (handleMessagesMsg s (some msg) now).broadcastChan =
      match (AsyncProduceMessage s.asyncQueue
        { Name := msg.Name, Message := msg.Message, Type_ := msg.Type_ } now).2 with
      | some _ => s.broadcastChan ++ [msg]
      | none => s.broadcastChan := by
  have h1 : ¬ ("chat" : String) = "system" := by decide
  have h2 : ¬ ("chat" : String) = "private" := by decide
  cases hq : s.asyncQueue with
  | none => simp [handleMessagesMsg, hkind, h1, h2, hq, AsyncProduceMessage, pushBroadcast]
  | some q =>
    have herr := AsyncProduceMessage_err_after_incr (some q) msg.Name
      { Name := msg.Name, Message := msg.Message, Type_ := "chat" } now
    simp only [handleMessagesMsg, hkind, h1, h2, hq, or_self, if_false]
    rw [herr]
    cases he : (AsyncProduceMessage (some q)
      { Name := msg.Name, Message := msg.Message, Type_ := "chat" } now).2 <;>
      simp [pushBroadcast]

theorem activityCount_handleMessagesMsg (s : Server) (msg : ClientMessage) (now : String)
    (hkind : msg.Type_ = "chat") (name : String) :
    activityCount (handleMessagesMsg s (some msg) now) name =
      match (IncrUserAction s.asyncQueue msg.Name).2 with
      | some _ => activityCount s name
      | none => if name = msg.Name then activityCount s name + 1 else activityCount s name := by
  have h1 : ¬ ("chat" : String) = "system" := by decide
  have h2 : ¬ ("chat" : String) = "private" := by decide
  cases hq : s.asyncQueue with
  | none =>
    simp [handleMessagesMsg, hkind, h1, h2, hq, AsyncProduceMessage, pushBroadcast,
      IncrUserAction, activityCount]
  | some q =>
    cases hc : q.Client with
    | none =>
      simp [handleMessagesMsg, hkind, h1, h2, hq, hc, AsyncProduceMessage, pushBroadcast,
        IncrUserAction, activityCount]
    | some c =>
      by_cases hn : name = msg.Name
      · subst hn
        cases hcl : c.closed <;> cases hz : c.zincrbyErr <;> cases hx : c.xaddErr <;>
          simp [handleMessagesMsg, hkind, h1, h2, hq, hc, AsyncProduceMessage,
            pushBroadcast, IncrUserAction, activityCount, RedisClient.ZIncrBy,
            RedisClient.XAdd, hcl, hz, hx, zscore, mapGet_mapSet_same]
      · cases hcl : c.closed <;> cases hz : c.zincrbyErr <;> cases hx : c.xaddErr <;>
          simp [handleMessagesMsg, hkind, h1, h2, hq, hc, AsyncProduceMessage,
            pushBroadcast, IncrUserAction, activityCount, RedisClient.ZIncrBy,
            RedisClient.XAdd, hcl, hz, hx, zscore, mapGet_mapSet_other _ _ hn, hn]

/-! ## Broadcaster lemmas -/

/-- The loop over `clients` makes one send per entry, in order, and collects the
connections whose write fails. -/
theorem rangeSend_eq (broadcastMsg : String) (l : List (String × NetConn)) :
    ∀ (s : Server) (acc : List NetConn),
      rangeSend broadcastMsg l (s, acc) =
        ({ s with sendLog := s.sendLog ++ l.map (fun e => (e.2, broadcastMsg)) },
          acc ++ (l.map Prod.snd).filter
            (fun c => decide (c ∈ s.writeFails ∨ c ∈ s.closedConns))) := by
  induction l with
  | nil => intro s acc; simp [rangeSend]
  | cons e l ih =>
    intro s acc
    obtain ⟨n, c⟩ := e
    by_cases hc : c ∈ s.writeFails ∨ c ∈ s.closedConns
    · simp [rangeSend, SendMessage, ih, hc]
    · simp [rangeSend, SendMessage, ih, hc]

/-- The sends of one loop over `clients` that go to a given connection. -/
theorem sends_count (clients : List (String × NetConn)) (line : String) (c : NetConn) :
    (clients.map (fun e => (e.2, line))).countP (fun w => decide (w.1 = c))
      = (clients.map Prod.snd).count c := by
  induction clients with
  | nil => rfl
  | cons e l ih =>
    by_cases h : e.2 = c
    · simp [h, List.countP_cons, List.count_cons] at ih ⊢
      exact ih
    · simp [h, List.countP_cons, List.count_cons] at ih ⊢
      exact ih

/-! ## Name validation lemmas -/

theorem utf8Size_of_ascii (c : Char) (h : c.toNat ≤ 127) : c.utf8Size = 1 := by
  have h' : c.val ≤ UInt32.ofNatCore 127 (by decide) := by
    show c.val.toNat ≤ 127
    exact h
  unfold Char.utf8Size
  exact if_pos h'

theorem utf8Size_pos (c : Char) : 0 < c.utf8Size := by
  unfold Char.utf8Size
  simp only []
  split_ifs <;> decide

/-- A text of ASCII code points has as many bytes as code points. -/
theorem utf8ByteSize_of_ascii (l : List Char) (h : ∀ c ∈ l, c.toNat ≤ 127) :
    String.utf8ByteSize.go l = l.length := by
  induction l with
  | nil => rfl
  | cons c l ih =>
    show String.utf8ByteSize.go l + c.utf8Size = l.length + 1
    rw [ih (fun c hc => h c (List.mem_cons_of_mem _ hc)),
      utf8Size_of_ascii c (h c (List.mem_cons_self _ _))]

theorem utf8ByteSize_eq_zero (l : List Char) (h : String.utf8ByteSize.go l = 0) :
    l = [] := by
  cases l with
  | nil => rfl
  | cons c l =>
    have h1 : String.utf8ByteSize.go l + c.utf8Size = 0 := h
    have := utf8Size_pos c
    omega

theorem validateRunes_eq_true (l : List Char) :
    (validateRunes l).1 = true ↔
      (∀ c ∈ l, 32 ≤ c.toNat ∧ c.toNat ≤ 126) ∧
      (∀ c ∈ l, c ∉ ['\\', '/', ':', '*', '?', '"', '<', '>', '|']) := by
  induction l with
  | nil => simp [validateRunes]
  | cons c l ih =>
    have hdata : ("\\/:*?\"<>|" : String).data
        = ['\\', '/', ':', '*', '?', '"', '<', '>', '|'] := rfl
    unfold validateRunes
    by_cases h1 : c.toNat < 32 ∨ c.toNat > 126
    · rw [if_pos h1]
      constructor
      · intro h; cases h
      · rintro ⟨h, _⟩
        have := h c (List.mem_cons_self _ _)
        omega
    · rw [if_neg h1]
      by_cases h2 : ContainsRune "\\/:*?\"<>|" c = true
      · rw [if_pos h2]
        constructor
        · intro h; cases h
        · rintro ⟨_, h⟩
          have hmem : c ∈ ("\\/:*?\"<>|" : String).data := by
            simpa [ContainsRune] using h2
          rw [hdata] at hmem
          exact absurd hmem (h c (List.mem_cons_self _ _))
      · rw [if_neg h2, ih]
        have hnot : c ∉ ['\\', '/', ':', '*', '?', '"', '<', '>', '|'] := by
          intro hmem
          apply h2
          rw [← hdata] at hmem
          simpa [ContainsRune] using hmem
        have hrange : 32 ≤ c.toNat ∧ c.toNat ≤ 126 := by omega
        constructor
        · rintro ⟨ha, hb⟩
          refine ⟨fun x hx => ?_, fun x hx => ?_⟩
          · rcases List.mem_cons.1 hx with rfl | hx
            · exact hrange
            · exact ha x hx
          · rcases List.mem_cons.1 hx with rfl | hx
            · exact hnot
            · exact hb x hx
        · rintro ⟨ha, hb⟩
          exact ⟨fun x hx => ha x (List.mem_cons_of_mem _ hx),
            fun x hx => hb x (List.mem_cons_of_mem _ hx)⟩

theorem validateRunes_reason (l : List Char) :
    (validateRunes l).1 = false → (validateRunes l).2 ≠ "" := by
  induction l with
  | nil => intro h; cases h
  | cons c l ih =>
    unfold validateRunes
    by_cases h1 : c.toNat < 32 ∨ c.toNat > 126
    · rw [if_pos h1]
      intro _
      decide
    · rw [if_neg h1]
      by_cases h2 : ContainsRune "\\/:*?\"<>|" c = true
      · rw [if_pos h2]
        intro _
        decide
      · rw [if_neg h2]
        exact ih

/-! ## Consumer lemmas -/

/-- After an append the oldest entry the group has not seen is the new one, when
the group had seen every earlier entry. -/
theorem find_new_entry (stream : List XMessage) (g : Nat) (new : XMessage)
    (hold : ∀ m ∈ stream, m.ID ≤ g) (hnew : g < new.ID) :
    ((stream ++ [new]).drop ((stream ++ [new]).length - 1000)).find?
      (fun m => decide (g < m.ID)) = some new := by
  have hk : (stream ++ [new]).length - 1000 ≤ stream.length := by
    simp only [List.length_append, List.length_singleton]
    omega
  rw [List.drop_append_of_le_length hk, List.find?_append]
  have hnone : (stream.drop ((stream ++ [new]).length - 1000)).find?
      (fun m => decide (g < m.ID)) = none := by
    rw [List.find?_eq_none]
    intro m hm
    have := hold m (List.mem_of_mem_drop hm)
    simp only [decide_eq_true_eq]
    omega
  rw [hnone]
  simp [List.find?, hnew]

theorem XAdd_ok (c : RedisClient) (values : List (String × String))
    (hopen : c.closed = false) (hxadd : c.xaddErr = none) :
    c.XAdd values =
      ({ c with
          chatStream :=
            (c.chatStream ++ [({ ID := c.nextID, Values := values } : XMessage)]).drop
              ((c.chatStream ++ [({ ID := c.nextID, Values := values } : XMessage)]).length
                - 1000)
          nextID := c.nextID + 1 }, none) := by
  unfold RedisClient.XAdd
  simp only [hopen, hxadd, Bool.false_eq_true, if_false]

theorem XReadGroup_after_XAdd (c : RedisClient) (g : Nat)
    (values : List (String × String))
    (hopen : c.closed = false) (hxadd : c.xaddErr = none)
    (hread : c.xreadgroupErr = none) (hgroup : c.chatGroup = some g)
    (hold : ∀ m ∈ c.chatStream, m.ID ≤ g) (hnext : g < c.nextID) :
    (c.XAdd values).1.XReadGroup =
      ({ (c.XAdd values).1 with
          chatGroup := some c.nextID
          pending := c.pending ++ [c.nextID] },
        .ok { ID := c.nextID, Values := values }) := by
  have hfind := find_new_entry c.chatStream g { ID := c.nextID, Values := values }
    hold hnext
  rw [XAdd_ok c values hopen hxadd]
  unfold RedisClient.XReadGroup
  simp only [hopen, hread, hgroup, hfind, Bool.false_eq_true, if_false]

/-- The entry `AsyncProduceMessage` writes, read back by one turn of the consumer. -/
theorem consume_after_produce (s : Server) (q : RedisQueueClient) (c : RedisClient)
    (g : Nat) (msg : ChatMessage) (now : String)
    (hq : s.asyncQueue = some q) (hc : q.Client = some c)
    (hopen : c.closed = false) (hxadd : c.xaddErr = none)
    (hread : c.xreadgroupErr = none) (hgroup : c.chatGroup = some g)
    (hold : ∀ m ∈ c.chatStream, m.ID ≤ g) (hnext : g < c.nextID) :
    (AsyncProduceMessage s.asyncQueue msg now).2 = none ∧
    ∃ s', chatConsumerStep { s with asyncQueue := (AsyncProduceMessage s.asyncQueue msg now).1 }
        = some s' ∧
      s'.broadcastChan = if msg.Type_ ≠ "system" then
        s.broadcastChan ++ [{ Conn := none, Name := msg.Name, Message := msg.Message,
                              Type_ := msg.Type_, Target := "" }]
        else s.broadcastChan := by
  have hadd := XAdd_ok c [("sender", msg.Name), ("context", msg.Message),
    ("type", msg.Type_), ("timestamp", now)] hopen hxadd
  have hrd := XReadGroup_after_XAdd c g [("sender", msg.Name), ("context", msg.Message),
    ("type", msg.Type_), ("timestamp", now)] hopen hxadd hread hgroup hold hnext
  have hprod : AsyncProduceMessage s.asyncQueue msg now =
      (some { q with Client := some (c.XAdd [("sender", msg.Name),
        ("context", msg.Message), ("type", msg.Type_), ("timestamp", now)]).1 }, none) := by
    rw [hq]
    unfold AsyncProduceMessage
    simp only [hc]
    rw [hadd]
  rw [hprod]
  refine ⟨rfl, ?_⟩
  unfold chatConsumerStep
  simp only [hrd]
  have h1 : ¬ ("sender" : String) = "context" := by decide
  have h2 : ¬ ("sender" : String) = "type" := by decide
  have h3 : ¬ ("context" : String) = "type" := by decide
  by_cases hsys : msg.Type_ = "system"
  · simp [consumeMessage, mapGet, h1, h2, h3, hsys]
  · simp [consumeMessage, mapGet, h1, h2, h3, hsys, ChatTaskHandler, pushBroadcast]

/-- The activity increment leaves everything but the ranking as it was. -/
theorem IncrUserAction_client (q : RedisQueueClient) (c : RedisClient) (name : String)
    (hc : q.Client = some c) :
    ∃ c', (IncrUserAction (some q) name).1 = some { q with Client := some c' } ∧
      c'.closed = c.closed ∧ c'.xaddErr = c.xaddErr ∧
      c'.xreadgroupErr = c.xreadgroupErr ∧ c'.chatGroup = c.chatGroup ∧
      c'.chatStream = c.chatStream ∧ c'.nextID = c.nextID := by
  cases hcl : c.closed <;> cases hz : c.zincrbyErr <;>
    simp [IncrUserAction, RedisClient.ZIncrBy, hc, hcl, hz]

/-- The dispatcher on a chat envelope when a queue is present. -/
theorem handleMessagesMsg_chat (s : Server) (q : RedisQueueClient) (msg : ClientMessage)
    (now : String) (hkind : msg.Type_ = "chat") (hq : s.asyncQueue = some q) :
    handleMessagesMsg s (some msg) now =
      match (AsyncProduceMessage (IncrUserAction (some q) msg.Name).1
          { Name := msg.Name, Message := msg.Message, Type_ := "chat" } now).2 with
      | some _ =>
        pushBroadcast
          { s with asyncQueue := (AsyncProduceMessage (IncrUserAction (some q) msg.Name).1
              { Name := msg.Name, Message := msg.Message, Type_ := "chat" } now).1 } msg
      | none =>
        { s with asyncQueue := (AsyncProduceMessage (IncrUserAction (some q) msg.Name).1
            { Name := msg.Name, Message := msg.Message, Type_ := "chat" } now).1 } := by
  have h1 : ¬ ("chat" : String) = "system" := by decide
  have h2 : ¬ ("chat" : String) = "private" := by decide
  simp only [handleMessagesMsg, hkind, h1, h2, hq, or_self, if_false]

/-- On a chat envelope the broadcaster reads only the sender and the body. -/
theorem broadcastMessage_chat_congr (t : Server) (m m' : ClientMessage)
    (hk : m.Type_ = "chat") (hk' : m'.Type_ = "chat") (hn : m.Name = m'.Name)
    (hb : m.Message = m'.Message) : broadcastMessage t m = broadcastMessage t m' := by
  have h1 : ¬ ("chat" : String) = "system" := by decide
  have h2 : ¬ ("chat" : String) = "private" := by decide
  simp only [broadcastMessage, hk, hk', hn, hb, h1, h2, if_false, if_true]

/-! ## Claims about the registry -/

/-- C1, as stated, fails. After two logins that both passed `isNameTaken` register
the name `alice` one after the other, connection 1 is still bound to `alice` in
`clientConnToName` while `clients` binds `alice` to connection 2, so the maps are
not inverse and two distinct connections carry the same name. After one connection
registers under two names, `clients` binds `alice` to connection 1 while
`clientConnToName` binds connection 1 to `bob`. -/
theorem registry_not_inverse_counterexample :
    (mapGet (runOps (NewServer none none)
        [.register 1 "alice", .register 2 "alice"]).clientConnToName 1 = some "alice" ∧
      mapGet (runOps (NewServer none none)
        [.register 1 "alice", .register 2 "alice"]).clientConnToName 2 = some "alice" ∧
      mapGet (runOps (NewServer none none)
        [.register 1 "alice", .register 2 "alice"]).clients "alice" = some 2 ∧
      ¬ (∀ n c, mapGet (runOps (NewServer none none)
          [.register 1 "alice", .register 2 "alice"]).clients n = some c ↔
        mapGet (runOps (NewServer none none)
          [.register 1 "alice", .register 2 "alice"]).clientConnToName c = some n)) ∧
    (mapGet (runOps (NewServer none none)
        [.register 1 "alice", .register 1 "bob"]).clients "alice" = some 1 ∧
      mapGet (runOps (NewServer none none)
        [.register 1 "alice", .register 1 "bob"]).clientConnToName 1 = some "bob") := by
  refine ⟨⟨by decide, by decide, by decide, ?_⟩, by decide, by decide⟩
  intro h
  have h1 := (h "alice" 1).2 (by decide)
  revert h1
  decide

/-- C1, amended. In every state reached from the empty registry by a sequence of
`registerClient`, `removeClient` and `Stop` in which each `registerClient` is given
a connection that is not yet a key of `clientConnToName`, every binding of `clients`
is mirrored in `clientConnToName`. If moreover each `registerClient` is given a name
that is not yet a key of `clients`, the two maps are inverse of one another and no
two connections are bound to the same name. -/
theorem registry_inverse_of_fresh_registrations (userDB : Option UserDB)
    (asyncQueue : Option RedisQueueClient) (ops : List RegistryOp)
    (hconns : freshConns (NewServer userDB asyncQueue) ops = true) :
    (∀ n c, mapGet (runOps (NewServer userDB asyncQueue) ops).clients n = some c →
      mapGet (runOps (NewServer userDB asyncQueue) ops).clientConnToName c = some n) ∧
    (freshNames (NewServer userDB asyncQueue) ops = true →
      (∀ n c, mapGet (runOps (NewServer userDB asyncQueue) ops).clients n = some c ↔
        mapGet (runOps (NewServer userDB asyncQueue) ops).clientConnToName c = some n) ∧
      (∀ c₁ c₂ n,
        mapGet (runOps (NewServer userDB asyncQueue) ops).clientConnToName c₁ = some n →
        mapGet (runOps (NewServer userDB asyncQueue) ops).clientConnToName c₂ = some n →
        c₁ = c₂)) := by
  have hA : ClientsMirrored (runOps (NewServer userDB asyncQueue) ops) :=
    clientsMirrored_runOps ops _ (by intro n c h; simp [NewServer, mapGet] at h) hconns
  refine ⟨hA, fun hnames => ?_⟩
  have hB : ConnsMirrored (runOps (NewServer userDB asyncQueue) ops) :=
    connsMirrored_runOps ops _ (by intro c n h; simp [NewServer, mapGet] at h) hnames
  refine ⟨fun n c => ⟨hA n c, hB c n⟩, fun c₁ c₂ n h₁ h₂ => ?_⟩
  have e₁ := hB c₁ n h₁
  have e₂ := hB c₂ n h₂
  rw [e₁] at e₂
  exact Option.some.inj e₂

/-- The amended C1 at a concrete run: two logins, a removal, a shutdown and a
login that reuses the freed name. -/
theorem registry_inverse_of_fresh_registrations_witness :
    freshConns (NewServer none none)
        [.register 1 "alice", .register 2 "bob", .remove 1, .stop, .register 3 "alice"]
      = true ∧
    freshNames (NewServer none none)
        [.register 1 "alice", .register 2 "bob", .remove 1, .stop, .register 3 "alice"]
      = true ∧
    (∀ n c, mapGet (runOps (NewServer none none)
        [.register 1 "alice", .register 2 "bob", .remove 1, .stop,
          .register 3 "alice"]).clients n = some c ↔
      mapGet (runOps (NewServer none none)
        [.register 1 "alice", .register 2 "bob", .remove 1, .stop,
          .register 3 "alice"]).clientConnToName c = some n) :=
  ⟨by decide, by decide,
    ((registry_inverse_of_fresh_registrations none none
      [.register 1 "alice", .register 2 "bob", .remove 1, .stop, .register 3 "alice"]
      (by decide)).2 (by decide)).1⟩

/-- C2, as stated, fails. In the state reached by two logins under the name `alice`
followed by the removal of the second one, connection 1 is a key of
`clientConnToName` and its name is bound in `clients` to no connection at all, so
the claim puts it in its removing branch; `removeClient` leaves the state as it is
and the entry of connection 1 stays. -/
theorem removeClient_unbound_name_counterexample :
    mapGet (runOps (NewServer none none)
        [.register 1 "alice", .register 2 "alice", .remove 2]).clientConnToName 1
      = some "alice" ∧
    mapGet (runOps (NewServer none none)
        [.register 1 "alice", .register 2 "alice", .remove 2]).clients "alice" = none ∧
    mapGet (removeClient (runOps (NewServer none none)
        [.register 1 "alice", .register 2 "alice", .remove 2]) 1).clientConnToName 1
      = some "alice" := by
  refine ⟨by decide, by decide, by decide⟩

/-- C2, amended. `removeClient conn` removes only when `conn` is a key of
`clientConnToName` and the name it maps to is bound in `clients` to this same
connection. In every other case (no entry for `conn`, the name bound to another
connection, or the name not bound at all) the whole state is unchanged: both maps,
the inbound queue and the set of closed connections. When it removes, `clients`
loses exactly `name`, `clientConnToName` loses exactly `conn`, every other entry of
both maps is unchanged, and `conn` is closed. -/
theorem removeClient_conditional (s : Server) (conn : NetConn) :
    ((¬ ∃ name, mapGet s.clientConnToName conn = some name ∧
          mapGet s.clients name = some conn) →
      removeClient s conn = s) ∧
    (∀ name, mapGet s.clientConnToName conn = some name →
      mapGet s.clients name = some conn →
      mapGet (removeClient s conn).clients name = none ∧
      mapGet (removeClient s conn).clientConnToName conn = none ∧
      (∀ n, n ≠ name →
        mapGet (removeClient s conn).clients n = mapGet s.clients n) ∧
      (∀ c, c ≠ conn →
        mapGet (removeClient s conn).clientConnToName c = mapGet s.clientConnToName c) ∧
      (removeClient s conn).closedConns = s.closedConns ++ [conn]) := by
  refine ⟨removeClient_of_not_bound s conn, fun name h1 h2 => ?_⟩
  rw [removeClient_of_bound s conn name h1 h2]
  refine ⟨mapGet_mapDelete_same _ _, mapGet_mapDelete_same _ _, ?_, ?_, rfl⟩
  · intro n hn
    exact mapGet_mapDelete_other _ hn
  · intro c hc
    exact mapGet_mapDelete_other _ hc

/-- The amended C2 at concrete states: a stale connection is left alone, a bound
one is removed. -/
theorem removeClient_conditional_witness :
    removeClient (runOps (NewServer none none)
        [.register 1 "alice", .register 2 "alice"]) 1
      = runOps (NewServer none none) [.register 1 "alice", .register 2 "alice"] ∧
    mapGet (removeClient (runOps (NewServer none none)
        [.register 1 "alice", .register 2 "bob"]) 1).clients "alice" = none :=
  ⟨(removeClient_conditional _ 1).1 (by
      rintro ⟨name, h1, h2⟩
      have hname : name = "alice" := by
        have h : mapGet (runOps (NewServer none none)
            [.register 1 "alice", .register 2 "alice"]).clientConnToName 1
            = some "alice" := by decide
        rw [h] at h1
        exact (Option.some.inj h1).symm
      subst hname
      revert h2
      decide),
    ((removeClient_conditional _ 1).2 "alice" (by decide) (by decide)).1⟩

/-- C3, as stated, fails. With `alice` bound to connection 1, `registerClient 2
"alice"` changes both maps: `clients` now binds `alice` to connection 2 and
`clientConnToName` has gained an entry for connection 2. -/
theorem registerClient_present_name_counterexample :
    isNameTaken (registerClient (NewServer none none) 1 "alice") "alice" = true ∧
    (registerClient (registerClient (NewServer none none) 1 "alice") 2 "alice").clients
      ≠ (registerClient (NewServer none none) 1 "alice").clients ∧
    (registerClient (registerClient (NewServer none none) 1 "alice") 2
        "alice").clientConnToName
      ≠ (registerClient (NewServer none none) 1 "alice").clientConnToName ∧
    mapGet (registerClient (registerClient (NewServer none none) 1 "alice") 2
        "alice").clients "alice" = some 2 := by
  refine ⟨by decide, by decide, by decide, by decide⟩

/-- C3, amended. `registerClient conn name` never fails and does not look at
whether `name` is present: in every state it binds `name` to `conn` in `clients`
and `conn` to `name` in `clientConnToName`, leaves every other entry of both maps
unchanged, and pushes one system envelope onto the inbound queue. A name that was
already present is rebound to the new connection. -/
theorem registerClient_overwrites (s : Server) (conn : NetConn) (name : String) :
    mapGet (registerClient s conn name).clients name = some conn ∧
    mapGet (registerClient s conn name).clientConnToName conn = some name ∧
    (∀ n, n ≠ name →
      mapGet (registerClient s conn name).clients n = mapGet s.clients n) ∧
    (∀ c, c ≠ conn →
      mapGet (registerClient s conn name).clientConnToName c
        = mapGet s.clientConnToName c) ∧
    (∃ m : ClientMessage, m.Type_ = "system" ∧ m.Conn = none ∧
      (registerClient s conn name).messageChan = s.messageChan ++ [m]) := by
  refine ⟨mapGet_mapSet_same _ _ _, mapGet_mapSet_same _ _ _, ?_, ?_, ?_⟩
  · intro n hn
    exact mapGet_mapSet_other _ _ hn
  · intro c hc
    exact mapGet_mapSet_other _ _ hc
  · exact ⟨_, rfl, rfl, rfl⟩

/-- C4 on the code: removing the only session. The registry holds one session
before the removal and none after it, and the one envelope pushed onto the inbound
queue announces the count -1: the text is built from `len(s.clients)-1` after the
entry has already been deleted. -/
theorem removeClient_announces_wrong_count :
    mapLen (registerClient (NewServer none none) 1 "alice").clients = 1 ∧
    mapLen (removeClient (registerClient (NewServer none none) 1 "alice") 1).clients
      = 0 ∧
    (removeClient (registerClient (NewServer none none) 1 "alice") 1).messageChan
      = (registerClient (NewServer none none) 1 "alice").messageChan ++
        [{ Name := "[系统]"
           Message := "【系统消息】用户 alice 离开了！当前在线人数: -1"
           Type_ := "system", Conn := none, Target := "" }] := by
  refine ⟨by decide, by decide, by decide⟩

/-! ## Claims about the classifier and the dispatcher -/

/-- C5. For every sender and every line (in particular one beginning with `@`): if
the line contains no space, so that it has no body, or the target name parsed out
of it is empty, or the target is the sender, or the target is not a key of
`clients`, then `handlePrivateMessage` pushes nothing onto the inbound queue,
nothing onto the broadcast queue, and makes exactly one send, to the sender's
connection. -/
theorem handlePrivateMessage_rejects (s : Server) (conn : NetConn)
    (sender message : String)
    (h : ' ' ∉ message.data ∨ privateTarget message = "" ∨
      privateTarget message = sender ∨
      mapGet s.clients (privateTarget message) = none) :
    (handlePrivateMessage s conn sender message).messageChan = s.messageChan ∧
    (handlePrivateMessage s conn sender message).broadcastChan = s.broadcastChan ∧
    ∃ line, (handlePrivateMessage s conn sender message).sendLog
      = s.sendLog ++ [(conn, line)] := by
  rw [← SplitN_space_length] at h
  unfold handlePrivateMessage
  simp only [privateTarget_eq, getClientConnection]
  by_cases h1 : (SplitN message " " 2).length < 2 ∨ privateTarget message = ""
  · rw [if_pos h1]
    exact ⟨rfl, rfl, _, rfl⟩
  · rw [if_neg h1]
    by_cases h2 : privateTarget message = sender
    · rw [if_pos h2]
      exact ⟨rfl, rfl, _, rfl⟩
    · rw [if_neg h2]
      have h3 : mapGet s.clients (privateTarget message) = none := by
        rcases h with h | h | h | h
        · exact absurd (Or.inl h) h1
        · exact absurd (Or.inr h) h1
        · exact absurd h h2
        · exact h
      rw [h3]
      exact ⟨rfl, rfl, _, rfl⟩

/-- C5 at a concrete line: alice, alone online, writes to bob. -/
theorem handlePrivateMessage_rejects_witness :
    mapGet (registerClient (NewServer none none) 1 "alice").clients
      (privateTarget "@bob hi") = none ∧
    (handlePrivateMessage (registerClient (NewServer none none) 1 "alice") 1 "alice"
      "@bob hi").messageChan
      = (registerClient (NewServer none none) 1 "alice").messageChan :=
  ⟨by decide,
    (handlePrivateMessage_rejects (registerClient (NewServer none none) 1 "alice") 1
      "alice" "@bob hi" (Or.inr (Or.inr (Or.inr (by decide))))).1⟩

/-- C6, as stated, fails. With a nil queue client the enqueue returns an error and
the envelope is pushed onto the broadcast queue, but no activity counter is
incremented: the dispatcher skips `IncrUserAction` when `s.asyncQueue` is nil. The
same happens with a connected client whose `ZINCRBY` and `XADD` both fail. -/
theorem dispatch_no_increment_counterexample :
    ((AsyncProduceMessage (NewServer none none).asyncQueue
        { Name := "alice", Message := "hello", Type_ := "chat" } "t").2 ≠ none ∧
      (handleMessagesMsg (NewServer none none)
        (some helloFromAlice) "t").broadcastChan
        = [helloFromAlice] ∧
      activityCount (handleMessagesMsg (NewServer none none)
        (some helloFromAlice) "t") "alice"
        ≠ activityCount (NewServer none none) "alice" + 1) ∧
    ((handleMessagesMsg (NewServer none (some (redisQueue (some "EOF") (some "EOF"))))
        (some helloFromAlice) "t").broadcastChan
        = [helloFromAlice] ∧
      activityCount (handleMessagesMsg (NewServer none (some (redisQueue (some "EOF") (some "EOF"))))
        (some helloFromAlice) "t") "alice" = 0) := by
  refine ⟨⟨by decide, by decide, by decide⟩, by decide, by decide⟩

/-- C6, amended. For every chat envelope the dispatcher takes: if
`AsyncProduceMessage` returns an error (nil queue, nil client, or a failing `XADD`)
the same envelope is pushed onto the broadcast queue exactly once; if it succeeds
the dispatcher pushes nothing onto the broadcast queue. The sender's activity
counter grows by one exactly when `IncrUserAction` succeeds, whatever the enqueue
does; when the queue is nil (the increment is then skipped) or the increment fails,
no counter changes. -/
theorem dispatch_chat_fallback (s : Server) (msg : ClientMessage) (now : String)
    (hkind : msg.Type_ = "chat") :
    ((AsyncProduceMessage s.asyncQueue
        { Name := msg.Name, Message := msg.Message, Type_ := msg.Type_ } now).2 ≠ none →
      (handleMessagesMsg s (some msg) now).broadcastChan = s.broadcastChan ++ [msg]) ∧
    ((AsyncProduceMessage s.asyncQueue
        { Name := msg.Name, Message := msg.Message, Type_ := msg.Type_ } now).2 = none →
      (handleMessagesMsg s (some msg) now).broadcastChan = s.broadcastChan) ∧
    ((IncrUserAction s.asyncQueue msg.Name).2 = none →
      activityCount (handleMessagesMsg s (some msg) now) msg.Name
        = activityCount s msg.Name + 1) ∧
    ((IncrUserAction s.asyncQueue msg.Name).2 ≠ none →
      ∀ name, activityCount (handleMessagesMsg s (some msg) now) name
        = activityCount s name) := by
  refine ⟨fun h => ?_, fun h => ?_, fun h => ?_, fun h name => ?_⟩
  · rw [handleMessagesMsg_broadcastChan s msg now hkind]
    cases he : (AsyncProduceMessage s.asyncQueue
      { Name := msg.Name, Message := msg.Message, Type_ := msg.Type_ } now).2 with
    | none => exact absurd he h
    | some e => rfl
  · rw [handleMessagesMsg_broadcastChan s msg now hkind, h]
  · rw [activityCount_handleMessagesMsg s msg now hkind, h]
    simp
  · rw [activityCount_handleMessagesMsg s msg now hkind]
    cases he : (IncrUserAction s.asyncQueue msg.Name).2 with
    | none => exact absurd he h
    | some e => rfl

/-- The amended C6 with a connected Redis whose `XADD` fails: the envelope is
broadcast directly and alice's counter goes from 0 to 1. -/
theorem dispatch_chat_fallback_witness :
    (handleMessagesMsg (NewServer none (some (redisQueue (some "EOF") none)))
      (some helloFromAlice) "t").broadcastChan
      = [] ++ [helloFromAlice] ∧
    activityCount (handleMessagesMsg (NewServer none (some (redisQueue (some "EOF") none)))
      (some helloFromAlice) "t") "alice" = 0 + 1 :=
  ⟨(dispatch_chat_fallback (NewServer none (some (redisQueue (some "EOF") none)))
      helloFromAlice "t" rfl).1 (by decide),
    (dispatch_chat_fallback (NewServer none (some (redisQueue (some "EOF") none)))
      helloFromAlice "t" rfl).2.2.1 (by decide)⟩

/-! ## Claims about the broadcaster and the name check -/

/-- C8. For every state and every envelope of kind chat or system,
`broadcastMessage` makes one send per session of `clients`, to that session's
connection and to no other; the line is `"[" ++ Name ++ "]: " ++ Message` for kind
chat and `Message` itself for kind system. The number of sends a connection
receives is the number of names bound to it in `clients`: when no connection is
bound to two names, exactly one for each connection of `clients` and none for any
other. The connections pushed onto the unregister queue are exactly those of
`clients` whose send failed, and the registry is not touched. -/
theorem broadcastMessage_fanout (s : Server) (m : ClientMessage)
    (hkind : m.Type_ = "chat" ∨ m.Type_ = "system") :
    (broadcastMessage s m).sendLog = s.sendLog ++ s.clients.map (fun e =>
      (e.2, if m.Type_ = "chat" then "[" ++ m.Name ++ "]: " ++ m.Message else m.Message)) ∧
    (∀ c, (s.clients.map (fun e =>
        (e.2, if m.Type_ = "chat" then "[" ++ m.Name ++ "]: " ++ m.Message
          else m.Message))).countP (fun w => decide (w.1 = c))
      = (s.clients.map Prod.snd).count c) ∧
    (∀ c, (s.clients.map Prod.snd).Nodup →
      (s.clients.map (fun e =>
        (e.2, if m.Type_ = "chat" then "[" ++ m.Name ++ "]: " ++ m.Message
          else m.Message))).countP (fun w => decide (w.1 = c))
      = if c ∈ s.clients.map Prod.snd then 1 else 0) ∧
    (broadcastMessage s m).unregisterChan = s.unregisterChan ++
      (s.clients.map Prod.snd).filter (fun c => (SendMessage s c
        (if m.Type_ = "chat" then "[" ++ m.Name ++ "]: " ++ m.Message
          else m.Message)).2) ∧
    (broadcastMessage s m).clients = s.clients ∧
    (broadcastMessage s m).clientConnToName = s.clientConnToName ∧
    (broadcastMessage s m).readLocks = s.readLocks := by
  have h1 : ¬ ("chat" : String) = "system" := by decide
  have h2 : ¬ ("chat" : String) = "private" := by decide
  have h3 : ¬ ("system" : String) = "chat" := by decide
  refine ⟨?_, ?_, ?_, ?_, ?_, ?_, ?_⟩
  · rcases hkind with hk | hk
    · simp [broadcastMessage, hk, h1, h2, rangeSend_eq, unlockAndCleanup]
    · simp [broadcastMessage, hk, h3, rangeSend_eq, unlockAndCleanup]
  · intro c
    exact sends_count s.clients _ c
  · intro c hnodup
    rw [sends_count s.clients _ c]
    exact List.count_eq_of_nodup hnodup
  · rcases hkind with hk | hk
    · simp [broadcastMessage, hk, h1, h2, rangeSend_eq, unlockAndCleanup, SendMessage]
    · simp [broadcastMessage, hk, h3, rangeSend_eq, unlockAndCleanup, SendMessage]
  · rcases hkind with hk | hk
    · simp [broadcastMessage, hk, h1, h2, rangeSend_eq, unlockAndCleanup]
    · simp [broadcastMessage, hk, h3, rangeSend_eq, unlockAndCleanup]
  · rcases hkind with hk | hk
    · simp [broadcastMessage, hk, h1, h2, rangeSend_eq, unlockAndCleanup]
    · simp [broadcastMessage, hk, h3, rangeSend_eq, unlockAndCleanup]
  · rcases hkind with hk | hk
    · simp [broadcastMessage, hk, h1, h2, rangeSend_eq, unlockAndCleanup]
    · simp [broadcastMessage, hk, h3, rangeSend_eq, unlockAndCleanup]

/-- C8 at a concrete state: alice on connection 1 and bob on connection 2, whose
write fails, receive alice's chat line; connection 2 goes to the unregister queue. -/
theorem broadcastMessage_fanout_witness :
    (broadcastMessage roomWithBrokenBob helloFromAlice).sendLog
      = roomWithBrokenBob.sendLog ++ [(1, "[alice]: hello"), (2, "[alice]: hello")] ∧
    (broadcastMessage roomWithBrokenBob helloFromAlice).unregisterChan = [] ++ [2] ∧
    (roomWithBrokenBob.clients.map (fun e => (e.2, "[alice]: hello"))).countP
      (fun w => decide (w.1 = 2)) = 1 :=
  ⟨(broadcastMessage_fanout roomWithBrokenBob helloFromAlice (Or.inl rfl)).1,
    (broadcastMessage_fanout roomWithBrokenBob helloFromAlice (Or.inl rfl)).2.2.2.1,
    (broadcastMessage_fanout roomWithBrokenBob helloFromAlice (Or.inl rfl)).2.2.1 2
      (by decide)⟩

/-- C9. For every state and every envelope of kind private, `broadcastMessage`
sends one line to the connection bound to the target when the target is a key of
`clients`, then one separate confirmation line to the connection bound to the
sender when the sender is a key of `clients`, and nothing else. -/
theorem broadcastMessage_private (s : Server) (m : ClientMessage)
    (hkind : m.Type_ = "private") :
    (broadcastMessage s m).sendLog = s.sendLog ++
      (match mapGet s.clients m.Target with
        | some targetConn => [(targetConn, "【私聊 - " ++ m.Name ++ "】: " ++ m.Message)]
        | none => []) ++
      (match mapGet s.clients m.Name with
        | some senderConn => [(senderConn, "【私聊" ++ m.Target ++ "】: " ++ m.Message)]
        | none => []) := by
  have h1 : ¬ ("private" : String) = "system" := by decide
  cases ht : mapGet s.clients m.Target <;> cases hs : mapGet s.clients m.Name <;>
    simp [broadcastMessage, hkind, h1, ht, hs, SendMessage, unlockAndCleanup]

/-- C9 at a concrete state: alice writes to bob; bob gets the message and alice the
confirmation. -/
theorem broadcastMessage_private_witness :
    (broadcastMessage roomWithBrokenBob
      { Conn := some 1, Name := "alice", Message := "hi", Type_ := "private",
        Target := "bob" }).sendLog
      = roomWithBrokenBob.sendLog ++ [(2, "【私聊 - alice】: hi")] ++ [(1, "【私聊bob】: hi")] :=
  broadcastMessage_private roomWithBrokenBob
    { Conn := some 1, Name := "alice", Message := "hi", Type_ := "private",
      Target := "bob" } rfl

/-- C10. `ValidateName` accepts a name exactly when it is non-empty, has at most
20 characters, every character has a code from 32 to 126, and none is one of
`\ / : * ? " < > |`; whenever it rejects, the reason is a non-empty text. -/
theorem ValidateName_spec (name : String) :
    ((ValidateName name).1 = true ↔
      name ≠ "" ∧ name.length ≤ 20 ∧
      (∀ c ∈ name.data, 32 ≤ c.toNat ∧ c.toNat ≤ 126) ∧
      (∀ c ∈ name.data, c ∉ ['\\', '/', ':', '*', '?', '"', '<', '>', '|'])) ∧
    ((ValidateName name).1 = false → (ValidateName name).2 ≠ "") := by
  obtain ⟨l⟩ := name
  have hlen : String.length ⟨l⟩ = l.length := rfl
  have hsize : String.utf8ByteSize ⟨l⟩ = String.utf8ByteSize.go l := rfl
  have hne : (⟨l⟩ : String) ≠ "" ↔ l ≠ [] := by
    constructor
    · intro h hl
      exact h (by rw [hl])
    · intro h he
      exact h (congrArg String.data he)
  refine ⟨?_, ?_⟩
  · rw [hne, hlen]
    unfold ValidateName
    rw [hsize]
    constructor
    · intro h
      by_cases h0 : String.utf8ByteSize.go l = 0
      · rw [if_pos h0] at h; cases h
      · rw [if_neg h0] at h
        by_cases h20 : String.utf8ByteSize.go l > 20
        · rw [if_pos h20] at h; cases h
        · rw [if_neg h20] at h
          have hv := (validateRunes_eq_true l).1 h
          have hascii : ∀ c ∈ l, c.toNat ≤ 127 := fun c hc => by
            have := (hv.1 c hc).2
            omega
          have hbytes := utf8ByteSize_of_ascii l hascii
          refine ⟨?_, by omega, hv.1, hv.2⟩
          intro hl
          apply h0
          rw [hl]
          rfl
    · rintro ⟨hl, h20, ha, hb⟩
      have hascii : ∀ c ∈ l, c.toNat ≤ 127 := fun c hc => by
        have := (ha c hc).2
        omega
      have hbytes := utf8ByteSize_of_ascii l hascii
      have h0 : ¬ String.utf8ByteSize.go l = 0 := by
        intro h
        exact hl (utf8ByteSize_eq_zero l h)
      have h20' : ¬ String.utf8ByteSize.go l > 20 := by omega
      rw [if_neg h0, if_neg h20']
      exact (validateRunes_eq_true l).2 ⟨ha, hb⟩
  · unfold ValidateName
    rw [hsize]
    by_cases h0 : String.utf8ByteSize.go l = 0
    · rw [if_pos h0]
      intro _
      decide
    · rw [if_neg h0]
      by_cases h20 : String.utf8ByteSize.go l > 20
      · rw [if_pos h20]
        intro _
        decide
      · rw [if_neg h20]
        exact validateRunes_reason l

/-- C10 at concrete names: `alice` is accepted, `a/b` is rejected with a reason. -/
theorem ValidateName_spec_witness :
    (ValidateName "alice").1 = true ∧ (ValidateName "a/b").2 ≠ "" :=
  ⟨(ValidateName_spec "alice").1.2 (by decide),
    (ValidateName_spec "a/b").2 (by decide)⟩

/-! ## Lemmas about the durable path -/

/-- The newest entry survives the cap of `XADD`. -/
theorem getLast_after_cap (stream : List XMessage) (new : XMessage) :
    ((stream ++ [new]).drop ((stream ++ [new]).length - 1000)).getLast? = some new := by
  have hk : (stream ++ [new]).length - 1000 ≤ stream.length := by
    simp only [List.length_append, List.length_singleton]
    omega
  rw [List.drop_append_of_le_length hk, List.getLast?_append]
  rfl

/-- The durable branch of the dispatcher on a chat envelope, for a client whose
`XADD` works: nothing is broadcast and the newest stream entry carries the sender,
the body and the kind. -/
theorem handleMessagesMsg_durable (s : Server) (c : RedisClient) (msg : ClientMessage)
    (now : String) (hkind : msg.Type_ = "chat")
    (hopen : c.closed = false) (hxadd : c.xaddErr = none) :
    (handleMessagesMsg { s with asyncQueue := some { Client := some c } } (some msg)
        now).broadcastChan = s.broadcastChan ∧
    ∃ c', (handleMessagesMsg { s with asyncQueue := some { Client := some c } } (some msg)
        now).asyncQueue = some { Client := some c' } ∧
      c'.chatStream.getLast? = some
        { ID := c.nextID
          Values := [("sender", msg.Name), ("context", msg.Message), ("type", "chat"),
            ("timestamp", now)] } := by
  obtain ⟨c', hincr, hcl', hx', _, _, hst', hid'⟩ :=
    IncrUserAction_client { Client := some c } c msg.Name rfl
  have hdisp := handleMessagesMsg_chat
    { s with asyncQueue := some { Client := some c } } { Client := some c } msg now hkind rfl
  have hadd := XAdd_ok c' [("sender", msg.Name), ("context", msg.Message),
    ("type", "chat"), ("timestamp", now)] (hcl'.trans hopen) (hx'.trans hxadd)
  rw [hdisp, hincr]
  simp only [AsyncProduceMessage, hadd]
  refine ⟨trivial, _, rfl, ?_⟩
  rw [getLast_after_cap, hid']

/-- The fallback branch of the dispatcher on a chat envelope, for a client whose
`XADD` fails: the envelope goes to the broadcast queue as it is. -/
theorem handleMessagesMsg_fallback (s : Server) (c : RedisClient) (msg : ClientMessage)
    (now : String) (hkind : msg.Type_ = "chat")
    (hfail : ¬ (c.closed = false ∧ c.xaddErr = none)) :
    (handleMessagesMsg { s with asyncQueue := some { Client := some c } } (some msg)
        now).broadcastChan = s.broadcastChan ++ [msg] := by
  obtain ⟨c', hincr, hcl', hx', _, _, _, _⟩ :=
    IncrUserAction_client { Client := some c } c msg.Name rfl
  have hdisp := handleMessagesMsg_chat
    { s with asyncQueue := some { Client := some c } } { Client := some c } msg now hkind rfl
  rw [hdisp, hincr]
  cases hcl : c.closed with
  | true =>
    simp [AsyncProduceMessage, RedisClient.XAdd, hcl'.trans hcl, pushBroadcast]
  | false =>
    cases hx : c.xaddErr with
    | none => exact absurd ⟨hcl, hx⟩ hfail
    | some e =>
      simp [AsyncProduceMessage, RedisClient.XAdd, hcl'.trans hcl, hx'.trans hx, pushBroadcast]

/-- What the consumer makes of a stream entry written for a chat envelope. -/
theorem consumeMessage_chat_entry (t : Server) (c : RedisClient) (id : Nat)
    (n b now : String) :
    consumeMessage t c
        { ID := id
          Values := [("sender", n), ("context", b), ("type", "chat"), ("timestamp", now)] }
      = some (pushBroadcast t
          { Conn := none, Name := n, Message := b, Type_ := "chat", Target := "" },
        (c.XAck id).1) := by
  have h1 : ¬ ("sender" : String) = "context" := by decide
  have h2 : ¬ ("sender" : String) = "type" := by decide
  have h3 : ¬ ("context" : String) = "type" := by decide
  have h4 : ¬ ("chat" : String) = "system" := by decide
  simp [consumeMessage, mapGet, h1, h2, h3, h4, ChatTaskHandler]

/-! ## Claim about the durable path -/

/-- C7. Take any chat envelope, with sender `n` and body `b`. On a server with a
Redis client the dispatcher either takes the durable path, when `XADD` works, and
then broadcasts nothing itself and leaves as newest stream entry the one with
sender `n`, context `b` and type chat; or it takes the fallback path and puts the
envelope on the broadcast queue as it is. The consumer converts every stream entry
with these values, whatever its id, into the envelope with sender `n`, body `b`,
kind chat and a nil connection, handed to `ChatTaskHandler`; so a turn of the
consumer whose `XREADGROUP` returns the entry appends that envelope to the broadcast
queue. In every state `broadcastMessage` sends for it the line
`"[" ++ n ++ "]: " ++ b` to each session, with the same outcome as for the original
envelope on the fallback path. -/
theorem durable_path_same_line (n b : String) (conn : Option NetConn)
    (target now : String) :
    (∀ (s : Server) (c : RedisClient),
      (handleMessagesMsg { s with asyncQueue := some { Client := some c } }
          (some { Conn := conn, Name := n, Message := b, Type_ := "chat", Target := target })
          now).broadcastChan
        = (if c.closed = false ∧ c.xaddErr = none then s.broadcastChan
          else s.broadcastChan ++
            [{ Conn := conn, Name := n, Message := b, Type_ := "chat", Target := target }]) ∧
      (c.closed = false ∧ c.xaddErr = none →
        ∃ c', (handleMessagesMsg { s with asyncQueue := some { Client := some c } }
            (some { Conn := conn, Name := n, Message := b, Type_ := "chat", Target := target })
            now).asyncQueue = some { Client := some c' } ∧
          c'.chatStream.getLast? = some
            { ID := c.nextID
              Values := [("sender", n), ("context", b), ("type", "chat"),
                ("timestamp", now)] })) ∧
    (∀ (t : Server) (c : RedisClient) (id : Nat),
      consumeMessage t c
          { ID := id
            Values := [("sender", n), ("context", b), ("type", "chat"), ("timestamp", now)] }
        = some (ChatTaskHandler t { Name := n, Message := b, Type_ := "chat" },
            (c.XAck id).1) ∧
      ChatTaskHandler t { Name := n, Message := b, Type_ := "chat" }
        = { t with broadcastChan := t.broadcastChan ++
              [{ Conn := none, Name := n, Message := b, Type_ := "chat", Target := "" }] }) ∧
    (∀ (t : Server) (q : RedisQueueClient) (c c1 : RedisClient) (id : Nat),
      t.asyncQueue = some q → q.Client = some c →
      c.XReadGroup = (c1, .ok
        { ID := id
          Values := [("sender", n), ("context", b), ("type", "chat"), ("timestamp", now)] }) →
      ∃ t', chatConsumerStep t = some t' ∧
        t'.broadcastChan = t.broadcastChan ++
          [{ Conn := none, Name := n, Message := b, Type_ := "chat", Target := "" }]) ∧
    (∀ t : Server,
      (broadcastMessage t
        { Conn := none, Name := n, Message := b, Type_ := "chat", Target := "" }).sendLog
        = t.sendLog ++ t.clients.map (fun e => (e.2, "[" ++ n ++ "]: " ++ b)) ∧
      broadcastMessage t
        { Conn := none, Name := n, Message := b, Type_ := "chat", Target := "" }
        = broadcastMessage t
          { Conn := conn, Name := n, Message := b, Type_ := "chat", Target := target }) := by
  have hsys : ¬ ("chat" : String) = "system" := by decide
  have hpriv : ¬ ("chat" : String) = "private" := by decide
  refine ⟨fun s c => ⟨?_, fun h => ?_⟩, fun t c id => ⟨?_, rfl⟩, ?_, fun t => ⟨?_, ?_⟩⟩
  · by_cases h : c.closed = false ∧ c.xaddErr = none
    · rw [if_pos h]
      exact (handleMessagesMsg_durable s c _ now rfl h.1 h.2).1
    · rw [if_neg h]
      exact handleMessagesMsg_fallback s c _ now rfl h
  · exact (handleMessagesMsg_durable s c _ now rfl h.1 h.2).2
  · exact consumeMessage_chat_entry t c id n b now
  · intro t q c c1 id hq hc hread
    refine ⟨{ pushBroadcast t
        { Conn := none, Name := n, Message := b, Type_ := "chat", Target := "" } with
        asyncQueue := some { q with Client := some (c1.XAck id).1 } }, ?_, rfl⟩
    unfold chatConsumerStep
    simp only [hq, hc, hread, consumeMessage_chat_entry]
  · simp [broadcastMessage, hsys, hpriv, rangeSend_eq, unlockAndCleanup]
  · exact broadcastMessage_chat_congr t _ _ rfl rfl rfl rfl

/-- C7 at a burst: alice's `hello` and bob's `hi` are dispatched before the consumer
runs. The dispatcher writes bob's entry as the newest one of a stream whose first
entry is still undelivered, and broadcasts nothing; the first turn of the consumer
yields alice's envelope, and the second turn reads bob's entry back and yields the
envelope that is broadcast as `[bob]: hi`. -/
theorem durable_path_same_line_witness :
    handleMessagesMsg serverWithQueue (some helloFromAlice) "2024-01-01 00:00:00"
      = { serverWithQueue with
          asyncQueue := some { Client := some redisAfterFirstDispatch } } ∧
    (∃ c', (handleMessagesMsg
          { serverWithQueue with
            asyncQueue := some { Client := some redisAfterFirstDispatch } }
          (some { Conn := some 2, Name := "bob", Message := "hi", Type_ := "chat",
                  Target := "" })
          "2024-01-01 00:00:01").asyncQueue = some { Client := some c' } ∧
      c'.chatStream.getLast? = some
        { ID := 2
          Values := [("sender", "bob"), ("context", "hi"), ("type", "chat"),
            ("timestamp", "2024-01-01 00:00:01")] }) ∧
    serverAfterBurst.broadcastChan = [] ∧
    chatConsumerStep serverAfterBurst = some serverAfterFirstTurn ∧
    (∃ t', chatConsumerStep serverAfterFirstTurn = some t' ∧
      t'.broadcastChan = serverAfterFirstTurn.broadcastChan ++
        [{ Conn := none, Name := "bob", Message := "hi", Type_ := "chat", Target := "" }]) ∧
    (broadcastMessage roomWithBrokenBob
      { Conn := none, Name := "bob", Message := "hi", Type_ := "chat", Target := "" }).sendLog
      = roomWithBrokenBob.sendLog ++ [(1, "[bob]: hi"), (2, "[bob]: hi")] :=
  ⟨by decide,
    ((durable_path_same_line "bob" "hi" (some 2) "" "2024-01-01 00:00:01").1
      serverWithQueue redisAfterFirstDispatch).2 ⟨rfl, rfl⟩,
    by decide, by decide,
    (durable_path_same_line "bob" "hi" (some 2) "" "2024-01-01 00:00:01").2.2.1
      serverAfterFirstTurn { Client := some redisAfterFirstTurn } redisAfterFirstTurn
      { redisAfterFirstTurn with chatGroup := some 2, pending := [2] } 2 rfl rfl rfl,
    ((durable_path_same_line "bob" "hi" (some 2) "" "2024-01-01 00:00:01").2.2.2
      roomWithBrokenBob).1⟩

/-! ## Lifecycle lemmas -/

/-- The loop of `Stop` over the sessions touches only the send log and the closed
connections. -/
theorem stop_notify_eq (l : List (String × NetConn)) :
    ∀ st : Server,
      l.foldl (fun st e =>
          closeConn (SendMessage st e.2 "系统: 服务器正在关闭，连接即将断开").1 e.2) st =
        { st with
          sendLog := st.sendLog ++ l.map (fun e => (e.2, "系统: 服务器正在关闭，连接即将断开"))
          closedConns := st.closedConns ++ l.map Prod.snd } := by
  induction l with
  | nil => intro st; simp
  | cons e l ih =>
    intro st
    rw [List.foldl_cons, ih]
    simp [closeConn, SendMessage]

/-- The state `Stop` leaves, field by field. -/
theorem Stop_eq (s : Server) :
    Stop s =
      { s with
        clients := []
        clientConnToName := []
        Done := true
        userDB := s.userDB.map UserDB.Close
        asyncQueue := s.asyncQueue.map
          (fun q => { q with Client := q.Client.map RedisClient.Close })
        sendLog := s.sendLog ++
          s.clients.map (fun e => (e.2, "系统: 服务器正在关闭，连接即将断开"))
        closedConns := s.closedConns ++ s.clients.map Prod.snd } := by
  unfold Stop
  simp only [stop_notify_eq]
  cases hd : s.Done <;> cases hu : s.userDB <;> cases hq : s.asyncQueue with
  | none => simp [hd, hu, hq]
  | some q =>
    obtain ⟨c⟩ := q
    cases c <;> simp [hd, hu, hq]

theorem UserDB_Close_Close (udb : UserDB) : udb.Close.Close = udb.Close := by
  cases hd : udb.DB <;> simp [UserDB.Close, hd]

/-! ## Claims about shutdown and private messages -/

/-- C15. In every state `Stop` leaves `Done` raised and both registry maps empty.
The `select` that guards `close(s.Done)` never closes a closed channel, neither on
the first call nor on a second one, and a second `Stop` yields the state of the
first. -/
theorem Stop_idempotent (s : Server) :
    (Stop s).Done = true ∧ (Stop s).clients = [] ∧ (Stop s).clientConnToName = [] ∧
    (stopSelect s).map (fun t => t.Done) = some (Stop s).Done ∧
    stopSelect (Stop s) = some (Stop s) ∧
    Stop (Stop s) = Stop s := by
  refine ⟨by rw [Stop_eq], rfl, rfl, ?_, ?_, ?_⟩
  · rw [Stop_eq]
    cases hd : s.Done <;> simp [stopSelect, closeDone, hd]
  · rw [Stop_eq]
    simp [stopSelect]
  · rw [Stop_eq (Stop s), Stop_eq s]
    cases hu : s.userDB <;> cases hq : s.asyncQueue with
    | none => simp [hu, hq, UserDB_Close_Close]
    | some q =>
      obtain ⟨c⟩ := q
      cases c <;> simp [hu, hq, UserDB_Close_Close, RedisClient.Close]

/-! ## Private-message parsing lemmas -/

theorem cutAt_space_append (l r : List Char) (h : ' ' ∉ l) :
    cutAt [' '] (l ++ ' ' :: r) = some (l, r) := by
  induction l with
  | nil => simp [cutAt, List.isPrefixOf]
  | cons c l ih =>
    have hc : ¬ ' ' = c := fun e => h (e ▸ List.mem_cons_self _ _)
    have hl : ' ' ∉ l := fun e => h (List.mem_cons_of_mem _ e)
    simp [cutAt, List.isPrefixOf, hc, ih hl]

theorem dropWhile_isSpace_of_none (l : List Char) (h : ∀ c ∈ l, isSpace c = false) :
    l.dropWhile isSpace = l := by
  cases l with
  | nil => rfl
  | cons c l => simp [List.dropWhile, h c (List.mem_cons_self _ _)]

/-- A text without white space is left alone by `TrimSpace`. -/
theorem TrimSpace_of_no_space (l : List Char) (h : ∀ c ∈ l, isSpace c = false) :
    TrimSpace ⟨l⟩ = ⟨l⟩ := by
  unfold TrimSpace
  simp only []
  rw [dropWhile_isSpace_of_none l h,
    dropWhile_isSpace_of_none l.reverse (fun c hc => h c (List.mem_reverse.1 hc)),
    List.reverse_reverse]

/-- The two pieces of the line `"@" ++ t ++ " " ++ rest` when `t` has no space. -/
theorem SplitN_private (t rest : String) (h : ' ' ∉ t.data) :
    SplitN ("@" ++ t ++ " " ++ rest) " " 2 = [⟨'@' :: t.data⟩, rest] := by
  have hdata : ("@" ++ t ++ " " ++ rest).data = ('@' :: t.data) ++ ' ' :: rest.data := by
    simp [String.data_append]
  have hat : ' ' ∉ '@' :: t.data := by
    intro hm
    rcases List.mem_cons.1 hm with e | e
    · exact absurd e (by decide)
    · exact h e
  show (splitNChars [' '] 2 ("@" ++ t ++ " " ++ rest).data).map String.mk = _
  rw [hdata]
  simp only [splitNChars, cutAt_space_append _ _ hat, List.map_cons, List.map_nil]

/-- C19. For every sender, every target name `t` that is non-empty, has no white
space, differs from the sender and is a key of `clients`, and every body `rest`,
the line `"@" ++ t ++ " " ++ rest` makes `handlePrivateMessage` push exactly one
envelope onto the inbound queue, of kind private, with that sender, target `t`,
body `rest` and the sender's connection, and send nothing. -/
theorem handlePrivateMessage_classifies (s : Server) (conn targetConn : NetConn)
    (sender t rest : String)
    (hne : t ≠ "") (hspace : ∀ c ∈ t.data, isSpace c = false) (hself : t ≠ sender)
    (honline : mapGet s.clients t = some targetConn) :
    (handlePrivateMessage s conn sender ("@" ++ t ++ " " ++ rest)).messageChan
      = s.messageChan ++
        [{ Conn := some conn, Name := sender, Message := rest, Type_ := "private",
           Target := t }] ∧
    (handlePrivateMessage s conn sender ("@" ++ t ++ " " ++ rest)).sendLog = s.sendLog ∧
    (handlePrivateMessage s conn sender ("@" ++ t ++ " " ++ rest)).broadcastChan
      = s.broadcastChan := by
  have hsp : ' ' ∉ t.data := fun hm => absurd (hspace ' ' hm) (by decide)
  have hall : ∀ c ∈ '@' :: t.data, isSpace c = false := by
    intro c hc
    rcases List.mem_cons.1 hc with e | e
    · rw [e]; decide
    · exact hspace c e
  have htarget : TrimPrefix (TrimSpace ⟨'@' :: t.data⟩) "@" = t := by
    rw [TrimSpace_of_no_space _ hall]
    simp [TrimPrefix, HasPrefix, List.isPrefixOf]
  have hstep : handlePrivateMessage s conn sender ("@" ++ t ++ " " ++ rest)
      = pushMessage s
          { Conn := some conn, Name := sender, Message := rest, Type_ := "private",
            Target := t } := by
    unfold handlePrivateMessage
    simp only [SplitN_private t rest hsp, List.headD_cons, htarget, List.length_cons,
      List.length_nil, getClientConnection, honline]
    simp [hne, hself]
  rw [hstep]
  exact ⟨rfl, rfl, rfl⟩

/-- C19 at a concrete line: alice writes `@bob hi` while bob is online. -/
theorem handlePrivateMessage_classifies_witness :
    (handlePrivateMessage roomWithBrokenBob 1 "alice" ("@" ++ "bob" ++ " " ++ "hi")).messageChan
      = roomWithBrokenBob.messageChan ++
        [{ Conn := some 1, Name := "alice", Message := "hi", Type_ := "private",
           Target := "bob" }] :=
  (handlePrivateMessage_classifies roomWithBrokenBob 1 2 "alice" "bob" "hi"
    (by decide) (by decide) (by decide) (by decide)).1

/-! ## Wire codec lemmas -/

theorem connRead_of_empty (segs : List (List Byte)) (k : Nat) (h : segs.flatten = []) :
    connRead segs k = none := by
  induction segs with
  | nil => rfl
  | cons seg segs ih =>
    cases seg with
    | nil => exact ih (by simpa using h)
    | cons b seg => simp at h

theorem connRead_of_data (segs : List (List Byte)) (k : Nat) (hk : 0 < k)
    (h : segs.flatten ≠ []) :
    ∃ got rest, connRead segs k = some (got, rest) ∧ got ≠ [] ∧ got.length ≤ k ∧
      segs.flatten = got ++ rest.flatten := by
  induction segs with
  | nil => exact absurd rfl h
  | cons seg segs ih =>
    cases seg with
    | nil =>
      obtain ⟨got, rest, h1, h2, h3, h4⟩ := ih (by simpa using h)
      exact ⟨got, rest, h1, h2, h3, by simpa using h4⟩
    | cons b seg =>
      by_cases hle : (b :: seg).length ≤ k
      · exact ⟨b :: seg, segs, by rw [connRead, if_pos hle], by simp, hle, by simp⟩
      · refine ⟨(b :: seg).take k, (b :: seg).drop k :: segs, by rw [connRead, if_neg hle],
          ?_, ?_, ?_⟩
        · obtain ⟨k', rfl⟩ : ∃ k', k = k' + 1 := ⟨k - 1, by omega⟩
          simp
        · simp [List.length_take]
        · rw [List.flatten_cons, List.flatten_cons, ← List.append_assoc,
            List.take_append_drop]

/-- One read of a buffered reader: nothing at the end of the stream, otherwise a
non-empty piece of at most `n` bytes from the front of what remains. -/
theorem Read_spec (b : BufReader) (n : Nat) (hn : 0 < n) :
    (b.remaining = [] → b.Read n = none) ∧
    (b.remaining ≠ [] → ∃ got b', b.Read n = some (got, b') ∧ got ≠ [] ∧
      got.length ≤ n ∧ b.remaining = got ++ b'.remaining) := by
  have hn0 : ¬ n = 0 := by omega
  obtain ⟨n', rfl⟩ : ∃ n', n = n' + 1 := ⟨n - 1, by omega⟩
  unfold BufReader.Read BufReader.remaining
  rw [if_neg hn0]
  by_cases hb : b.buf = []
  · rw [if_pos hb, hb]
    simp only [List.nil_append]
    constructor
    · intro h
      rw [connRead_of_empty _ _ h, connRead_of_empty _ _ h]
      split <;> rfl
    · intro h
      by_cases hbig : defaultBufSize ≤ n' + 1
      · rw [if_pos hbig]
        obtain ⟨got, rest, h1, h2, h3, h4⟩ := connRead_of_data b.rd (n' + 1) hn h
        exact ⟨got, { buf := [], rd := rest }, by rw [h1], h2, h3, by simpa using h4⟩
      · rw [if_neg hbig]
        obtain ⟨got, rest, h1, h2, _, h4⟩ :=
          connRead_of_data b.rd defaultBufSize (by decide) h
        refine ⟨got.take (n' + 1), { buf := got.drop (n' + 1), rd := rest }, by rw [h1],
          ?_, by simp [List.length_take], ?_⟩
        · cases got with
          | nil => exact absurd rfl h2
          | cons g got => simp
        · simp only []
          rw [← List.append_assoc, List.take_append_drop]
          exact h4
  · rw [if_neg hb]
    constructor
    · intro h
      exact absurd (List.append_eq_nil.1 h).1 hb
    · intro _
      refine ⟨b.buf.take (n' + 1), { b with buf := b.buf.drop (n' + 1) }, rfl, ?_,
        by simp [List.length_take], ?_⟩
      · cases hbuf : b.buf with
        | nil => exact absurd hbuf hb
        | cons g l => simp
      · simp only []
        rw [← List.append_assoc, List.take_append_drop]

/-- The loop of `io.ReadFull` delivers exactly the next `need` bytes of what the
reader can still deliver, or an error when fewer remain. -/
theorem readFullLoop_spec (fuel : Nat) :
    ∀ (b : BufReader) (need : Nat) (acc : List Byte), need ≤ fuel →
      (need ≤ b.remaining.length →
        ∃ b', readFullLoop fuel b need acc = (.ok (acc ++ b.remaining.take need), b') ∧
          b'.remaining = b.remaining.drop need) ∧
      (b.remaining.length < need →
        ∃ e b', readFullLoop fuel b need acc = (.error e, b')) := by
  induction fuel with
  | zero =>
    intro b need acc hle
    have h0 : need = 0 := by omega
    subst h0
    exact ⟨fun _ => ⟨b, by simp [readFullLoop], by simp⟩, fun h => absurd h (by omega)⟩
  | succ fuel ih =>
    intro b need acc hle
    by_cases h0 : need = 0
    · subst h0
      exact ⟨fun _ => ⟨b, by simp [readFullLoop], by simp⟩, fun h => absurd h (by omega)⟩
    · have hpos : 0 < need := by omega
      obtain ⟨hnone, hsome⟩ := Read_spec b need hpos
      by_cases hrem : b.remaining = []
      · constructor
        · intro h
          rw [hrem] at h
          simp at h
          omega
        · intro _
          exact ⟨if acc = [] then .EOF else .ErrUnexpectedEOF, b,
            by simp [readFullLoop, h0, hnone hrem]⟩
      · obtain ⟨got, b', hread, hgot, hlen, hsplit⟩ := hsome hrem
        have hgpos : 0 < got.length := List.length_pos.2 hgot
        obtain ⟨ihok, iherr⟩ := ih b' (need - got.length) (acc ++ got) (by omega)
        have hstep : readFullLoop (fuel + 1) b need acc
            = readFullLoop fuel b' (need - got.length) (acc ++ got) := by
          simp [readFullLoop, h0, hread]
        rw [hstep, hsplit]
        constructor
        · intro h
          rw [List.length_append] at h
          obtain ⟨b'', h1, h2⟩ := ihok (by omega)
          refine ⟨b'', ?_, ?_⟩
          · rw [h1, List.take_append_eq_append_take, List.take_of_length_le hlen,
              List.append_assoc]
          · rw [h2, List.drop_append_eq_append_drop, List.drop_of_length_le hlen,
              List.nil_append]
        · intro h
          rw [List.length_append] at h
          exact iherr (by omega)

theorem Uint32_PutUint32 (v : Nat) (h : v < 2 ^ 32) : Uint32 (PutUint32 v) = v := by
  simp only [Uint32, PutUint32]
  omega

theorem PutUint32_length (v : Nat) : (PutUint32 v).length = 4 := rfl

/-- What `ReceiveMessage` returns on a stream that starts with a whole frame. -/
theorem ReceiveMessage_of_frame (body tail : List Byte) (h : body.length < 2 ^ 32)
    (segs : List (List Byte)) (hsegs : segs.flatten = SendMessagePacket body ++ tail) :
    (ReceiveMessage segs).1 = .ok body := by
  have hpk : SendMessagePacket body = PutUint32 body.length ++ body := by
    unfold SendMessagePacket
    rw [Nat.mod_eq_of_lt h]
  have hrem : (NewReader segs).remaining = PutUint32 body.length ++ (body ++ tail) := by
    show [] ++ segs.flatten = _
    rw [List.nil_append, hsegs, hpk, List.append_assoc]
  obtain ⟨r1, h1, hr1⟩ := (readFullLoop_spec headerSize (NewReader segs) headerSize []
    (Nat.le_refl _)).1 (by rw [hrem]; simp [PutUint32_length, headerSize])
  have htake : (NewReader segs).remaining.take headerSize = PutUint32 body.length := by
    rw [hrem]
    exact List.take_left' (PutUint32_length _)
  have hdrop : r1.remaining = body ++ tail := by
    rw [hr1, hrem]
    exact List.drop_left' (PutUint32_length _)
  rw [htake] at h1
  obtain ⟨r2, h2, _⟩ := (readFullLoop_spec body.length r1 body.length []
    (Nat.le_refl _)).1 (by rw [hdrop]; simp)
  rw [hdrop, List.take_left' rfl] at h2
  simp only [ReceiveMessage, ReadFull, h1, List.nil_append, Uint32_PutUint32 _ h, h2]

/-- What `ReceiveMessage` returns on a stream that ends inside a frame. -/
theorem ReceiveMessage_of_cut_frame (body : List Byte) (h : body.length < 2 ^ 32)
    (segs : List (List Byte)) (rest : List Byte) (hrest : rest ≠ [])
    (hsegs : segs.flatten ++ rest = SendMessagePacket body) :
    ∃ e, (ReceiveMessage segs).1 = .error e := by
  have hpk : SendMessagePacket body = PutUint32 body.length ++ body := by
    unfold SendMessagePacket
    rw [Nat.mod_eq_of_lt h]
  have hrem : (NewReader segs).remaining = segs.flatten := by
    show [] ++ segs.flatten = _
    rw [List.nil_append]
  have hlen : segs.flatten.length + rest.length = 4 + body.length := by
    have := congrArg List.length hsegs
    rw [hpk, List.length_append, List.length_append, PutUint32_length] at this
    exact this
  have hrpos : 0 < rest.length := List.length_pos.2 hrest
  by_cases hshort : segs.flatten.length < headerSize
  · obtain ⟨e, r, he⟩ := (readFullLoop_spec headerSize (NewReader segs) headerSize []
      (Nat.le_refl _)).2 (by rw [hrem]; exact hshort)
    exact ⟨e, by simp [ReceiveMessage, ReadFull, he]⟩
  · have hge : headerSize ≤ segs.flatten.length := by omega
    have h4 : 4 ≤ segs.flatten.length := hge
    obtain ⟨r1, h1, hr1⟩ := (readFullLoop_spec headerSize (NewReader segs) headerSize []
      (Nat.le_refl _)).1 (by rw [hrem]; exact hge)
    have hhead : segs.flatten.take headerSize = PutUint32 body.length := by
      have h5 : (segs.flatten ++ rest).take 4 = (SendMessagePacket body).take 4 := by
        rw [hsegs]
      rw [List.take_append_of_le_length h4] at h5
      rw [show headerSize = 4 from rfl, h5, hpk]
      exact List.take_left' (PutUint32_length _)
    rw [hrem, hhead] at h1
    rw [hrem] at hr1
    obtain ⟨e, r2, he⟩ := (readFullLoop_spec body.length r1 body.length []
      (Nat.le_refl _)).2 (by
        rw [hr1, List.length_drop]
        show segs.flatten.length - 4 < body.length
        omega)
    exact ⟨e, by simp [ReceiveMessage, ReadFull, h1, Uint32_PutUint32 _ h, he]⟩

/-! ## Claims about the wire codec -/

/-- C16. For every message of fewer than 2^32 bytes, the packet `SendMessage`
writes is the four-byte big-endian encoding of the length followed by exactly the
bytes of the message. On a stream that delivers exactly those bytes, in whatever
segments, `ReceiveMessage` returns the message; on a stream that ends after a
proper prefix of them it returns an error. -/
theorem frame_round_trip (body : List Byte) (h : body.length < 2 ^ 32) :
    SendMessagePacket body = PutUint32 body.length ++ body ∧
    (PutUint32 body.length).map (fun b => b.val)
      = [body.length / 2 ^ 24, body.length / 2 ^ 16 % 256, body.length / 2 ^ 8 % 256,
          body.length % 256] ∧
    Uint32 (PutUint32 body.length) = body.length ∧
    (∀ segs : List (List Byte), segs.flatten = SendMessagePacket body →
      (ReceiveMessage segs).1 = .ok body) ∧
    (∀ (segs : List (List Byte)) (rest : List Byte), rest ≠ [] →
      segs.flatten ++ rest = SendMessagePacket body →
      ∃ e, (ReceiveMessage segs).1 = .error e) := by
  refine ⟨?_, ?_, Uint32_PutUint32 _ h, ?_, ?_⟩
  · unfold SendMessagePacket
    rw [Nat.mod_eq_of_lt h]
  · have h24 : body.length / 2 ^ 24 % 256 = body.length / 2 ^ 24 := by omega
    simp only [PutUint32, List.map_cons, List.map_nil, h24]
  · intro segs hsegs
    exact ReceiveMessage_of_frame body [] h segs (by rw [hsegs, List.append_nil])
  · intro segs rest hrest hsegs
    exact ReceiveMessage_of_cut_frame body h segs rest hrest hsegs

/-- C16 at a concrete message: the two bytes of `hi`, arriving in three segments,
and the same stream cut after four bytes. -/
theorem frame_round_trip_witness :
    SendMessagePacket [104, 105] = [0, 0, 0, 2, 104, 105] ∧
    (ReceiveMessage [[0, 0], [0, 2, 104], [105]]).1 = .ok [104, 105] ∧
    (∃ e, (ReceiveMessage [[0, 0], [0, 2]]).1 = .error e) :=
  ⟨(frame_round_trip [104, 105] (by decide)).1,
    (frame_round_trip [104, 105] (by decide)).2.2.2.1 [[0, 0], [0, 2, 104], [105]]
      (by decide),
    (frame_round_trip [104, 105] (by decide)).2.2.2.2 [[0, 0], [0, 2]] [104, 105]
      (by decide) (by decide)⟩

/-- C17 on the code: the frames of `a` and `b` arrive together. The first
`ReceiveMessage` returns `a` and leaves nothing on the connection: its reader took
both frames into its buffer and is dropped with the second one inside. The second
`ReceiveMessage` finds the end of the stream instead of `b`. When the two frames
arrive as separate segments, each after the previous call, both are received. -/
theorem ReceiveMessage_drops_coalesced_frame :
    ReceiveMessage [SendMessagePacket [97] ++ SendMessagePacket [98]] = (.ok [97], []) ∧
    ReceiveMessage (ReceiveMessage [SendMessagePacket [97] ++ SendMessagePacket [98]]).2
      = (.error .EOF, []) ∧
    ReceiveMessage [SendMessagePacket [97], SendMessagePacket [98]]
      = (.ok [97], [SendMessagePacket [98]]) ∧
    ReceiveMessage [SendMessagePacket [98]] = (.ok [98], []) := by
  refine ⟨by decide, by decide, by decide, by decide⟩

/-! ## Command lemmas -/

theorem fieldsChars_ne_nil (l : List Char) :
    ∀ cur : List Char, cur ≠ [] → fieldsChars l cur ≠ [] := by
  induction l with
  | nil => intro cur h; simp [fieldsChars, h]
  | cons c l ih =>
    intro cur h
    by_cases hc : isSpace c = true
    · simp [fieldsChars, hc, h]
    · simp only [fieldsChars, hc]
      exact ih (cur ++ [c]) (by simp)

/-- A text that begins with `/` has a first field. -/
theorem Fields_ne_nil (message : String) (h : message.data.head? = some '/') :
    Fields message ≠ [] := by
  cases hd : message.data with
  | nil => rw [hd] at h; cases h
  | cons c l =>
    rw [hd] at h
    have hc : c = '/' := by simpa using h
    subst hc
    have hs : ¬ isSpace '/' = true := by decide
    have := fieldsChars_ne_nil l ['/'] (by simp)
    simpa [Fields, fieldsChars, hd, hs] using this

theorem HasPrefix_slash (s : String) (h : HasPrefix s "/" = true) :
    s.data.head? = some '/' := by
  cases hd : s.data with
  | nil => simp [HasPrefix, hd, List.isPrefixOf] at h
  | cons c l =>
    have hprefix : ['/'].isPrefixOf (c :: l) = true := by
      have h' := h
      unfold HasPrefix at h'
      rw [hd] at h'
      exact h'
    simp [List.isPrefixOf] at hprefix
    subst hprefix
    rfl

theorem SendMessage_fst (s : Server) (conn : NetConn) (m : String) :
    (SendMessage s conn m).1 = { s with sendLog := s.sendLog ++ [(conn, m)] } := rfl

theorem one_reply (log : List (NetConn × String)) (conn : NetConn) (a : String) :
    ∃ replies : List String, replies ≠ [] ∧
      log ++ [(conn, a)] = log ++ replies.map (fun r => (conn, r)) :=
  ⟨[a], by simp, rfl⟩

theorem two_replies (log : List (NetConn × String)) (conn : NetConn) (a b : String) :
    ∃ replies : List String, replies ≠ [] ∧
      log ++ [(conn, a)] ++ [(conn, b)] = log ++ replies.map (fun r => (conn, r)) :=
  ⟨[a, b], by simp, by simp⟩

/-- The reply of `/history`: one or two messages, to the asking connection. -/
theorem handleHistory_replies (s : Server) (conn : NetConn) :
    (handleHistory s conn).messageChan = s.messageChan ∧
    (handleHistory s conn).broadcastChan = s.broadcastChan ∧
    ∃ replies : List String, replies ≠ [] ∧
      (handleHistory s conn).sendLog = s.sendLog ++ replies.map (fun r => (conn, r)) := by
  unfold handleHistory
  simp only [SendMessage_fst]
  split_ifs with h1 h2
  · exact ⟨rfl, rfl, one_reply _ _ _⟩
  · cases (GetChatHistory s.asyncQueue 10).2 with
    | none => exact ⟨rfl, rfl, one_reply _ _ _⟩
    | some e => exact ⟨rfl, rfl, two_replies _ _ _ _⟩
  · cases (GetChatHistory s.asyncQueue 10).2 with
    | none => exact ⟨rfl, rfl, one_reply _ _ _⟩
    | some e => exact ⟨rfl, rfl, two_replies _ _ _ _⟩

/-- The reply of `/rank`: one or two messages, to the asking connection. -/
theorem handleRank_replies (s : Server) (conn : NetConn) :
    (handleRank s conn).messageChan = s.messageChan ∧
    (handleRank s conn).broadcastChan = s.broadcastChan ∧
    ∃ replies : List String, replies ≠ [] ∧
      (handleRank s conn).sendLog = s.sendLog ++ replies.map (fun r => (conn, r)) := by
  unfold handleRank
  simp only [SendMessage_fst]
  split_ifs <;> split <;>
    first
    | exact ⟨rfl, rfl, one_reply _ _ _⟩
    | exact ⟨rfl, rfl, two_replies _ _ _ _⟩

/-- Every command is answered on the asking connection and nowhere else. -/
theorem handleCommand_replies (s : Server) (conn : NetConn) (message : String)
    (h : message.data.head? = some '/') :
    (handleCommand s conn message).2 = true ∧
    (handleCommand s conn message).1.messageChan = s.messageChan ∧
    (handleCommand s conn message).1.broadcastChan = s.broadcastChan ∧
    ∃ replies : List String, replies ≠ [] ∧
      (handleCommand s conn message).1.sendLog
        = s.sendLog ++ replies.map (fun r => (conn, r)) := by
  unfold handleCommand
  rw [if_pos h]
  cases hf : Fields message with
  | nil => exact absurd hf (Fields_ne_nil message h)
  | cons command rest =>
    simp only []
    split_ifs
    · exact ⟨rfl, rfl, rfl, one_reply _ _ _⟩
    · exact ⟨rfl, rfl, rfl, one_reply _ _ _⟩
    · exact ⟨rfl, handleHistory_replies s conn⟩
    · exact ⟨rfl, handleRank_replies s conn⟩
    · exact ⟨rfl, rfl, rfl, one_reply _ _ _⟩

theorem handleCommand_unknown (s : Server) (conn : NetConn) (message : String)
    (h : message.data.head? = some '/')
    (hcmd : (Fields message).headD "" ∉ ["/list", "/help", "/history", "/h", "/rank"]) :
    (handleCommand s conn message).1.sendLog
      = s.sendLog ++ [(conn, "未知命令，使用 /help 查看可用命令")] := by
  unfold handleCommand
  rw [if_pos h]
  cases hf : Fields message with
  | nil => exact absurd hf (Fields_ne_nil message h)
  | cons command rest =>
    rw [hf] at hcmd
    simp only [List.headD_cons, List.mem_cons, List.mem_singleton, not_or,
      List.not_mem_nil, or_false] at hcmd
    obtain ⟨h1, h2, h3, h4, h5⟩ := hcmd
    simp [h1, h2, h3, h4, h5, SendMessage]

/-! ## Claim about commands -/

/-- C18. For every line whose trimmed form begins with `/`,
`handleClientChatAndCommand` pushes nothing onto the inbound queue nor onto the
broadcast queue and sends at least one reply, every one of them to the sender's own
connection; when the first field of the line is none of `/list`, `/help`,
`/history`, `/h`, `/rank`, the reply is the single unknown-command message. -/
theorem commands_never_enter_pipeline (s : Server) (conn : NetConn)
    (name input : String) (h : HasPrefix (TrimSpace input) "/" = true) :
    (handleClientChatAndCommand s conn name input).messageChan = s.messageChan ∧
    (handleClientChatAndCommand s conn name input).broadcastChan = s.broadcastChan ∧
    (∃ replies : List String, replies ≠ [] ∧
      (handleClientChatAndCommand s conn name input).sendLog
        = s.sendLog ++ replies.map (fun r => (conn, r))) ∧
    ((Fields (TrimSpace input)).headD "" ∉ ["/list", "/help", "/history", "/h", "/rank"] →
      (handleClientChatAndCommand s conn name input).sendLog
        = s.sendLog ++ [(conn, "未知命令，使用 /help 查看可用命令")]) := by
  have hhead := HasPrefix_slash _ h
  obtain ⟨hret, hmsg, hbc, hreplies⟩ := handleCommand_replies s conn (TrimSpace input) hhead
  have hstep : handleClientChatAndCommand s conn name input
      = (handleCommand s conn (TrimSpace input)).1 := by
    unfold handleClientChatAndCommand
    simp only [h, if_true, hret, and_self]
  rw [hstep]
  exact ⟨hmsg, hbc, hreplies, handleCommand_unknown s conn (TrimSpace input) hhead⟩

/-- C18 at concrete lines: `/list` and an unknown command typed by alice. -/
theorem commands_never_enter_pipeline_witness :
    (handleClientChatAndCommand roomWithBrokenBob 1 "alice" " /list ").messageChan
      = roomWithBrokenBob.messageChan ∧
    (handleClientChatAndCommand roomWithBrokenBob 1 "alice" "/quit now").sendLog
      = roomWithBrokenBob.sendLog ++ [(1, "未知命令，使用 /help 查看可用命令")] :=
  ⟨(commands_never_enter_pipeline roomWithBrokenBob 1 "alice" " /list " (by decide)).1,
    (commands_never_enter_pipeline roomWithBrokenBob 1 "alice" "/quit now"
      (by decide)).2.2.2 (by decide)⟩

/-! ## Claims about the authentication flow, evaluated -/

/-- C11 on the code: alice's name, then three wrong passwords, then the name again.
The three attempts are allowed and the too-many-failures message is sent, but the
next prompt is the menu, and the name typed next is read as a menu selection and
answered with the invalid-option message: the flow is in Menu, not in LoginName. -/
theorem login_failures_return_to_menu :
    (handleAuthentication authServer 1
      [some "1", some "alice", some "x", some "y", some "z", some "alice"]).server.sendLog
      = [(1, "欢迎！请选择操作：\n1.登录\n2.注册"),
         (1, "请输入昵称："),
         (1, "昵称 'alice' 已注册，请输入密码："),
         (1, "登录失败，密码不正确"),
         (1, "请重新输入密码："),
         (1, "登录失败，密码不正确"),
         (1, "请重新输入密码："),
         (1, "登录失败，密码不正确"),
         (1, "密码输入错误次数过多，请重新输入昵称。"),
         (1, "欢迎！请选择操作：\n1.登录\n2.注册"),
         (1, "无效的选项，请重新输入："),
         (1, "欢迎！请选择操作：\n1.登录\n2.注册")] ∧
    (handleLogin authServer 1 [some "alice", some "x", some "y", some "z"]).outcome
      = .ret false := by
  refine ⟨by decide, by decide⟩

/-- C14 on the code: with a nil credential store (`ConnectDB` returned nil) a valid
name that is not online makes both `handleLogin` and `handleRegistrationLogic`
dereference the nil store: the call panics and no failure message is sent. When the
store is there and its query returns an error, the generic failure message is sent,
the flow ends, and the connection is closed and not registered. -/
theorem nil_store_is_dereferenced :
    (handleAuthentication (NewServer none none) 1 [some "1", some "alice"]).outcome
      = .panic ∧
    (handleAuthentication (NewServer none none) 1 [some "1", some "alice"]).server.sendLog
      = [(1, "欢迎！请选择操作：\n1.登录\n2.注册"), (1, "请输入昵称：")] ∧
    (handleAuthentication (NewServer none none) 1 [some "2", some "alice"]).outcome
      = .panic ∧
    (handleAuthentication (NewServer (some brokenStore) none) 1
      [some "1", some "alice"]).outcome = .done ∧
    (handleAuthentication (NewServer (some brokenStore) none) 1
      [some "1", some "alice"]).server.sendLog
      = [(1, "欢迎！请选择操作：\n1.登录\n2.注册"), (1, "请输入昵称："),
         (1, "服务器数据库错误，请稍后再试。")] ∧
    (handleAuthentication (NewServer (some brokenStore) none) 1
      [some "1", some "alice"]).server.closedConns = [1] ∧
    (handleAuthentication (NewServer (some brokenStore) none) 1
      [some "1", some "alice"]).server.clients = [] := by
  refine ⟨by decide, by decide, by decide, by decide, by decide, by decide, by decide⟩

/-- C20 on the code. Of the four messages that leave the Password state toward the
menu, only the registration-success message contains `请返回主菜单`. After a
registration with an empty password, and after three wrong login passwords, the
client's `handlePasswordInput`, fed with what the server sent, returns the
unexpected-response error; after a successful registration it returns the final
response. -/
theorem password_exit_messages_lack_menu_marker :
    Contains "密码不能为空，请重新输入昵称：" "请返回主菜单" = false ∧
    Contains "注册失败：数据库写入错误。请重新输入昵称：" "请返回主菜单" = false ∧
    Contains "密码输入错误次数过多，请重新输入昵称。" "请返回主菜单" = false ∧
    Contains ("恭喜 " ++ "carol" ++ " 注册成功！请返回主菜单。") "请返回主菜单" = true ∧
    handlePasswordInput (passwordStepIncoming
        (handleAuthentication authServer 1 [some "2", some "carol", some ""]))
      = .err "认证流程中收到意外的服务器响应: 密码不能为空，请重新输入昵称：" ∧
    handlePasswordInput (passwordStepIncoming
        (handleAuthentication authServer 1
          [some "1", some "alice", some "x", some "y", some "z"]))
      = .err "认证流程中收到意外的服务器响应: 登录失败，密码不正确" ∧
    handlePasswordInput (passwordStepIncoming
        (handleAuthentication authServer 1 [some "2", some "carol", some "pw"]))
      = .ok "恭喜 carol 注册成功！请返回主菜单。" := by
  refine ⟨by decide, by decide, by decide, by decide, by decide, by decide, by decide⟩

/-! ## Lemmas on what a flow reads -/

theorem reads_refl (input : List (Option String)) (b : Bool) : Reads input b input :=
  ⟨[], rfl, by simp, by simp⟩

theorem reads_fail (rest : List (Option String)) : Reads (none :: rest) false rest :=
  ⟨[none], rfl, by simp, by simp⟩

theorem reads_cons (x : String) (rest unread : List (Option String)) (b : Bool)
    (h : Reads rest b unread) : Reads (some x :: rest) b unread := by
  obtain ⟨c, hc, h1, h2⟩ := h
  refine ⟨some x :: c, by rw [hc]; rfl, ?_, ?_⟩
  · intro y hy
    cases c with
    | nil => simp at hy
    | cons z c =>
      rw [List.dropLast_cons₂] at hy
      rcases List.mem_cons.1 hy with e | e
      · rw [e]; simp
      · exact h1 y e
  · intro hb y hy
    rcases List.mem_cons.1 hy with e | e
    · rw [e]; simp
    · exact h2 hb y e

theorem reads_trans (a m u : List (Option String)) (b : Bool)
    (h1 : Reads a true m) (h2 : Reads m b u) : Reads a b u := by
  obtain ⟨c1, e1, _, q1⟩ := h1
  obtain ⟨c2, e2, p2, q2⟩ := h2
  refine ⟨c1 ++ c2, by rw [e1, e2, List.append_assoc], ?_, ?_⟩
  · intro y hy
    cases c2 with
    | nil =>
      rw [List.append_nil] at hy
      exact q1 rfl y (List.mem_of_mem_dropLast hy)
    | cons z c2 =>
      rw [List.dropLast_append_of_ne_nil _ (by simp)] at hy
      rcases List.mem_append.1 hy with e | e
      · exact q1 rfl y e
      · exact p2 y e
  · intro hb y hy
    rcases List.mem_append.1 hy with e | e
    · exact q1 rfl y e
    · exact q2 hb y e

theorem reads_weaken (a u : List (Option String)) (b : Bool) (h : Reads a true u) :
    Reads a b u := by
  obtain ⟨c, e, p, q⟩ := h
  exact ⟨c, e, p, fun _ => q rfl⟩

theorem reads_length (a u : List (Option String)) (b : Bool) (h : Reads a b u) :
    u.length ≤ a.length := by
  obtain ⟨c, e, _, _⟩ := h
  rw [e, List.length_append]
  omega

/-- What follows a failed receive is never read. -/
theorem reads_stops_at_failure (input unread pre rest : List (Option String)) (b : Bool)
    (h : Reads input b unread) (hin : input = pre ++ none :: rest) :
    ∃ u, unread = u ++ rest := by
  obtain ⟨c, e, p, _⟩ := h
  rw [hin] at e
  rcases List.append_eq_append_iff.1 e with ⟨a', h1, h2⟩ | ⟨c', _, h2⟩
  · cases a' with
    | nil => exact ⟨[none], by rw [List.nil_append] at h2; rw [← h2]; rfl⟩
    | cons y a'' =>
      have hy : none = y := by
        have := congrArg List.head? h2
        simpa using this
      have hrest : rest = a'' ++ unread := by
        have := congrArg List.tail h2
        simpa using this
      cases a'' with
      | nil => exact ⟨[], by rw [hrest]; rfl⟩
      | cons z c3 =>
        exfalso
        have hmem : (none : Option String) ∈ c.dropLast := by
          rw [h1, List.dropLast_append_of_ne_nil _ (by simp), ← hy,
            List.dropLast_cons₂]
          simp
        exact p none hmem rfl
  · exact ⟨c' ++ [none], by rw [h2]; simp⟩

theorem handleClientChat_reads (conn : NetConn) (name : String)
    (input : List (Option String)) :
    ∀ s : Server, Reads input false (handleClientChat conn name input s).2 := by
  induction input with
  | nil => intro s; exact reads_refl _ _
  | cons x rest ih =>
    intro s
    cases x with
    | none => exact reads_fail _
    | some line => exact reads_cons _ _ _ _ (ih _)

theorem handleLoginName_reads (conn : NetConn) (input : List (Option String)) :
    ∀ s : Server, Reads input (handleLoginName conn input s).1.continues
      (handleLoginName conn input s).2.2 := by
  induction input with
  | nil =>
    intro s
    rw [handleLoginName]
    split_ifs <;> exact reads_refl _ _
  | cons x rest ih =>
    intro s
    cases x with
    | none =>
      rw [handleLoginName]
      split_ifs
      · exact reads_refl _ _
      · exact reads_fail _
    | some nameInput =>
      rw [handleLoginName]
      simp only []
      split_ifs <;> (try split) <;> (try split_ifs) <;>
        first
        | exact reads_refl _ _
        | exact reads_cons _ _ _ _ (reads_refl _ _)
        | exact reads_cons _ _ _ _ (ih _)

theorem handleRegistrationName_reads (conn : NetConn) (input : List (Option String)) :
    ∀ s : Server, Reads input (handleRegistrationName conn input s).1.continues
      (handleRegistrationName conn input s).2.2 := by
  induction input with
  | nil =>
    intro s
    rw [handleRegistrationName]
    split_ifs <;> exact reads_refl _ _
  | cons x rest ih =>
    intro s
    cases x with
    | none =>
      rw [handleRegistrationName]
      split_ifs
      · exact reads_refl _ _
      · exact reads_fail _
    | some nameInput =>
      rw [handleRegistrationName]
      simp only []
      split_ifs <;> (try split) <;> (try split_ifs) <;>
        first
        | exact reads_refl _ _
        | exact reads_cons _ _ _ _ (reads_refl _ _)
        | exact reads_cons _ _ _ _ (ih _)

/-- A name loop only sends: the registry, the queues and the store stay as they
are; it panics only on a nil store. -/
theorem handleRegistrationName_state (conn : NetConn) (input : List (Option String)) :
    ∀ s : Server, SameRouting s (handleRegistrationName conn input s).2.1 ∧
      (handleRegistrationName conn input s).2.1.userDB = s.userDB ∧
      ((handleRegistrationName conn input s).1 = .exit .panic → s.userDB = none) ∧
      (handleRegistrationName conn input s).1 ≠ .exit .outOfFuel ∧
      (handleRegistrationName conn input s).1 ≠ .exit .done := by
  induction input with
  | nil =>
    intro s
    rw [handleRegistrationName]
    split_ifs <;> exact ⟨⟨rfl, rfl, rfl, rfl, rfl⟩, rfl, by simp, by simp, by simp⟩
  | cons x rest ih =>
    intro s
    cases x with
    | none =>
      rw [handleRegistrationName]
      split_ifs <;> exact ⟨⟨rfl, rfl, rfl, rfl, rfl⟩, rfl, by simp, by simp, by simp⟩
    | some nameInput =>
      rw [handleRegistrationName]
      simp only []
      split_ifs <;> (try split) <;> (try split_ifs) <;>
        first
        | exact ih _
        | (refine ⟨⟨rfl, rfl, rfl, rfl, rfl⟩, rfl, ?_, ?_, ?_⟩
           · first
             | (intro h; cases h; done)
             | (intro _; assumption)
           · intro h; cases h
           · intro h; cases h)

theorem handleLoginName_state (conn : NetConn) (input : List (Option String)) :
    ∀ s : Server, SameRouting s (handleLoginName conn input s).2.1 ∧
      (handleLoginName conn input s).2.1.userDB = s.userDB ∧
      ((handleLoginName conn input s).1 = .exit .panic → s.userDB = none) ∧
      (handleLoginName conn input s).1 ≠ .exit .outOfFuel ∧
      (handleLoginName conn input s).1 ≠ .exit .done := by
  induction input with
  | nil =>
    intro s
    rw [handleLoginName]
    split_ifs <;> exact ⟨⟨rfl, rfl, rfl, rfl, rfl⟩, rfl, by simp, by simp, by simp⟩
  | cons x rest ih =>
    intro s
    cases x with
    | none =>
      rw [handleLoginName]
      split_ifs <;> exact ⟨⟨rfl, rfl, rfl, rfl, rfl⟩, rfl, by simp, by simp, by simp⟩
    | some nameInput =>
      rw [handleLoginName]
      simp only []
      split_ifs <;> (try split) <;> (try split_ifs) <;>
        first
        | exact ih _
        | (refine ⟨⟨rfl, rfl, rfl, rfl, rfl⟩, rfl, ?_, ?_, ?_⟩
           · first
             | (intro h; cases h; done)
             | (intro _; assumption)
           · intro h; cases h
           · intro h; cases h)

theorem handleLoginPassword_reads (conn : NetConn) (name : String)
    (input : List (Option String)) :
    ∀ (i : Nat) (s : Server),
      Reads input (handleLoginPassword conn name i input s).outcome.continues
        (handleLoginPassword conn name i input s).unread := by
  induction input with
  | nil => intro i s; rw [handleLoginPassword]; exact reads_refl _ _
  | cons x rest ih =>
    intro i s
    cases x with
    | none => rw [handleLoginPassword]; exact reads_fail _
    | some password =>
      rw [handleLoginPassword]
      simp only []
      split_ifs <;> (try split) <;> (try split_ifs) <;>
        first
        | exact reads_cons _ _ _ _ (reads_refl _ _)
        | exact reads_cons _ _ _ _ (ih _ _)
        | exact reads_cons _ _ _ _ (handleClientChat_reads _ _ _ _)

/-- The password loop panics only on a nil store, and leaves the store as it is
when it sends the caller back to the menu. -/
theorem handleLoginPassword_state (conn : NetConn) (name : String)
    (input : List (Option String)) :
    ∀ (i : Nat) (s : Server),
      ((handleLoginPassword conn name i input s).outcome = .panic → s.userDB = none) ∧
      ((handleLoginPassword conn name i input s).outcome = .ret false →
        (handleLoginPassword conn name i input s).server.userDB = s.userDB) ∧
      (handleLoginPassword conn name i input s).outcome ≠ .outOfFuel ∧
      (handleLoginPassword conn name i input s).outcome ≠ .done := by
  induction input with
  | nil => intro i s; rw [handleLoginPassword]; simp
  | cons x rest ih =>
    intro i s
    cases x with
    | none => rw [handleLoginPassword]; simp
    | some password =>
      rw [handleLoginPassword]
      simp only []
      split_ifs <;> (try split) <;> (try split_ifs) <;>
        first
        | exact ih _ _
        | (refine ⟨?_, ?_, ?_, ?_⟩
           · first
             | (intro h; cases h; done)
             | (intro _; assumption)
           · first
             | (intro h; cases h; done)
             | (intro _; rfl)
           · intro h; cases h
           · intro h; cases h)

theorem nameResult_continues_exit (o : Outcome) :
    (NameResult.exit o).continues = o.continues := by
  cases o with
  | ret b => cases b <;> rfl
  | done => rfl
  | panic => rfl
  | outOfFuel => rfl

theorem handleLogin_reads (s : Server) (conn : NetConn) (input : List (Option String)) :
    Reads input (handleLogin s conn input).outcome.continues
      (handleLogin s conn input).unread := by
  have h := handleLoginName_reads conn input s
  unfold handleLogin
  rcases hn : handleLoginName conn input s with ⟨nr, s1, rest⟩
  rw [hn] at h
  cases nr with
  | exit o =>
    simp only []
    rw [← nameResult_continues_exit]
    exact h
  | named name =>
    simp only []
    split_ifs
    · exact h
    · exact reads_trans _ _ _ _ h (handleLoginPassword_reads _ _ _ _ _)

theorem handleLogin_state (s : Server) (conn : NetConn) (input : List (Option String)) :
    ((handleLogin s conn input).outcome = .panic → s.userDB = none) ∧
    ((handleLogin s conn input).outcome = .ret false →
      (handleLogin s conn input).server.userDB = s.userDB) ∧
    (handleLogin s conn input).outcome ≠ .outOfFuel ∧
    (handleLogin s conn input).outcome ≠ .done := by
  obtain ⟨_, hdb, hpanic, hfuel, hdone⟩ := handleLoginName_state conn input s
  unfold handleLogin
  rcases hn : handleLoginName conn input s with ⟨nr, s1, rest⟩
  rw [hn] at hdb hpanic hfuel hdone
  cases nr with
  | exit o =>
    exact ⟨fun h => hpanic (congrArg NameResult.exit h), fun _ => hdb,
      fun h => hfuel (congrArg NameResult.exit h),
      fun h => hdone (congrArg NameResult.exit h)⟩
  | named name =>
    dsimp only
    split_ifs
    · refine ⟨?_, fun _ => hdb, ?_, ?_⟩ <;> (intro h; cases h)
    · obtain ⟨p1, p2, p3, p4⟩ := handleLoginPassword_state conn name rest 0
        (SendMessage s1 conn ("昵称 '" ++ name ++ "' 已注册，请输入密码：")).1
      have hdb' : s1.userDB = s.userDB := hdb
      exact ⟨fun h => hdb'.symm.trans (p1 h), fun h => (p2 h).trans hdb', p3, p4⟩

/-- The password step of the registration: it only sends and writes the store. -/
theorem handleRegistrationPassword_state (conn : NetConn) (name : String)
    (input : List (Option String)) (s : Server) :
    Reads input (handleRegistrationPassword conn name input s).outcome.continues
      (handleRegistrationPassword conn name input s).unread ∧
    SameRouting s (handleRegistrationPassword conn name input s).server ∧
    ((handleRegistrationPassword conn name input s).outcome = .panic → s.userDB = none) ∧
    (s.userDB.isSome = true →
      (handleRegistrationPassword conn name input s).server.userDB.isSome = true) ∧
    (handleRegistrationPassword conn name input s).outcome ≠ .outOfFuel ∧
    (handleRegistrationPassword conn name input s).outcome ≠ .done := by
  unfold handleRegistrationPassword
  cases input with
  | nil =>
    dsimp only
    split_ifs <;>
      (refine ⟨reads_refl _ _, ⟨rfl, rfl, rfl, rfl, rfl⟩, ?_, fun h => h, ?_, ?_⟩ <;>
        (intro h; cases h))
  | cons x rest =>
    cases x with
    | none =>
      dsimp only
      split_ifs
      · refine ⟨reads_refl _ _, ⟨rfl, rfl, rfl, rfl, rfl⟩, ?_, fun h => h, ?_, ?_⟩ <;>
          (intro h; cases h)
      · refine ⟨reads_fail _, ⟨rfl, rfl, rfl, rfl, rfl⟩, ?_, fun h => h, ?_, ?_⟩ <;>
          (intro h; cases h)
    | some password =>
      dsimp only
      split_ifs with h1 h2
      · refine ⟨reads_refl _ _, ⟨rfl, rfl, rfl, rfl, rfl⟩, ?_, fun h => h, ?_, ?_⟩ <;>
          (intro h; cases h)
      · refine ⟨reads_cons _ _ _ _ (reads_refl _ _), ⟨rfl, rfl, rfl, rfl, rfl⟩, ?_,
          fun h => h, ?_, ?_⟩ <;> (intro h; cases h)
      · split
        · next hnone =>
          have hnone' : s.userDB = none := hnone
          refine ⟨reads_cons _ _ _ _ (reads_refl _ _), ⟨rfl, rfl, rfl, rfl, rfl⟩,
            fun _ => hnone', ?_, ?_, ?_⟩
          · intro h
            rw [hnone'] at h
            cases h
          · intro h; cases h
          · intro h; cases h
        · next udb hsome =>
          split_ifs <;>
            (refine ⟨reads_cons _ _ _ _ (reads_refl _ _), ⟨rfl, rfl, rfl, rfl, rfl⟩, ?_,
              fun _ => rfl, ?_, ?_⟩ <;> (intro h; cases h))

theorem handleRegistrationLogic_state (s : Server) (conn : NetConn)
    (input : List (Option String)) :
    Reads input (handleRegistrationLogic s conn input).outcome.continues
      (handleRegistrationLogic s conn input).unread ∧
    SameRouting s (handleRegistrationLogic s conn input).server ∧
    ((handleRegistrationLogic s conn input).outcome = .panic → s.userDB = none) ∧
    (s.userDB.isSome = true →
      (handleRegistrationLogic s conn input).server.userDB.isSome = true) ∧
    (handleRegistrationLogic s conn input).outcome ≠ .outOfFuel ∧
    (handleRegistrationLogic s conn input).outcome ≠ .done := by
  have hreads := handleRegistrationName_reads conn input s
  obtain ⟨hroute, hdb, hpanic, hfuel, hdone⟩ := handleRegistrationName_state conn input s
  unfold handleRegistrationLogic
  rcases hn : handleRegistrationName conn input s with ⟨nr, s1, rest⟩
  rw [hn] at hreads hroute hdb hpanic hfuel hdone
  cases nr with
  | exit o =>
    have hdb' : s1.userDB = s.userDB := hdb
    have hreads' : Reads input o.continues rest := by
      rw [← nameResult_continues_exit]
      exact hreads
    exact ⟨hreads', hroute, fun h => hpanic (congrArg NameResult.exit h),
      fun h => by rw [← hdb'] at h; exact h,
      fun h => hfuel (congrArg NameResult.exit h),
      fun h => hdone (congrArg NameResult.exit h)⟩
  | named name =>
    have hdb' : s1.userDB = s.userDB := hdb
    have hreads' : Reads input true rest := hreads
    have hroute' : SameRouting s s1 := hroute
    obtain ⟨q1, q2, q3, q4, q5, q6⟩ := handleRegistrationPassword_state conn name rest s1
    obtain ⟨r1, r2, r3, r4, r5⟩ := hroute'
    obtain ⟨t1, t2, t3, t4, t5⟩ := q2
    exact ⟨reads_trans _ _ _ _ hreads' q1,
      ⟨t1.trans r1, t2.trans r2, t3.trans r3, t4.trans r4, t5.trans r5⟩,
      fun h => hdb'.symm.trans (q3 h), fun h => q4 (by rw [hdb']; exact h), q5, q6⟩

theorem reads_forget (a u : List (Option String)) (b : Bool) (h : Reads a b u) :
    Reads a false u := by
  obtain ⟨c, e, p, _⟩ := h
  exact ⟨c, e, p, fun hb => by cases hb⟩

theorem authLoop_reads (conn : NetConn) (fuel : Nat) :
    ∀ (input : List (Option String)) (s : Server),
      Reads input false (authLoop conn fuel input s).unread := by
  induction fuel with
  | zero => intro input s; exact reads_refl _ _
  | succ fuel ih =>
    intro input s
    rw [authLoop.eq_def]
    dsimp only
    cases input with
    | nil => exact reads_refl _ _
    | cons x rest =>
      cases x with
      | none => exact reads_fail _
      | some selection =>
        dsimp only
        split_ifs
        · have hl := handleLogin_reads (SendMessage s conn menuPrompt).1 conn rest
          rcases ho : (handleLogin (SendMessage s conn menuPrompt).1 conn rest).outcome
            with b | _ | _ | _
          · cases b with
            | false =>
              rw [ho] at hl
              exact reads_cons _ _ _ _ (reads_trans _ _ _ _ hl (ih _ _))
            | true => exact reads_cons _ _ _ _ (reads_forget _ _ _ hl)
          · exact reads_cons _ _ _ _ (reads_forget _ _ _ hl)
          · exact reads_cons _ _ _ _ (reads_forget _ _ _ hl)
          · exact reads_cons _ _ _ _ (reads_forget _ _ _ hl)
        · have hl := (handleRegistrationLogic_state (SendMessage s conn menuPrompt).1
            conn rest).1
          rcases ho : (handleRegistrationLogic (SendMessage s conn menuPrompt).1 conn
            rest).outcome with b | _ | _ | _
          · cases b with
            | false =>
              rw [ho] at hl
              exact reads_cons _ _ _ _ (reads_trans _ _ _ _ hl (ih _ _))
            | true => exact reads_cons _ _ _ _ (reads_forget _ _ _ hl)
          · exact reads_cons _ _ _ _ (reads_forget _ _ _ hl)
          · exact reads_cons _ _ _ _ (reads_forget _ _ _ hl)
          · exact reads_cons _ _ _ _ (reads_forget _ _ _ hl)
        · exact reads_cons _ _ _ _ (ih _ _)

/-- With one unit of fuel per input and one more, the loop of `handleAuthentication`
ends by itself: it returns, or it panics, and it panics only on a nil store. -/
theorem authLoop_outcome (conn : NetConn) (fuel : Nat) :
    ∀ (input : List (Option String)) (s : Server), input.length < fuel →
      ((authLoop conn fuel input s).outcome = .done ∨
        (authLoop conn fuel input s).outcome = .panic) ∧
      (s.userDB.isSome = true → (authLoop conn fuel input s).outcome = .done) := by
  induction fuel with
  | zero => intro input s h; exact absurd h (Nat.not_lt_zero _)
  | succ fuel ih =>
    intro input s hlen
    rw [authLoop.eq_def]
    dsimp only
    cases input with
    | nil => exact ⟨Or.inl rfl, fun _ => rfl⟩
    | cons x rest =>
      have hrest : rest.length < fuel := by
        simp only [List.length_cons] at hlen
        omega
      cases x with
      | none => exact ⟨Or.inl rfl, fun _ => rfl⟩
      | some selection =>
        dsimp only
        split_ifs
        · have hl := handleLogin_reads (SendMessage s conn menuPrompt).1 conn rest
          obtain ⟨p1, p2, p3, p4⟩ :=
            handleLogin_state (SendMessage s conn menuPrompt).1 conn rest
          have hlen' := reads_length _ _ _ hl
          rcases ho : (handleLogin (SendMessage s conn menuPrompt).1 conn rest).outcome
            with b | _ | _ | _
          · cases b with
            | false =>
              obtain ⟨q1, q2⟩ := ih (handleLogin (SendMessage s conn menuPrompt).1 conn
                rest).unread (handleLogin (SendMessage s conn menuPrompt).1 conn
                rest).server (by omega)
              refine ⟨q1, fun hs => q2 ?_⟩
              rw [p2 ho]
              exact hs
            | true => exact ⟨Or.inl rfl, fun _ => rfl⟩
          · exact absurd ho p4
          · refine ⟨Or.inr rfl, fun hs => ?_⟩
            have hnone : s.userDB = none := p1 ho
            rw [hnone] at hs
            cases hs
          · exact absurd ho p3
        · obtain ⟨hl, _, p1, p2, p3, p4⟩ :=
            handleRegistrationLogic_state (SendMessage s conn menuPrompt).1 conn rest
          have hlen' := reads_length _ _ _ hl
          rcases ho : (handleRegistrationLogic (SendMessage s conn menuPrompt).1 conn
            rest).outcome with b | _ | _ | _
          · cases b with
            | false =>
              obtain ⟨q1, q2⟩ := ih (handleRegistrationLogic
                (SendMessage s conn menuPrompt).1 conn rest).unread
                (handleRegistrationLogic (SendMessage s conn menuPrompt).1 conn
                  rest).server (by omega)
              exact ⟨q1, fun hs => q2 (p2 hs)⟩
            | true => exact ⟨Or.inl rfl, fun _ => rfl⟩
          · exact absurd ho p4
          · refine ⟨Or.inr rfl, fun hs => ?_⟩
            have hnone : s.userDB = none := p1 ho
            rw [hnone] at hs
            cases hs
          · exact absurd ho p3
        · exact ih rest _ hrest

/-! ## Claims about registration and transport errors -/

/-- C12. For every state, connection and input, `handleRegistrationLogic` leaves
both registry maps, the inbound queue and the broadcast queue as they are. With a
credential store present, once a password is received the call returns `false`
whether the password is empty, the store write fails or the store write succeeds;
and on `false` the loop of `handleAuthentication` starts its next turn, which is the
Menu state. -/
theorem registration_creates_no_session (s : Server) (conn : NetConn)
    (input : List (Option String)) :
    (handleRegistrationLogic s conn input).server.clients = s.clients ∧
    (handleRegistrationLogic s conn input).server.clientConnToName
      = s.clientConnToName ∧
    (handleRegistrationLogic s conn input).server.messageChan = s.messageChan ∧
    (handleRegistrationLogic s conn input).server.broadcastChan = s.broadcastChan ∧
    (∀ (name password : String) (rest : List (Option String)) (udb : UserDB),
      s.userDB = some udb →
      (handleRegistrationPassword conn name (some password :: rest) s).outcome
        = .ret false) ∧
    (∀ (fuel : Nat) (selection : String) (rest : List (Option String)),
      TrimSpace selection = "2" →
      (handleRegistrationLogic (SendMessage s conn menuPrompt).1 conn rest).outcome
        = .ret false →
      authLoop conn (fuel + 1) (some selection :: rest) s
        = authLoop conn fuel
            (handleRegistrationLogic (SendMessage s conn menuPrompt).1 conn rest).unread
            (handleRegistrationLogic (SendMessage s conn menuPrompt).1 conn
              rest).server) := by
  obtain ⟨_, ⟨h1, h2, h3, h4, _⟩, _⟩ := handleRegistrationLogic_state s conn input
  refine ⟨h1, h2, h3, h4, ?_, ?_⟩
  · intro name password rest udb hdb
    have hdb' : (SendMessage s conn
        ("昵称 '" ++ name ++ "' 可用。请输入密码进行注册：")).1.userDB = some udb := hdb
    unfold handleRegistrationPassword
    dsimp only
    split_ifs
    · rfl
    · rfl
    · rw [hdb']
      dsimp only
      split_ifs <;> rfl
  · intro fuel selection rest hsel hout
    have h21 : ¬ ("2" : String) = "1" := by decide
    rw [authLoop.eq_def]
    dsimp only
    rw [hsel, if_neg h21, if_pos rfl, hout]

/-- C12 at a concrete run: carol registers with the password `pw`; the registry is
untouched and the call returns `false`. -/
theorem registration_creates_no_session_witness :
    (handleRegistrationLogic authServer 1 [some "carol", some "pw"]).server.clients
      = authServer.clients ∧
    (handleRegistrationPassword 1 "carol" [some "pw"] authServer).outcome = .ret false :=
  ⟨(registration_creates_no_session authServer 1 [some "carol", some "pw"]).1,
    (registration_creates_no_session authServer 1 []).2.2.2.2.1 "carol" "pw" []
      (storeWith [("alice", "secret")]) rfl⟩

/-! ## Registry lemmas for the authentication flow -/

theorem handleHistory_registry (s : Server) (conn : NetConn) :
    SameRegistry s (handleHistory s conn) := by
  unfold handleHistory
  dsimp only
  split_ifs <;> (try split) <;> exact ⟨rfl, rfl, rfl⟩

theorem handleRank_registry (s : Server) (conn : NetConn) :
    SameRegistry s (handleRank s conn) := by
  unfold handleRank
  dsimp only
  split_ifs <;> split <;> exact ⟨rfl, rfl, rfl⟩

theorem handleCommand_registry (s : Server) (conn : NetConn) (message : String) :
    SameRegistry s (handleCommand s conn message).1 := by
  unfold handleCommand
  split_ifs
  · split
    · exact ⟨rfl, rfl, rfl⟩
    · split_ifs
      · exact ⟨rfl, rfl, rfl⟩
      · exact ⟨rfl, rfl, rfl⟩
      · exact handleHistory_registry s conn
      · exact handleRank_registry s conn
      · exact ⟨rfl, rfl, rfl⟩
  · exact ⟨rfl, rfl, rfl⟩

theorem handlePrivateMessage_registry (s : Server) (conn : NetConn)
    (sender message : String) :
    SameRegistry s (handlePrivateMessage s conn sender message) := by
  unfold handlePrivateMessage
  dsimp only
  split_ifs
  · exact ⟨rfl, rfl, rfl⟩
  · exact ⟨rfl, rfl, rfl⟩
  · split <;> exact ⟨rfl, rfl, rfl⟩

theorem sameRegistry_trans (a b c : Server) (h1 : SameRegistry a b)
    (h2 : SameRegistry b c) : SameRegistry a c :=
  ⟨h2.1.trans h1.1, h2.2.1.trans h1.2.1, h2.2.2.trans h1.2.2⟩

theorem handleClientChatAndCommand_registry (s : Server) (conn : NetConn)
    (name input : String) :
    SameRegistry s (handleClientChatAndCommand s conn name input) := by
  unfold handleClientChatAndCommand
  dsimp only
  by_cases hp : HasPrefix (TrimSpace input) "/" = true
  · rw [if_pos hp]
    split_ifs
    · exact handleCommand_registry s conn _
    · exact sameRegistry_trans _ _ _ (handleCommand_registry s conn _)
        (handlePrivateMessage_registry _ conn name _)
    · exact sameRegistry_trans _ _ _ (handleCommand_registry s conn _) ⟨rfl, rfl, rfl⟩
  · rw [if_neg hp, if_neg (fun h => hp h.1)]
    split_ifs
    · exact handlePrivateMessage_registry s conn name _
    · exact ⟨rfl, rfl, rfl⟩

/-- The session loop leaves the registry as it is and ends by putting the connection
on the unregister queue. -/
theorem handleClientChat_registry (conn : NetConn) (name : String)
    (input : List (Option String)) :
    ∀ s : Server, (handleClientChat conn name input s).1.clients = s.clients ∧
      (handleClientChat conn name input s).1.clientConnToName = s.clientConnToName ∧
      (handleClientChat conn name input s).1.unregisterChan
        = s.unregisterChan ++ [conn] := by
  induction input with
  | nil => intro s; exact ⟨rfl, rfl, rfl⟩
  | cons x rest ih =>
    intro s
    cases x with
    | none => exact ⟨rfl, rfl, rfl⟩
    | some line =>
      rw [handleClientChat]
      obtain ⟨h1, h2, h3⟩ := ih (handleClientChatAndCommand s conn name line)
      obtain ⟨g1, g2, g3⟩ := handleClientChatAndCommand_registry s conn name line
      exact ⟨h1.trans g1, h2.trans g2, by rw [h3, g3]⟩


theorem SendMessage_ok (s : Server) (conn : NetConn) (m : String)
    (hok : ¬ (conn ∈ s.writeFails ∨ conn ∈ s.closedConns)) :
    (SendMessage s conn m).2 = false := by
  simp [SendMessage, hok]

theorem handleLoginPassword_registry (conn : NetConn) (name : String)
    (input : List (Option String)) :
    ∀ (i : Nat) (s : Server), ¬ (conn ∈ s.writeFails ∨ conn ∈ s.closedConns) →
      SameRouting s (handleLoginPassword conn name i input s).server ∨
      ((handleLoginPassword conn name i input s).outcome = .ret true ∧
        SessionEnded s (handleLoginPassword conn name i input s).server conn name) := by
  induction input with
  | nil => intro i s _; rw [handleLoginPassword]; exact Or.inl ⟨rfl, rfl, rfl, rfl, rfl⟩
  | cons x rest ih =>
    intro i s hok
    cases x with
    | none => rw [handleLoginPassword]; exact Or.inl ⟨rfl, rfl, rfl, rfl, rfl⟩
    | some password =>
      have h1 : ∀ m, (SendMessage s conn m).2 = false := fun m => SendMessage_ok s conn m hok
      have h2 : ∀ m m', (SendMessage (SendMessage s conn m).1 conn m').2 = false :=
        fun m m' => SendMessage_ok _ conn m' hok
      have h3 : ∀ m, (SendMessage (registerClient s conn name) conn m).2 = false :=
        fun m => SendMessage_ok _ conn m hok
      rw [handleLoginPassword]
      simp only [h1, h2, h3, Bool.false_eq_true, if_false]
      by_cases hp : password = ""
      · rw [if_pos hp]
        exact ih i _ hok
      · rw [if_neg hp]
        split
        · exact Or.inl ⟨rfl, rfl, rfl, rfl, rfl⟩
        · split_ifs
          · refine Or.inr ⟨rfl, ?_⟩
            obtain ⟨g1, g2, g3⟩ := handleClientChat_registry conn name rest
              (pushBroadcast (SendMessage (registerClient s conn name) conn
                ("欢迎 " ++ name ++ "！您已成功登录，开始聊天吧...\n使用 /help 查看可用命令")).1
                { Conn := some conn, Name := name,
                  Message := "系统: " ++ name ++ " 加入了聊天室", Type_ := "system",
                  Target := "" })
            exact ⟨g1, g2, g3⟩
          · exact Or.inl ⟨rfl, rfl, rfl, rfl, rfl⟩
          · exact ih (i + 1) _ hok
          · exact Or.inl ⟨rfl, rfl, rfl, rfl, rfl⟩


theorem sameRouting_trans (a b c : Server) (h1 : SameRouting a b) (h2 : SameRouting b c) :
    SameRouting a c :=
  ⟨h2.1.trans h1.1, h2.2.1.trans h1.2.1, h2.2.2.1.trans h1.2.2.1,
    h2.2.2.2.1.trans h1.2.2.2.1, h2.2.2.2.2.trans h1.2.2.2.2⟩

theorem sessionEnded_of_sameRouting (a b c : Server) (conn : NetConn) (name : String)
    (h1 : SameRouting a b) (h2 : SessionEnded b c conn name) : SessionEnded a c conn name := by
  obtain ⟨p1, p2, _, _, p5⟩ := h1
  obtain ⟨q1, q2, q3⟩ := h2
  exact ⟨by rw [q1, p1], by rw [q2, p2], by rw [q3, p5]⟩

/-- What `handleLogin` does to the registry: nothing, or it returns `true` after a
session of the connection has run and ended. -/
theorem handleLogin_registry (s : Server) (conn : NetConn) (input : List (Option String)) :
    SameRouting s (handleLogin s conn input).server ∨
    ((handleLogin s conn input).outcome = .ret true ∧
      ∃ name, SessionEnded s (handleLogin s conn input).server conn name) := by
  have hroute := (handleLoginName_state conn input s).1
  unfold handleLogin
  rcases hn : handleLoginName conn input s with ⟨nr, s1, rest⟩
  rw [hn] at hroute
  have hroute' : SameRouting s s1 := hroute
  cases nr with
  | exit o => exact Or.inl hroute'
  | named name =>
    dsimp only
    by_cases hsend : (SendMessage s1 conn ("昵称 '" ++ name ++ "' 已注册，请输入密码：")).2 = true
    · rw [if_pos hsend]
      exact Or.inl hroute'
    · rw [if_neg hsend]
      have hok : ¬ (conn ∈ s1.writeFails ∨ conn ∈ s1.closedConns) := by
        intro h
        apply hsend
        simp [SendMessage, h]
      rcases handleLoginPassword_registry conn name rest 0
          (SendMessage s1 conn ("昵称 '" ++ name ++ "' 已注册，请输入密码：")).1 hok with h | h
      · exact Or.inl (sameRouting_trans _ _ _ hroute' h)
      · exact Or.inr ⟨h.1, name, sessionEnded_of_sameRouting _ _ _ conn name hroute' h.2⟩

/-- What the loop of `handleAuthentication` does to the registry: nothing, or a
session of the connection has run and ended. -/
theorem authLoop_registry (conn : NetConn) (fuel : Nat) :
    ∀ (input : List (Option String)) (s : Server),
      SameRouting s (authLoop conn fuel input s).server ∨
      ∃ name, SessionEnded s (authLoop conn fuel input s).server conn name := by
  induction fuel with
  | zero => intro input s; exact Or.inl ⟨rfl, rfl, rfl, rfl, rfl⟩
  | succ fuel ih =>
    intro input s
    rw [authLoop.eq_def]
    dsimp only
    cases input with
    | nil => exact Or.inl ⟨rfl, rfl, rfl, rfl, rfl⟩
    | cons x rest =>
      cases x with
      | none => exact Or.inl ⟨rfl, rfl, rfl, rfl, rfl⟩
      | some selection =>
        dsimp only
        have hmenu : SameRouting s (SendMessage s conn menuPrompt).1 :=
          ⟨rfl, rfl, rfl, rfl, rfl⟩
        split_ifs
        · have hl := handleLogin_registry (SendMessage s conn menuPrompt).1 conn rest
          have hfin : SameRouting s (handleLogin (SendMessage s conn menuPrompt).1 conn
              rest).server ∨ ∃ name, SessionEnded s (handleLogin
                (SendMessage s conn menuPrompt).1 conn rest).server conn name := by
            rcases hl with h | ⟨_, name, h⟩
            · exact Or.inl (sameRouting_trans _ _ _ hmenu h)
            · exact Or.inr ⟨name, sessionEnded_of_sameRouting _ _ _ conn name hmenu h⟩
          rcases ho : (handleLogin (SendMessage s conn menuPrompt).1 conn rest).outcome
            with b | _ | _ | _
          · cases b with
            | false =>
              rcases hl with h | ⟨h, _⟩
              · rcases ih (handleLogin (SendMessage s conn menuPrompt).1 conn rest).unread
                  (handleLogin (SendMessage s conn menuPrompt).1 conn rest).server
                  with g | ⟨name, g⟩
                · exact Or.inl (sameRouting_trans _ _ _ (sameRouting_trans _ _ _ hmenu h) g)
                · exact Or.inr ⟨name, sessionEnded_of_sameRouting _ _ _ conn name
                    (sameRouting_trans _ _ _ hmenu h) g⟩
              · rw [ho] at h
                cases h
            | true => exact hfin
          · exact hfin
          · exact hfin
          · exact hfin
        · have hl := (handleRegistrationLogic_state (SendMessage s conn menuPrompt).1
            conn rest).2.1
          have hfin := sameRouting_trans _ _ _ hmenu hl
          rcases ho : (handleRegistrationLogic (SendMessage s conn menuPrompt).1 conn
            rest).outcome with b | _ | _ | _
          · cases b with
            | false =>
              rcases ih (handleRegistrationLogic (SendMessage s conn menuPrompt).1 conn
                  rest).unread
                (handleRegistrationLogic (SendMessage s conn menuPrompt).1 conn rest).server
                with g | ⟨name, g⟩
              · exact Or.inl (sameRouting_trans _ _ _ hfin g)
              · exact Or.inr ⟨name, sessionEnded_of_sameRouting _ _ _ conn name hfin g⟩
            | true => exact Or.inl hfin
          · exact Or.inl hfin
          · exact Or.inl hfin
          · exact Or.inl hfin
        · rcases ih rest (SendMessage (SendMessage s conn menuPrompt).1 conn
            "无效的选项，请重新输入：").1 with g | ⟨name, g⟩
          · exact Or.inl g
          · exact Or.inr ⟨name, g⟩

/-- When every write to the connection fails, `handleLogin` returns `false` on its
first prompt, without reading. -/
theorem handleLogin_deaf (s : Server) (conn : NetConn) (input : List (Option String))
    (h : conn ∈ s.writeFails) :
    handleLogin s conn input = ⟨.ret false, (SendMessage s conn "请输入昵称：").1, input⟩ := by
  have hs : (SendMessage s conn "请输入昵称：").2 = true := by simp [SendMessage, h]
  unfold handleLogin
  rw [handleLoginName.eq_def]
  dsimp only
  rw [if_pos hs]

/-- When every write to the connection fails, `handleRegistrationLogic` returns
`false` on its first prompt, without reading. -/
theorem handleRegistrationLogic_deaf (s : Server) (conn : NetConn)
    (input : List (Option String)) (h : conn ∈ s.writeFails) :
    handleRegistrationLogic s conn input
      = ⟨.ret false, (SendMessage s conn "请输入您想要注册的昵称：").1, input⟩ := by
  have hs : (SendMessage s conn "请输入您想要注册的昵称：").2 = true := by simp [SendMessage, h]
  unfold handleRegistrationLogic
  rw [handleRegistrationName.eq_def]
  dsimp only
  rw [if_pos hs]

/-- When every write to the connection fails, the loop of `handleAuthentication`
leaves the registry and the queues as they are. -/
theorem authLoop_deaf (conn : NetConn) (fuel : Nat) :
    ∀ (input : List (Option String)) (s : Server), conn ∈ s.writeFails →
      SameRouting s (authLoop conn fuel input s).server := by
  induction fuel with
  | zero => intro input s _; exact ⟨rfl, rfl, rfl, rfl, rfl⟩
  | succ fuel ih =>
    intro input s h
    rw [authLoop.eq_def]
    dsimp only
    cases input with
    | nil => exact ⟨rfl, rfl, rfl, rfl, rfl⟩
    | cons x rest =>
      cases x with
      | none => exact ⟨rfl, rfl, rfl, rfl, rfl⟩
      | some selection =>
        dsimp only
        have h1 : conn ∈ (SendMessage s conn menuPrompt).1.writeFails := h
        split_ifs
        · rw [handleLogin_deaf _ conn rest h1]
          exact ih rest _ h
        · rw [handleRegistrationLogic_deaf _ conn rest h1]
          exact ih rest _ h
        · exact ih rest _ h

/-! ## Claim about transport errors during authentication -/

/-- C13, as stated, fails. First run: every write to connection 1 fails, so the menu
prompt is not delivered; `handleAuthentication` nevertheless reads the selection
`1`, then, after `handleLogin` has returned on its failed prompt, reads the next
input as well, and goes on until a receive fails. Second run: the writes to
connection 1 fail from the Password state on. The password is accepted and
`registerClient` is called before the welcome line is sent; that send fails and
`handleLogin` returns `false`, with the connection registered. Back at the menu the
receive fails: the loop and the deferred function of `handleAuthentication`, run
from that state, return with the connection still in the registry and not
closed. -/
theorem send_failure_does_not_end_authentication :
    ((SendMessage authServerDeaf 1 menuPrompt).2 = true ∧
      (handleAuthentication authServerDeaf 1 [some "1", some "hello"]).unread = [] ∧
      (handleAuthentication authServerDeaf 1 [some "1", some "hello"]).server.sendLog
        = [(1, "欢迎！请选择操作：\n1.登录\n2.注册"),
           (1, "请输入昵称："),
           (1, "欢迎！请选择操作：\n1.登录\n2.注册"),
           (1, "无效的选项，请重新输入："),
           (1, "欢迎！请选择操作：\n1.登录\n2.注册")]) ∧
    ((handleLoginPassword 1 "alice" 0 [some "secret", none] authServerDeaf).outcome
        = .ret false ∧
      (handleLoginPassword 1 "alice" 0 [some "secret", none] authServerDeaf).unread
        = [none] ∧
      mapGet (handleLoginPassword 1 "alice" 0 [some "secret", none]
        authServerDeaf).server.clientConnToName 1 = some "alice" ∧
      (handleAuthentication
        (handleLoginPassword 1 "alice" 0 [some "secret", none] authServerDeaf).server 1
        [none]).outcome = .done ∧
      mapGet (handleAuthentication
        (handleLoginPassword 1 "alice" 0 [some "secret", none] authServerDeaf).server 1
        [none]).server.clientConnToName 1 = some "alice" ∧
      mapGet (handleAuthentication
        (handleLoginPassword 1 "alice" 0 [some "secret", none] authServerDeaf).server 1
        [none]).server.clients "alice" = some 1 ∧
      (handleAuthentication
        (handleLoginPassword 1 "alice" 0 [some "secret", none] authServerDeaf).server 1
        [none]).server.closedConns = [] ∧
      (handleAuthentication
        (handleLoginPassword 1 "alice" 0 [some "secret", none] authServerDeaf).server 1
        [none]).server.unregisterChan = []) := by
  refine ⟨⟨by decide, by decide, by decide⟩,
    by decide, by decide, by decide, by decide, by decide, by decide, by decide, by decide⟩

/-- C13, amended. For a connection that is not in the registry when the call
begins, `handleAuthentication` always ends: it returns, or it panics, and it panics
only on a nil credential store. Whatever follows a failed receive on the connection
is left unread, in every authentication state. When the call ends, either the
connection is closed, it is not in the registry, and the registry and the queues
are as they were; or a login was accepted, its session has run and ended, and the
connection is registered and on the unregister queue. The first is the case
whenever the writes to the connection fail. -/
theorem receive_failure_ends_authentication (s : Server) (conn : NetConn)
    (input : List (Option String)) (hfresh : mapGet s.clientConnToName conn = none) :
    ((handleAuthentication s conn input).outcome = .done ∨
      (handleAuthentication s conn input).outcome = .panic) ∧
    (s.userDB.isSome = true → (handleAuthentication s conn input).outcome = .done) ∧
    (∀ pre rest : List (Option String), input = pre ++ none :: rest →
      ∃ u, (handleAuthentication s conn input).unread = u ++ rest) ∧
    (ClosedUnregistered s (handleAuthentication s conn input).server conn ∨
      ∃ name, SessionEnded s (handleAuthentication s conn input).server conn name) ∧
    (conn ∈ s.writeFails →
      ClosedUnregistered s (handleAuthentication s conn input).server conn) := by
  obtain ⟨ho, hsome⟩ := authLoop_outcome conn (input.length + 1) input s (Nat.lt_succ_self _)
  have hreads := authLoop_reads conn (input.length + 1) input s
  have hreg := authLoop_registry conn (input.length + 1) input s
  have hdeaf := authLoop_deaf conn (input.length + 1) input s
  unfold handleAuthentication
  dsimp only
  cases hget : mapGet (authLoop conn (input.length + 1) input s).server.clientConnToName
      conn with
  | none =>
    have hsame : SameRouting s (authLoop conn (input.length + 1) input s).server := by
      rcases hreg with h | ⟨name, h⟩
      · exact h
      · rw [h.2.1, mapGet_mapSet_same] at hget
        cases hget
    have hclosed : ClosedUnregistered s
        (closeConn (authLoop conn (input.length + 1) input s).server conn) conn :=
      ⟨hsame, hget, by simp [closeConn]⟩
    exact ⟨ho, hsome, fun pre rest hin => reads_stops_at_failure _ _ pre rest _ hreads hin,
      Or.inl hclosed, fun _ => hclosed⟩
  | some name =>
    have hsess : ∃ name, SessionEnded s (authLoop conn (input.length + 1) input s).server
        conn name := by
      rcases hreg with h | h
      · rw [h.2.1, hfresh] at hget
        cases hget
      · exact h
    refine ⟨ho, hsome, fun pre rest hin => reads_stops_at_failure _ _ pre rest _ hreads hin,
      Or.inr hsess, fun hw => ?_⟩
    have h := hdeaf hw
    rw [h.2.1, hfresh] at hget
    cases hget

/-- The amended C13 at concrete runs on `authServer`, whose store knows alice. The
receive fails in the Menu state, in the LoginName state, in the Password state of a
login, in the RegisterName state and in the Password state of a registration: each
time what follows the failure is unread and the connection is closed and not in the
registry. The same holds for the run in which every write fails. -/
theorem receive_failure_ends_authentication_witness :
    ((∃ u, (handleAuthentication authServer 1 [none, some "1"]).unread = u ++ [some "1"]) ∧
      ClosedUnregistered authServer
        (handleAuthentication authServer 1 [none, some "1"]).server 1) ∧
    ((handleAuthentication authServer 1 [some "1", none, some "alice"]).outcome = .done ∧
      (∃ u, (handleAuthentication authServer 1 [some "1", none, some "alice"]).unread
        = u ++ [some "alice"]) ∧
      ClosedUnregistered authServer
        (handleAuthentication authServer 1 [some "1", none, some "alice"]).server 1) ∧
    ClosedUnregistered authServer
      (handleAuthentication authServer 1
        [some "1", some "alice", none, some "secret"]).server 1 ∧
    ClosedUnregistered authServer
      (handleAuthentication authServer 1 [some "2", none, some "carol"]).server 1 ∧
    ClosedUnregistered authServer
      (handleAuthentication authServer 1 [some "2", some "carol", none, some "pw"]).server 1 ∧
    ClosedUnregistered authServerDeaf
      (handleAuthentication authServerDeaf 1 [some "1", some "hello"]).server 1 :=
  ⟨⟨(receive_failure_ends_authentication authServer 1 [none, some "1"] rfl).2.2.1
        [] [some "1"] rfl,
      (receive_failure_ends_authentication authServer 1 [none, some "1"]
        rfl).2.2.2.1.resolve_right (fun h => h.elim (fun _ g => absurd g.2.2 (by decide)))⟩,
    ⟨(receive_failure_ends_authentication authServer 1 [some "1", none, some "alice"]
        rfl).2.1 rfl,
      (receive_failure_ends_authentication authServer 1 [some "1", none, some "alice"]
        rfl).2.2.1 [some "1"] [some "alice"] rfl,
      (receive_failure_ends_authentication authServer 1 [some "1", none, some "alice"]
        rfl).2.2.2.1.resolve_right (fun h => h.elim (fun _ g => absurd g.2.2 (by decide)))⟩,
    (receive_failure_ends_authentication authServer 1
      [some "1", some "alice", none, some "secret"]
      rfl).2.2.2.1.resolve_right (fun h => h.elim (fun _ g => absurd g.2.2 (by decide))),
    (receive_failure_ends_authentication authServer 1 [some "2", none, some "carol"]
      rfl).2.2.2.1.resolve_right (fun h => h.elim (fun _ g => absurd g.2.2 (by decide))),
    (receive_failure_ends_authentication authServer 1
      [some "2", some "carol", none, some "pw"]
      rfl).2.2.2.1.resolve_right (fun h => h.elim (fun _ g => absurd g.2.2 (by decide))),
    (receive_failure_ends_authentication authServerDeaf 1 [some "1", some "hello"]
      rfl).2.2.2.2 (by decide)⟩

/-! ## Claim about the read lock of the broadcaster -/

/-- The read locks held after `broadcastMessage`: as many as before for the kinds
system, private and chat, one more for every other kind. -/
theorem broadcastMessage_readLocks (s : Server) (m : ClientMessage) :
    (broadcastMessage s m).readLocks =
      if m.Type_ = "system" ∨ m.Type_ = "private" ∨ m.Type_ = "chat" then s.readLocks
      else s.readLocks + 1 := by
  have h1 : ¬ ("private" : String) = "system" := by decide
  have h2 : ¬ ("chat" : String) = "system" := by decide
  have h3 : ¬ ("chat" : String) = "private" := by decide
  by_cases hs : m.Type_ = "system"
  · simp [broadcastMessage, hs, rangeSend_eq, unlockAndCleanup]
  · by_cases hp : m.Type_ = "private"
    · cases ht : mapGet s.clients m.Target <;> cases hn : mapGet s.clients m.Name <;>
        simp [broadcastMessage, hp, h1, ht, hn, SendMessage, unlockAndCleanup]
    · by_cases hc : m.Type_ = "chat"
      · simp [broadcastMessage, hc, h2, h3, rangeSend_eq, unlockAndCleanup]
      · simp [broadcastMessage, hs, hp, hc]

/-- C21 on the code. For the kinds system, private and chat the read lock is
released, but for every other kind `broadcastMessage` returns from its default
branch with the read lock still held. Such an envelope arrives through the durable
queue: the consumer hands a stream entry of type `notice` to `ChatTaskHandler`,
which puts it on the broadcast queue with that type, and the broadcaster then ends
its turn holding one read lock more than before, having sent nothing. -/
theorem broadcastMessage_leaks_read_lock :
    (∀ (s : Server) (m : ClientMessage),
      (broadcastMessage s m).readLocks =
        if m.Type_ = "system" ∨ m.Type_ = "private" ∨ m.Type_ = "chat" then s.readLocks
        else s.readLocks + 1) ∧
    (chatConsumerStep serverWithForeignEntry).map (fun t => t.broadcastChan)
      = some [{ Conn := none, Name := "ops", Message := "maintenance", Type_ := "notice",
                Target := "" }] ∧
    (chatConsumerStep serverWithForeignEntry).map (fun t => (handleBroadcastsStep t).readLocks)
      = some (serverWithForeignEntry.readLocks + 1) ∧
    (chatConsumerStep serverWithForeignEntry).map (fun t => (handleBroadcastsStep t).sendLog)
      = some [] ∧
    (broadcastMessage roomWithBrokenBob
      { Conn := none, Name := "ops", Message := "maintenance", Type_ := "notice",
        Target := "" }).readLocks = roomWithBrokenBob.readLocks + 1 := by
  refine ⟨broadcastMessage_readLocks, by decide, by decide, by decide, by decide⟩

end ChatServer
